import Mathlib

/-!
bstream: file source, sink and block payloads

A shallow embedding of `filesource.go` and `block_payload.go`.

* unsigned 64-bit values (`uint64` block numbers) are natural numbers; the one
  place where the source can overflow (`currentIndex += filesBlocksIncrement`)
  is reduced modulo `2 ^ 64`;
* Go `error` values are the inductive type `Err`, with `fmt.Errorf("...: %w", e)`
  as the constructor `Err.wrap`;
* the object stores, the block reader, the gate, the transform and the consumer
  are external collaborators and appear as fields holding their observable
  answers;
* calls made on collaborators are logged as `Event`s.
-/

namespace Bstream

/-! ## Data model -/

/-- Go `error` values. `eof` is the sentinel `io.EOF`, `notFound` the not-found
error the specification speaks of, `msg` an error created by a collaborator,
`wrap ctx e` the value of `fmt.Errorf(ctx + ": %w", e)` (the formatted
arguments of `ctx` are left out). -/
inductive Err where
  | eof : Err
  | notFound : Err
  | msg : String → Err
  | wrap : String → Err → Err
  deriving DecidableEq, Repr

/-- Modelled from the spec: the not-found error of the payload store section,
which no file of the source tree declares or constructs. It is the sentinel
`Err.notFound`, recognised through `%w` wrapping as `errors.Is` does. -/
def Err.isNotFound : Err → Bool
  | .notFound => true
  | .wrap _ e => e.isNotFound
  | _ => false

/-- Byte strings (`[]byte`). -/
abbrev Bytes := List (Fin 256)

/-- Result of a `BlockPayload.Get()` call: `(data, err)`. -/
structure GetReturn where
  data : Bytes
  err : Option Err
  deriving DecidableEq, Repr

/-- Modelled from the spec: the type `Block`, declared outside the source tree
(identity, number, timestamp and payload). The payload is an interface value
whose dynamic type is chosen by the external decoder, so the record keeps
what `Payload.Get()` answers. -/
structure Block where
  id : String
  num : Nat
  timestamp : Nat
  payloadGet : GetReturn
  deriving DecidableEq, Repr

/-- Modelled from the spec: the interface `BlockRef`, declared outside the
source tree: an (identity, number) pair. -/
structure BlockRef where
  id : String
  num : Nat
  deriving DecidableEq, Repr

/-- Transform results (the `interface{}` values returned by the preprocess
function); `nilObj` is the Go `nil`. -/
inductive Obj where
  | nilObj : Obj
  | val : Nat → Obj
  deriving DecidableEq, Repr

/-- A `PreprocessedBlock`: a block paired with its transform result. -/
structure PreprocessedBlock where
  block : Block
  obj : Obj
  deriving DecidableEq, Repr

/-- One result `(blk, err)` of `BlockReader.Read()`:
`ok b` is `(b, nil)`, `last b` is `(b, io.EOF)`, `eof` is `(nil, io.EOF)` and
`fail e` is any result whose `err` is neither nil nor `io.EOF`. A reader never
answers `(nil, nil)`. -/
inductive ReadResult where
  | ok : Block → ReadResult
  | last : Block → ReadResult
  | eof : ReadResult
  | fail : Err → ReadResult
  deriving DecidableEq, Repr

/-- A `BlockReader` is the list of the results of its successive `Read()` calls;
once the list is used up every further call answers `(nil, io.EOF)`. -/
abbrev BlockReader := List ReadResult

/-- The reader of a batch that decodes `blocks` without error. -/
def readerOf (blocks : List Block) : BlockReader :=
  blocks.map ReadResult.ok

/-- An object store, as seen at one instant: `FileExists` and `OpenObject`. -/
structure Store where
  fileExists : String → Except Err Bool
  openObject : String → Except Err Bytes

/-- Calls made on the collaborators, in call order. Store `0` is the primary
store, store `i + 1` is `secondaryBlocksStores[i]`. -/
inductive Event where
  | fileExists : Nat → String → Event
  | openObject : Nat → String → Event
  | notFoundCallback : Nat → Event
  | processBlock : PreprocessedBlock → Event
  deriving DecidableEq, Repr

/-! ## Shutdown domain -/

/-- Modelled from the spec: the state of the embedded `*shutter.Shutter`, whose
package is outside the source tree. `none` while running, `some e` once
termination was requested with terminal error `e` (`none` for a clean stop). -/
abbrev Shutter := Option (Option Err)

/-- Modelled from the spec: the method `Shutdown(err)` of the shutter; the
first request wins, later ones are no-ops. -/
def Shutter.shutdown (s : Shutter) (e : Option Err) : Shutter :=
  match s with
  | none => some e
  | some x => some x

/-- Modelled from the spec: the method `IsTerminating()` of the shutter. -/
def Shutter.isTerminating (s : Shutter) : Bool := s.isSome

/-- Modelled from the spec: the method `Err()` of the shutter, the terminal
error (nil on clean stop or while running). -/
def Shutter.err (s : Shutter) : Option Err :=
  match s with
  | some (some e) => some e
  | _ => none

/-! ## File locator (`runMergeFile`) -/

/-- The constant `filesBlocksIncrement`. -/
def filesBlocksIncrement : Nat := 100

/-- The number of `uint64` values. -/
def uint64Size : Nat := 2 ^ 64

/-- The expression `currentIndex - (currentIndex % filesBlocksIncrement)`; the
subtraction cannot wrap since the remainder is at most `currentIndex`. -/
def baseBlockNum (currentIndex : Nat) : Nat :=
  currentIndex - (currentIndex % filesBlocksIncrement)

/-- The statement `currentIndex += filesBlocksIncrement` on a `uint64`. -/
def advance (currentIndex : Nat) : Nat :=
  (currentIndex + filesBlocksIncrement) % uint64Size

/-- The value of `fmt.Sprintf("%010d", n)`: the decimal digits of `n`, padded
on the left with zeros up to width 10. -/
def baseFilename (n : Nat) : String :=
  let digits := Nat.toDigits 10 n
  String.mk (List.replicate (10 - digits.length) '0' ++ digits)

/-- The `w` low decimal digits of `n`, most significant first. -/
def decDigits : Nat → Nat → List Char
  | 0, _ => []
  | w + 1, n => Nat.digitChar (n / 10 ^ w % 10) :: decDigits w n

/-- Outcome of the existence checks of one poll: the stores queried, in order,
and either the wrapped store error, or the selected store, or no store. -/
structure Lookup where
  queried : List Nat
  result : Except Err (Option Nat)

/-- The loop `for _, bs := range s.secondaryBlocksStores`, entered when the
primary store lacks the file; `idx` is the number of the head store. -/
def lookupSecondary (name : String) : List Store → Nat → Lookup
  | [], _ => ⟨[], .ok none⟩
  | bs :: rest, idx =>
    match bs.fileExists name with
    | .error e => ⟨[idx], .error (.wrap "reading file existence" e)⟩
    | .ok true => ⟨[idx], .ok (some idx)⟩
    | .ok false =>
      let r := lookupSecondary name rest (idx + 1)
      ⟨idx :: r.queried, r.result⟩

/-- The existence checks of one poll: primary store first, then the secondary
stores while the file was not found. -/
def lookup (primary : Store) (secondaries : List Store) (name : String) : Lookup :=
  match primary.fileExists name with
  | .error e => ⟨[0], .error (.wrap "reading file existence" e)⟩
  | .ok true => ⟨[0], .ok (some 0)⟩
  | .ok false =>
    let r := lookupSecondary name secondaries 1
    ⟨0 :: r.queried, r.result⟩

/-- The stores visible at one poll. -/
structure Stores where
  primary : Store
  secondaries : List Store

/-- Store number `i` of a store set. -/
def Stores.get (w : Stores) (i : Nat) : Option Store :=
  match i with
  | 0 => some w.primary
  | j + 1 => w.secondaries.get? j

/-- The loop variables of `runMergeFile`. -/
structure LoopState where
  currentIndex : Nat
  delay : Nat
  deriving DecidableEq, Repr

/-- The locator part of the configuration of a `FileSource`:
`retryDelay`, whether `notFoundCallback` is set, and the protocol constant
`GetProtocolFirstStreamableBlock` (declared outside the source tree). -/
structure LocatorConfig where
  retryDelay : Nat
  hasNotFoundCallback : Bool
  firstStreamableBlock : Nat

/-- What one iteration of the polling loop decided. -/
inductive PollOutcome where
  | failed : Err → PollOutcome
  | miss : LoopState → PollOutcome
  | hit : Nat → String → PollOutcome
  deriving DecidableEq, Repr

/-- The argument handed to the miss hook: `baseBlockNum` raised to
`GetProtocolFirstStreamableBlock` when below it. -/
def mergerBaseBlockNum (cfg : LocatorConfig) (base : Nat) : Nat :=
  if base < cfg.firstStreamableBlock then cfg.firstStreamableBlock else base

/-- One iteration of the loop of `runMergeFile` from the computation of
`baseBlockNum` up to (not including) the dispatch of a found file: the events
it causes and its outcome. On a miss the loop state for the next iteration is
given; on a hit the selected store and the file name. -/
def poll (cfg : LocatorConfig) (w : Stores) (st : LoopState) : List Event × PollOutcome :=
  let base := baseBlockNum st.currentIndex
  let name := baseFilename base
  let lk := lookup w.primary w.secondaries name
  let checks := lk.queried.map (fun i => Event.fileExists i name)
  match lk.result with
  | .error e => (checks, .failed e)
  | .ok none =>
    let hook := if cfg.hasNotFoundCallback then
      [Event.notFoundCallback (mergerBaseBlockNum cfg base)] else []
    (checks ++ hook, .miss ⟨st.currentIndex, cfg.retryDelay⟩)
  | .ok (some i) => (checks, .hit i name)

/-- The loop state after a found file was dispatched: `delay = 0` and
`currentIndex += filesBlocksIncrement`. -/
def afterHit (st : LoopState) : LoopState :=
  ⟨advance st.currentIndex, 0⟩

/-! ## Per-file pipeline (`streamReader`, `preprocess`) -/

/-- The part of a `FileSource` read by `streamReader` and `preprocess`, plus the
`prevLastBlockRead` argument of `streamReader` (`none` is the nil cursor). -/
structure StreamConfig where
  startBlockNum : Nat
  gator : Option (Block → Bool)
  preprocFunc : Option (Block → Except Err Obj)
  preprocessorThreadCount : Nat
  prevLastBlockRead : Option BlockRef

/-- The initial value of `previousLastBlockPassed`: true exactly when the
cursor is nil. -/
def initialPassed (cfg : StreamConfig) : Bool := cfg.prevLastBlockRead.isNone

/-- What one iteration of the read loop does with the result of `Read()`. -/
inductive ReadAction where
  | fail : Err → ReadAction
  | finish : ReadAction
  | skip : Bool → ReadAction
  | publish : Block → ReadAction
  deriving DecidableEq, Repr

/-- The three filters applied to a decoded block, in source order: the start
number, the resume cursor (`skip` carries the new value of
`previousLastBlockPassed`), the gate. -/
def filterBlock (cfg : StreamConfig) (passed : Bool) (b : Block) : ReadAction :=
  if b.num < cfg.startBlockNum then .skip passed
  else if !passed then
    match cfg.prevLastBlockRead with
    | some ref => .skip (decide (ref.id = b.id))
    | none => .skip false
  else
    match cfg.gator with
    | some pass => if pass b then .publish b else .skip passed
    | none => .publish b

/-- One iteration of the read loop of `streamReader`, after `Read()` returned
`r`: a decode error ends the loop with that error, `io.EOF` with no block (or
with block number 0) ends it cleanly, any other block goes through the filters. -/
def readStep (cfg : StreamConfig) (passed : Bool) (r : ReadResult) : ReadAction :=
  match r with
  | .fail e => .fail e
  | .eof => .finish
  | .last b => if b.num = 0 then .finish else filterBlock cfg passed b
  | .ok b => filterBlock cfg passed b

/-- The function `preprocess` up to its final send: the transform result of a
block (`nil` when no transform is configured) or the transform error. -/
def preprocessResult (cfg : StreamConfig) (b : Block) : Except Err Obj :=
  match cfg.preprocFunc with
  | none => .ok .nilObj
  | some f => f b

/-- The blocks a read loop publishes, in order, when it is left to run until
the reader ends or fails. -/
def admittedBlocks (cfg : StreamConfig) : Bool → BlockReader → List Block
  | _, [] => []
  | passed, r :: rest =>
    match readStep cfg passed r with
    | .fail _ => []
    | .finish => []
    | .skip p => admittedBlocks cfg p rest
    | .publish b => b :: admittedBlocks cfg passed rest

/-- The state of the one-element channel `out` of a published block: its
transform task is still running, has sent its result, or has returned without
sending. -/
inductive SlotState where
  | running : SlotState
  | ready : Obj → SlotState
  | dead : SlotState
  deriving DecidableEq, Repr

/-- A result slot: the channel `out` allocated for a published block. -/
structure Slot where
  block : Block
  state : SlotState
  deriving DecidableEq, Repr

/-- Where the goroutine running the read loop stands: in the loop, blocked on
`<-done` after a clean end of the reader, or returned with its error. -/
inductive MainPc where
  | reading : MainPc
  | waitDone : MainPc
  | returned : Option Err → MainPc
  deriving DecidableEq, Repr

/-- The state of one run of `streamReader`: the unread part of the reader,
`previousLastBlockPassed`, the read loop, the buffer of the channel
`preprocessed`, whether that channel is closed, the `err` result left by the
last `Read()`, the slot the forwarding goroutine received and is waiting on,
whether the forwarding goroutine has returned (closing `output` and `done`),
everything sent on `output` so far, and the shutdown domain. -/
structure Pipeline where
  reads : BlockReader
  passed : Bool
  main : MainPc
  preprocessed : List Slot
  closed : Bool
  lastErr : Option Err
  held : Option Slot
  fwdDone : Bool
  output : List PreprocessedBlock
  shutter : Shutter
  deriving DecidableEq, Repr

/-- The state in which `streamReader` starts on a reader. -/
def Pipeline.init (cfg : StreamConfig) (reads : BlockReader) (sh : Shutter) : Pipeline :=
  { reads := reads, passed := initialPassed cfg, main := .reading, preprocessed := [],
    closed := false, lastErr := none, held := none, fwdDone := false, output := [], shutter := sh }

/-- The result slots whose block was published and not yet forwarded, oldest
first. -/
def Pipeline.inflight (s : Pipeline) : List Slot := s.held.toList ++ s.preprocessed

/-- The scheduling choices: which goroutine moves next.
* `main`: the read loop runs one iteration (or, blocked on `<-done`, returns);
* `preprocess i`: the transform task of in-flight slot `i` runs to its end and
  sends its result;
* `preprocessCancel i`: that task takes the terminating branch of its `select`;
* `forward`: the forwarding goroutine takes the channel branch of the `select`
  it is blocked on;
* `forwardCancel`: it takes the terminating branch;
* `shutdown e`: some other task calls `Shutdown(e)`. -/
inductive Action where
  | main : Action
  | preprocess : Nat → Action
  | preprocessCancel : Nat → Action
  | forward : Action
  | forwardCancel : Action
  | shutdown : Option Err → Action
  deriving DecidableEq, Repr

/-- Replace the state of slot `i` of a list of slots. -/
def setState (st : SlotState) : Nat → List Slot → List Slot
  | _, [] => []
  | 0, x :: xs => { x with state := st } :: xs
  | i + 1, x :: xs => x :: setState st i xs

/-- Replace the state of in-flight slot `i` (slot 0 is the held slot when there
is one). -/
def Pipeline.setSlot (s : Pipeline) (i : Nat) (st : SlotState) : Pipeline :=
  match s.held, i with
  | some h, 0 => { s with held := some { h with state := st } }
  | some _, j + 1 => { s with preprocessed := setState st j s.preprocessed }
  | none, j => { s with preprocessed := setState st j s.preprocessed }

/-- The `err` component of a result of `Read()`. -/
def ReadResult.err : ReadResult → Option Err
  | .ok _ => none
  | .last _ => some .eof
  | .eof => some .eof
  | .fail e => some e

/-- One move of the read loop. At the top of an iteration a terminating
shutter makes it return (the named result `err` still holds what the last
`Read()` left in it); otherwise `Read()` is called and `readStep` applied.
Publishing needs room in the buffer of `preprocessed`, whose capacity is
`preprocessorThreadCount`; without room the goroutine is blocked (`none`). A
reader that is used up answers `(nil, io.EOF)`. -/
def stepMain (cfg : StreamConfig) (s : Pipeline) : Option Pipeline :=
  match s.main with
  | .returned _ => none
  | .waitDone => if s.fwdDone then some { s with main := .returned none } else none
  | .reading =>
    if s.shutter.isTerminating then some { s with main := .returned s.lastErr }
    else
      match s.reads with
      | [] => some { s with closed := true, main := .waitDone, lastErr := some .eof }
      | r :: rest =>
        match readStep cfg s.passed r with
        | .fail e =>
          some { s with reads := rest, closed := true, main := .returned (some e), lastErr := r.err }
        | .finish =>
          some { s with reads := rest, closed := true, main := .waitDone, lastErr := r.err }
        | .skip p => some { s with reads := rest, passed := p, lastErr := r.err }
        | .publish b =>
          if s.preprocessed.length < cfg.preprocessorThreadCount then
            some { s with reads := rest, lastErr := r.err,
                          preprocessed := s.preprocessed ++ [⟨b, .running⟩] }
          else none

/-- The transform task of in-flight slot `i` runs `preprocess`: on a transform
error it requests shutdown with the wrapped error and sends nothing, otherwise
it sends the preprocessed block into its slot. -/
def stepPreprocess (cfg : StreamConfig) (i : Nat) (s : Pipeline) : Option Pipeline :=
  match s.inflight.get? i with
  | some ⟨b, .running⟩ =>
    match preprocessResult cfg b with
    | .error e =>
      some { s.setSlot i .dead with shutter := s.shutter.shutdown (some (.wrap "preprocess block" e)) }
    | .ok obj => some (s.setSlot i (.ready obj))
  | _ => none

/-- The transform task of in-flight slot `i` returns through the terminating
branch of its final `select`; a transform error met before that requests a
shutdown that is a no-op, the shutter being terminating already. -/
def stepPreprocessCancel (i : Nat) (s : Pipeline) : Option Pipeline :=
  match s.inflight.get? i with
  | some ⟨_, .running⟩ => if s.shutter.isTerminating then some (s.setSlot i .dead) else none
  | _ => none

/-- One move of the forwarding goroutine through a channel branch: with no
slot in hand it receives the oldest slot from `preprocessed`, or returns when
that channel is closed and drained; with a slot in hand it receives the
preprocessed block from it and sends it on `output`. -/
def stepForward (s : Pipeline) : Option Pipeline :=
  if s.fwdDone then none
  else
    match s.held with
    | some ⟨b, .ready obj⟩ => some { s with held := none, output := s.output ++ [⟨b, obj⟩] }
    | some _ => none
    | none =>
      match s.preprocessed with
      | sl :: rest => some { s with held := some sl, preprocessed := rest }
      | [] => if s.closed then some { s with fwdDone := true } else none

/-- The forwarding goroutine returns through a terminating branch. -/
def stepForwardCancel (s : Pipeline) : Option Pipeline :=
  if s.fwdDone then none
  else if s.shutter.isTerminating then some { s with fwdDone := true }
  else none

/-- One scheduled move; `none` when the chosen goroutine cannot move. -/
def step (cfg : StreamConfig) (a : Action) (s : Pipeline) : Option Pipeline :=
  match a with
  | .main => stepMain cfg s
  | .preprocess i => stepPreprocess cfg i s
  | .preprocessCancel i => stepPreprocessCancel i s
  | .forward => stepForward s
  | .forwardCancel => stepForwardCancel s
  | .shutdown e => some { s with shutter := s.shutter.shutdown e }

/-- A schedule played from a state; `none` when one of its moves is impossible. -/
def run (cfg : StreamConfig) : List Action → Pipeline → Option Pipeline
  | [], s => some s
  | a :: rest, s =>
    match step cfg a s with
    | none => none
    | some s1 => run cfg rest s1

/-- The schedule in which every published block is transformed and forwarded
before the next `Read()`. -/
def lockstep (cfg : StreamConfig) : Bool → BlockReader → List Action
  | _, [] => [.main, .forward, .main]
  | passed, r :: rest =>
    match readStep cfg passed r with
    | .fail _ => [.main, .forward]
    | .finish => [.main, .forward, .main]
    | .skip p => .main :: lockstep cfg p rest
    | .publish _ => .main :: .forward :: .preprocess 0 :: .forward :: lockstep cfg passed rest

/-- The pair `r` is a schedule and the state it leads to when `streamReader`
runs on the batch `blocks` (decoded without error): the schedule can be played,
the forwarding goroutine has returned, and no termination was requested. -/
def Completes (cfg : StreamConfig) (blocks : List Block) (r : List Action × Pipeline) : Prop :=
  run cfg r.1 (Pipeline.init cfg (readerOf blocks) none) = some r.2 ∧
    r.2.fwdDone = true ∧ r.2.shutter = none

/-- What the filters of the read loop come to with a nil cursor: the block
number is not below the start number and the gate, if any, lets the block
pass. -/
def admits (cfg : StreamConfig) (b : Block) : Bool :=
  decide (cfg.startBlockNum ≤ b.num) &&
    match cfg.gator with
    | none => true
    | some pass => pass b

/-- The blocks still to be published by a read loop that is left to run. -/
def Pipeline.pending (cfg : StreamConfig) (s : Pipeline) : List Block :=
  if s.main = .reading then admittedBlocks cfg s.passed s.reads else []

/-- The invariant of a run of `streamReader` whose read loop is to publish
`target`: forwarded, in-flight and pending blocks make up `target` in order
(a prefix of it once termination was requested), every forwarded or ready
result is the transform result of its block, a closed `preprocessed` channel
means the read loop is over, and a forwarding goroutine that returned without
termination left nothing behind. -/
structure Inv (cfg : StreamConfig) (target : List Block) (s : Pipeline) : Prop where
  isPrefix : (s.output.map (fun pb => pb.block) ++ s.inflight.map (fun sl => sl.block)) <+: target
  blocks : s.shutter = none →
    s.output.map (fun pb => pb.block) ++ s.inflight.map (fun sl => sl.block) ++ s.pending cfg = target
  outOk : ∀ pb ∈ s.output, preprocessResult cfg pb.block = .ok pb.obj
  slotOk : ∀ sl ∈ s.inflight, ∀ o, sl.state = .ready o → preprocessResult cfg sl.block = .ok o
  closedMain : s.closed = true → s.main ≠ .reading
  doneOk : s.fwdDone = true → s.shutter = none → s.closed = true ∧ s.inflight = []

/-- A second invariant of a run of `streamReader`, for as long as no
termination is requested: no transform task has given up, and a read loop
that is over has closed the channel `preprocessed`. -/
def Live (s : Pipeline) : Prop :=
  s.shutter = none →
    (∀ sl ∈ s.inflight, sl.state ≠ .dead) ∧ (s.main ≠ .reading → s.closed = true)

/-! ## Sink (`launchSink`) -/

/-- What a call of the consumer `ProcessBlock` did: the error it returned and
the shutdown requested on the engine while it ran, if any (by the consumer
itself or by another task). -/
structure HandlerResult where
  err : Option Err
  shutdown : Option (Option Err)
  deriving DecidableEq, Repr

/-- A consumer with internal state `σ`. -/
abbrev Handler (σ : Type) := σ → PreprocessedBlock → σ × HandlerResult

/-- The state shared by the tasks of an engine: the shutdown domain, the state
of the consumer, and the calls made on collaborators so far. -/
structure Engine (σ : Type) where
  shutter : Shutter
  hstate : σ
  events : List Event

/-- A shutdown request that may be absent. -/
def Shutter.request (sh : Shutter) : Option (Option Err) → Shutter
  | none => sh
  | some e => sh.shutdown e

/-- The `for preBlock := range incomingFile.blocks` loop over the blocks the
file delivers on its queue. The flag tells whether `launchSink` returned from
inside the loop (terminating shutter seen, or consumer error) instead of
reaching the end of the queue. -/
def sinkFile {σ : Type} (h : Handler σ) : List PreprocessedBlock → Engine σ → Engine σ × Bool
  | [], eng => (eng, false)
  | pb :: rest, eng =>
    if eng.shutter.isTerminating then (eng, true)
    else
      let r := h eng.hstate pb
      let eng1 : Engine σ :=
        { shutter := eng.shutter.request r.2.shutdown, hstate := r.1,
          events := eng.events ++ [.processBlock pb] }
      match r.2.err with
      | some e =>
        ({ eng1 with shutter := eng1.shutter.shutdown (some (.wrap "process block failed" e)) },
          true)
      | none => sinkFile h rest eng1

/-- The function `launchSink` over the queues of the discovered files, in
discovery order. With a terminating shutter the outer `select` returns (were
it to take the file branch instead, the first iteration of the inner loop
would return before any consumer call). When no file is left it blocks until
termination. -/
def launchSink {σ : Type} (h : Handler σ) : List (List PreprocessedBlock) → Engine σ → Engine σ
  | [], eng => eng
  | f :: fs, eng =>
    if eng.shutter.isTerminating then eng
    else
      match sinkFile h f eng with
      | (eng1, true) => eng1
      | (eng1, false) => launchSink h fs eng1

/-- The consumer called on successive blocks, whatever it answers: its final
state and its answers in call order. -/
def handlerRun {σ : Type} (h : Handler σ) : σ → List PreprocessedBlock → σ × List HandlerResult
  | s, [] => (s, [])
  | s, pb :: rest =>
    let r := h s pb
    let q := handlerRun h r.1 rest
    (q.1, r.2 :: q.2)

/-! ## The engine (`Run`, `runMergeFile`, `streamIncomingFile`) -/

/-- The fields of a `FileSource` (merged-files mode). The stores are given
apart, since their content changes over time; `firstStreamableBlock` is the
package variable `GetProtocolFirstStreamableBlock`. -/
structure FileSource (σ : Type) where
  startBlockNum : Nat
  blockReaderFactory : Bytes → Except Err BlockReader
  preprocFunc : Option (Block → Except Err Obj)
  gator : Option (Block → Bool)
  handler : Handler σ
  retryDelay : Nat
  hasNotFoundCallback : Bool
  preprocessorThreadCount : Nat
  firstStreamableBlock : Nat

/-- The configuration `streamReader` sees when called with cursor `prev`. -/
def FileSource.streamConfig {σ : Type} (fs : FileSource σ) (prev : Option BlockRef) :
    StreamConfig :=
  ⟨fs.startBlockNum, fs.gator, fs.preprocFunc, fs.preprocessorThreadCount, prev⟩

/-- The configuration the polling loop sees. -/
def FileSource.locatorConfig {σ : Type} (fs : FileSource σ) : LocatorConfig :=
  ⟨fs.retryDelay, fs.hasNotFoundCallback, fs.firstStreamableBlock⟩

/-- The function `streamReader` together with the transform tasks and the sink,
under the lock-step schedule: every published block is transformed, forwarded
and handed to the consumer before the next `Read()`. The result is the error
`streamReader` returns; `lastErr` is the `err` left by the previous `Read()`. -/
def streamFile {σ : Type} (cfg : StreamConfig) (h : Handler σ) :
    Bool → Option Err → BlockReader → Engine σ → Engine σ × Option Err
  | _, lastErr, [], eng => if eng.shutter.isTerminating then (eng, lastErr) else (eng, none)
  | passed, lastErr, r :: rest, eng =>
    if eng.shutter.isTerminating then (eng, lastErr)
    else
      match readStep cfg passed r with
      | .fail e => (eng, some e)
      | .finish => (eng, none)
      | .skip p => streamFile cfg h p r.err rest eng
      | .publish b =>
        match preprocessResult cfg b with
        | .error e =>
          streamFile cfg h passed r.err rest
            { eng with shutter := eng.shutter.shutdown (some (.wrap "preprocess block" e)) }
        | .ok obj => streamFile cfg h passed r.err rest (sinkFile h [⟨b, obj⟩] eng).1

/-- The function `streamIncomingFile` on store number `idx`, called with a nil
cursor: open the object, create the block reader, stream it. -/
def streamIncomingFile {σ : Type} (fs : FileSource σ) (store : Store) (idx : Nat)
    (name : String) (eng : Engine σ) : Engine σ × Option Err :=
  let eng0 : Engine σ := { eng with events := eng.events ++ [.openObject idx name] }
  match store.openObject name with
  | .error e => (eng0, some (.wrap "fetching from block store" e))
  | .ok bytes =>
    match fs.blockReaderFactory bytes with
    | .error e => (eng0, some (.wrap "unable to create block reader" e))
    | .ok reader =>
      let cfg := fs.streamConfig none
      match streamFile cfg fs.handler (initialPassed cfg) none reader eng0 with
      | (eng1, some e) => (eng1, some (.wrap "error processing incoming file" e))
      | (eng1, none) => (eng1, none)

/-- The goroutine started for a found file: `streamIncomingFile`, and a
shutdown request when it fails. -/
def processFile {σ : Type} (fs : FileSource σ) (w : Stores) (idx : Nat) (name : String)
    (eng : Engine σ) : Engine σ :=
  match w.get idx with
  | none => eng
  | some store =>
    match streamIncomingFile fs store idx name eng with
    | (eng1, some e) =>
      { eng1 with shutter := eng1.shutter.shutdown (some (.wrap "processing of file failed" e)) }
    | (eng1, none) => eng1

/-- One iteration of the loop of `runMergeFile` (after the sleep), the file it
finds being processed in lock-step before the next iteration; `w` is the
content of the stores during the iteration. The second component is the loop
state for the next iteration, or the error the function returns with. A found
file is always dispatched: the shutter was seen running at the top of the
iteration and no other task has run since. -/
def iteration {σ : Type} (fs : FileSource σ) (w : Stores) (st : LoopState) (eng : Engine σ) :
    Engine σ × Except (Option Err) LoopState :=
  if eng.shutter.isTerminating then (eng, .error none)
  else
    let r := poll fs.locatorConfig w st
    let eng1 : Engine σ := { eng with events := eng.events ++ r.1 }
    match r.2 with
    | .failed e => (eng1, .error (some e))
    | .miss st1 => (eng1, .ok st1)
    | .hit idx name => (processFile fs w idx name eng1, .ok (afterHit st))

/-- The loop of `runMergeFile` cut after `n` iterations; `world t` is the
content of the stores at iteration `t`. -/
def iterate {σ : Type} (fs : FileSource σ) (world : Nat → Stores) :
    Nat → Nat → LoopState → Engine σ → Engine σ × Except (Option Err) LoopState
  | 0, _, st, eng => (eng, .ok st)
  | n + 1, t, st, eng =>
    match iteration fs (world t) st eng with
    | (eng1, .error e) => (eng1, .error e)
    | (eng1, .ok st1) => iterate fs world n (t + 1) st1 eng1

/-- The function `runMergeFile` for at most `fuel` iterations of its loop.
`none`: still polling after `fuel` iterations; otherwise the error it returns. -/
def runMergeFile {σ : Type} (fs : FileSource σ) (world : Nat → Stores) :
    Nat → Nat → LoopState → Engine σ → Option (Engine σ × Option Err)
  | 0, _, _, _ => none
  | fuel + 1, t, st, eng =>
    match iteration fs (world t) st eng with
    | (eng1, .error e) => some (eng1, e)
    | (eng1, .ok st1) => runMergeFile fs world fuel (t + 1) st1 eng1

/-- Whether an event is a call on an object store. -/
def Event.isStoreCall : Event → Bool
  | .fileExists _ _ => true
  | .openObject _ _ => true
  | _ => false

/-- The calls made on the object stores, in order. -/
def storeCalls (events : List Event) : List Event := events.filter Event.isStoreCall

/-- The names of the files opened, in order. -/
def openedFiles (events : List Event) : List String :=
  events.filterMap (fun ev =>
    match ev with
    | .openObject _ name => some name
    | _ => none)

/-- The arguments of the calls of the miss hook, in order. -/
def hookCalls (events : List Event) : List Nat :=
  events.filterMap (fun ev =>
    match ev with
    | .notFoundCallback n => some n
    | _ => none)

/-- The blocks handed to the consumer, in order. -/
def delivered (events : List Event) : List PreprocessedBlock :=
  events.filterMap (fun ev =>
    match ev with
    | .processBlock pb => some pb
    | _ => none)

/-- The method `Run`: `s.Shutdown(s.run())`. -/
def FileSource.Run {σ : Type} (fs : FileSource σ) (world : Nat → Stores) (fuel : Nat)
    (eng : Engine σ) : Option (Engine σ) :=
  match runMergeFile fs world fuel 0 ⟨fs.startBlockNum, 0⟩ eng with
  | none => none
  | some (eng1, e) => some { eng1 with shutter := eng1.shutter.shutdown e }

/-! ## Block payloads -/

/-- The in-memory payload. -/
structure MemoryBlockPayload where
  data : Bytes
  deriving DecidableEq, Repr

/-- The method `MemoryBlockPayload.Len`. -/
def MemoryBlockPayload.Len (p : MemoryBlockPayload) : Int := p.data.length

/-- The method `MemoryBlockPayload.Get`: `return p.data, err` with the named
result `err` never assigned. -/
def MemoryBlockPayload.Get (p : MemoryBlockPayload) : GetReturn := ⟨p.data, none⟩

/-- The cache-backed payload. -/
structure ATMCachedBlockPayload where
  blockId : String
  blockNum : Nat
  dataSize : Nat
  deriving DecidableEq, Repr

/-- The answer `(data, found, err)` of the cache to `Read`. -/
structure CacheRead where
  data : Bytes
  found : Bool
  err : Option Err
  deriving DecidableEq, Repr

/-- The package-level state `ATMCachedBlockPayload.Get` works on: the
initialised cache, the store over time, and the collaborators a new
`FileSource` picks up from package variables. -/
structure ColdEnv where
  cacheRead : String → CacheRead
  store : Nat → Store
  blockReaderFactory : Bytes → Except Err BlockReader
  firstStreamableBlock : Nat

/-- The handler built by `Get`; its state is the captured variable `block`. -/
def coldHandler (p : ATMCachedBlockPayload) : Handler (Option Block) :=
  fun captured pb =>
    if pb.block.num ≠ p.blockNum ∨ pb.block.id ≠ p.blockId then (captured, ⟨none, none⟩)
    else (some pb.block, ⟨none, some none⟩)

/-- The test of the handler built by `Get`: number and identity both equal
those of the payload. -/
def isTarget (p : ATMCachedBlockPayload) (b : Block) : Bool :=
  decide (b.num = p.blockNum) && decide (b.id = p.blockId)

/-- The file source built by `Get`: `NewFileSource` with the target number as
start number, the matching handler, no transform, and every option at its
default (the call passes the store, the number, the handler and a logger). -/
def coldFileSource (p : ATMCachedBlockPayload) (env : ColdEnv) : FileSource (Option Block) :=
  { startBlockNum := p.blockNum
    blockReaderFactory := env.blockReaderFactory
    preprocFunc := none
    gator := none
    handler := coldHandler p
    retryDelay := 4000000000
    hasNotFoundCallback := false
    preprocessorThreadCount := 1
    firstStreamableBlock := env.firstStreamableBlock }

/-- How a call ended: it returned a value, or it dereferenced a nil pointer. -/
inductive Outcome (α : Type) where
  | ret : α → Outcome α
  | nilDeref : Outcome α
  deriving DecidableEq, Repr

/-- The method `ATMCachedBlockPayload.Get`. The result is `none` when the
recovery engine is still polling after `fuel` iterations; otherwise how the
call ended, and the calls the recovery engine made on its collaborators
(`none` when no engine was built). -/
def ATMCachedBlockPayload.Get (p : ATMCachedBlockPayload) (env : ColdEnv) (fuel : Nat) :
    Option (Outcome GetReturn × Option (List Event)) :=
  let r := env.cacheRead p.blockId
  if r.found && r.err.isSome then some (.ret ⟨[], r.err⟩, none)
  else if r.data.length = 0 then
    match (coldFileSource p env).Run (fun t => ⟨env.store t, []⟩) fuel ⟨none, none, []⟩ with
    | none => none
    | some eng =>
      match eng.shutter.err with
      | some e => some (.ret ⟨[], some e⟩, some eng.events)
      | none =>
        match eng.hstate with
        | none => some (.nilDeref, some eng.events)
        | some block => some (.ret block.payloadGet, some eng.events)
  else some (.ret ⟨r.data, r.err⟩, none)

/-- The method `ATMCachedBlockPayload.Len`. -/
def ATMCachedBlockPayload.Len (p : ATMCachedBlockPayload) (env : ColdEnv) (fuel : Nat) :
    Option (Outcome Int) :=
  match p.Get env fuel with
  | none => none
  | some (.nilDeref, _) => some .nilDeref
  | some (.ret r, _) => some (.ret (if r.err.isSome then -1 else (r.data.length : Int)))

/-! ## The engine as concurrent tasks

The goroutines of an engine in merged-files mode: the one running `Run` (the
polling loop of `runMergeFile`), `launchSink`, and for every dispatched file
the one running `streamIncomingFile` with the goroutines of its
`streamReader`. A schedule says which of them moves next. -/

/-- Where the goroutine `launchSink` stands: blocked in its outer `select`;
blocked in the `range` over the queue of file number `k` (in dispatch order);
between the `IsTerminating` test, answered false, and the call of the consumer
on the block received from file `k`; or returned. -/
inductive SinkPc where
  | atSelect : SinkPc
  | ranging : Nat → SinkPc
  | checked : Nat → PreprocessedBlock → SinkPc
  | returned : SinkPc
  deriving DecidableEq, Repr

/-- Where the goroutine running `Run` stands: at the top of an iteration of
the loop of `runMergeFile`; in the `select` that dispatches the file found on
the store of the given number under the given name; or returned from `Run`. -/
inductive LocatorPc where
  | polling : LocatorPc
  | dispatching : Nat → String → LocatorPc
  | returned : LocatorPc
  deriving DecidableEq, Repr

/-- A dispatched file: the number of the store it was found on, its name, that
store as it was at the poll that found the file (the captured `blocksStore`),
the run of `streamReader` once the block reader exists, whether the goroutine
started for the file has returned, and how many blocks `launchSink` has
received from its queue. -/
structure FileTask where
  idx : Nat
  name : String
  store : Store
  pipe : Option Pipeline
  returned : Bool
  taken : Nat

/-- The state of a running engine: the shutdown domain, the state of the
consumer, the calls made on collaborators so far, the loop variables of
`runMergeFile`, the number of polls completed, the goroutine running `Run`,
the files dispatched so far in dispatch order, how many of them `launchSink`
has received from `fileStream`, and `launchSink`. -/
structure Tasks (σ : Type) where
  shutter : Shutter
  hstate : σ
  events : List Event
  loop : LoopState
  polls : Nat
  locator : LocatorPc
  files : List FileTask
  received : Nat
  sink : SinkPc

/-- The scheduling choices of an engine: which goroutine moves next.
* `locate`: the goroutine running `Run` goes on: one iteration of the polling
  loop up to its `select`, or, in the `select`, the send on `fileStream`;
* `locateCancel`: in the `select` it takes the terminating branch;
* `openFile k`: the goroutine of file `k` opens the object and creates the
  block reader;
* `stream k a`: move `a` of the run of `streamReader` on file `k`;
* `fileReturn k`: `streamIncomingFile` returns for file `k`, and the goroutine
  of the file with it;
* `sink`: `launchSink` takes a channel branch, passes the `IsTerminating` test,
  or calls the consumer;
* `sinkCancel`: in its outer `select` it takes the terminating branch. -/
inductive Move where
  | locate : Move
  | locateCancel : Move
  | openFile : Nat → Move
  | stream : Nat → Action → Move
  | fileReturn : Nat → Move
  | sink : Move
  | sinkCancel : Move
  deriving DecidableEq, Repr

/-- The state in which `Run` starts: nothing polled, no file dispatched,
`launchSink` in its outer `select`. -/
def Tasks.init {σ : Type} (fs : FileSource σ) (hs : σ) : Tasks σ :=
  { shutter := none, hstate := hs, events := [], loop := ⟨fs.startBlockNum, 0⟩, polls := 0,
    locator := .polling, files := [], received := 0, sink := .atSelect }

/-- One move of the goroutine running `Run`. At the top of an iteration a
terminating shutter makes `runMergeFile` return nil, and `Run` calls
`Shutdown(nil)`; otherwise the stores are polled as they are at that poll
(`world t` at the poll that follows `t` completed iterations): a failed
existence check makes `runMergeFile` return the error, which `Run` hands to
`Shutdown`; a miss starts the next iteration; a hit leads to the `select`.
The test of the shutter and the poll are one move, the poll reading nothing
another goroutine writes. In the `select` the send on `fileStream`, whose
capacity is `parallelDownloads`, needs room in the buffer or `launchSink`
waiting to receive; after it the goroutine of the file is started and
`currentIndex` advanced. -/
def stepLocate {σ : Type} (fs : FileSource σ) (parallelDownloads : Nat) (world : Nat → Stores)
    (s : Tasks σ) : Option (Tasks σ) :=
  match s.locator with
  | .returned => none
  | .polling =>
    if s.shutter.isTerminating then
      some { s with locator := .returned, shutter := s.shutter.shutdown none }
    else
      let r := poll fs.locatorConfig (world s.polls) s.loop
      match r.2 with
      | .failed e =>
        some { s with events := s.events ++ r.1, locator := .returned,
                      shutter := s.shutter.shutdown (some e) }
      | .miss st1 => some { s with events := s.events ++ r.1, loop := st1, polls := s.polls + 1 }
      | .hit idx name => some { s with events := s.events ++ r.1, locator := .dispatching idx name }
  | .dispatching idx name =>
    if s.files.length - s.received < parallelDownloads ∨
        (s.sink = .atSelect ∧ s.files.length = s.received) then
      match (world s.polls).get idx with
      | none => none
      | some store =>
        some { s with files := s.files ++ [⟨idx, name, store, none, false, 0⟩],
                      loop := afterHit s.loop, polls := s.polls + 1, locator := .polling }
    else none

/-- The goroutine running `Run` leaves the `select` through its terminating
branch: `runMergeFile` returns `s.Err()`, which `Run` hands to `Shutdown`. -/
def stepLocateCancel {σ : Type} (s : Tasks σ) : Option (Tasks σ) :=
  match s.locator with
  | .dispatching _ _ =>
    if s.shutter.isTerminating then
      some { s with locator := .returned, shutter := s.shutter.shutdown s.shutter.err }
    else none
  | _ => none

/-- The goroutine of file `k` runs `streamIncomingFile` up to the call of
`streamReader`: it opens the object on the store the file was found on and
creates the block reader. When either fails `streamIncomingFile` returns the
wrapped error and the goroutine requests shutdown with it. -/
def stepOpen {σ : Type} (fs : FileSource σ) (k : Nat) (s : Tasks σ) : Option (Tasks σ) :=
  match s.files.get? k with
  | none => none
  | some ft =>
    if ft.pipe.isSome || ft.returned then none
    else
      let events := s.events ++ [.openObject ft.idx ft.name]
      match ft.store.openObject ft.name with
      | .error e =>
        some { s with events := events, files := s.files.set k { ft with returned := true },
                      shutter := s.shutter.shutdown (some (.wrap "processing of file failed"
                        (.wrap "fetching from block store" e))) }
      | .ok bytes =>
        match fs.blockReaderFactory bytes with
        | .error e =>
          some { s with events := events, files := s.files.set k { ft with returned := true },
                        shutter := s.shutter.shutdown (some (.wrap "processing of file failed"
                          (.wrap "unable to create block reader" e))) }
        | .ok reader =>
          some { s with events := events,
                        files := s.files.set k
                          { ft with pipe := some (Pipeline.init (fs.streamConfig none) reader
                              s.shutter) } }

/-- One move of the run of `streamReader` on file `k`, on the shutdown domain
of the engine. A send on the queue of the file, whose capacity is 2, needs
fewer than 2 blocks waiting in it. No task outside the engine requests
shutdown. -/
def stepStream {σ : Type} (fs : FileSource σ) (k : Nat) (a : Action) (s : Tasks σ) :
    Option (Tasks σ) :=
  match a with
  | .shutdown _ => none
  | a =>
    match s.files.get? k with
    | none => none
    | some ft =>
      match ft.pipe with
      | none => none
      | some p =>
        match step (fs.streamConfig none) a { p with shutter := s.shutter } with
        | none => none
        | some q =>
          if p.output.length < q.output.length ∧ ft.taken + 2 ≤ p.output.length then none
          else some { s with shutter := q.shutter,
                             files := s.files.set k { ft with pipe := some q } }

/-- The function `streamIncomingFile` returns for file `k`, `streamReader`
having returned: with the wrapped error, which the goroutine of the file hands
to `Shutdown`, or with nil. -/
def stepFileReturn {σ : Type} (k : Nat) (s : Tasks σ) : Option (Tasks σ) :=
  match s.files.get? k with
  | none => none
  | some ft =>
    if ft.returned then none
    else
      match ft.pipe with
      | none => none
      | some p =>
        match p.main with
        | .returned none => some { s with files := s.files.set k { ft with returned := true } }
        | .returned (some e) =>
          some { s with files := s.files.set k { ft with returned := true },
                        shutter := s.shutter.shutdown (some (.wrap "processing of file failed"
                          (.wrap "error processing incoming file" e))) }
        | _ => none

/-- One move of `launchSink` other than through the terminating branch of its
outer `select`: it receives the next file from `fileStream`; or it receives
the next block from the queue of the file and tests `IsTerminating` (the
`range` ends when the queue is closed and empty); or, the test passed, it
calls the consumer, a consumer error making it request shutdown and return. -/
def stepSink {σ : Type} (h : Handler σ) (s : Tasks σ) : Option (Tasks σ) :=
  match s.sink with
  | .returned => none
  | .atSelect =>
    if s.received < s.files.length then
      some { s with sink := .ranging s.received, received := s.received + 1 }
    else none
  | .ranging k =>
    match s.files.get? k with
    | none => none
    | some ft =>
      match ft.pipe with
      | none => none
      | some p =>
        match p.output.get? ft.taken with
        | some pb =>
          some { s with files := s.files.set k { ft with taken := ft.taken + 1 },
                        sink := if s.shutter.isTerminating then .returned else .checked k pb }
        | none => if p.fwdDone then some { s with sink := .atSelect } else none
  | .checked k pb =>
    let r := h s.hstate pb
    match r.2.err with
    | some e =>
      some { s with hstate := r.1, events := s.events ++ [.processBlock pb], sink := .returned,
                    shutter := (s.shutter.request r.2.shutdown).shutdown
                      (some (.wrap "process block failed" e)) }
    | none =>
      some { s with hstate := r.1, events := s.events ++ [.processBlock pb], sink := .ranging k,
                    shutter := s.shutter.request r.2.shutdown }

/-- The goroutine `launchSink` returns through the terminating branch of its
outer `select`. -/
def stepSinkCancel {σ : Type} (s : Tasks σ) : Option (Tasks σ) :=
  match s.sink with
  | .atSelect => if s.shutter.isTerminating then some { s with sink := .returned } else none
  | _ => none

/-- One scheduled move of the engine; `none` when the chosen goroutine cannot
move. The engine is observed up to the return of `Run`, where `Get` reads the
terminal error: no move is taken after it. -/
def stepTasks {σ : Type} (fs : FileSource σ) (parallelDownloads : Nat) (world : Nat → Stores)
    (m : Move) (s : Tasks σ) : Option (Tasks σ) :=
  if s.locator = .returned then none
  else
    match m with
    | .locate => stepLocate fs parallelDownloads world s
    | .locateCancel => stepLocateCancel s
    | .openFile k => stepOpen fs k s
    | .stream k a => stepStream fs k a s
    | .fileReturn k => stepFileReturn k s
    | .sink => stepSink fs.handler s
    | .sinkCancel => stepSinkCancel s

/-- A schedule played from a state of the engine; `none` when one of its moves
is impossible. -/
def runTasks {σ : Type} (fs : FileSource σ) (parallelDownloads : Nat) (world : Nat → Stores) :
    List Move → Tasks σ → Option (Tasks σ)
  | [], s => some s
  | m :: rest, s =>
    match stepTasks fs parallelDownloads world m s with
    | none => none
    | some s1 => runTasks fs parallelDownloads world rest s1

/-- The method `Run` under a schedule: the state of the engine when `Run`
returns; `none` when the schedule cannot be played or `Run` has not returned
at its end. -/
def FileSource.RunUnder {σ : Type} (fs : FileSource σ) (parallelDownloads : Nat)
    (world : Nat → Stores) (sched : List Move) (hs : σ) : Option (Tasks σ) :=
  match runTasks fs parallelDownloads world sched (Tasks.init fs hs) with
  | none => none
  | some s => if s.locator = .returned then some s else none

/-! ## Cold recovery under any schedule -/

/-- The package-level state `ATMCachedBlockPayload.Get` works on, and what the
source tree leaves open about the engine it builds. The call
`NewFileSource(store, p.blockNum, handler, zlog)` does not fit the constructor
of `filesource.go`, which takes six arguments: besides the start number and
the handler, every field the constructor sets is a parameter here (the stores,
primary and secondary, as they are at each poll; the block reader factory; the
capacity `parallelDownloads` of `fileStream`; the transform; the gate; the
retry delay; whether a miss hook is set; the transform concurrency). So is the
mode: `runOneBlockFile` is outside the source tree, and `runOneBlockFile sched`
stands for what a run in one-block-files mode leaves behind under a schedule
(the shutter after `Run`, the captured variable `block`, the calls made). -/
structure RecoveryEnv where
  cacheRead : String → CacheRead
  world : Nat → Stores
  blockReaderFactory : Bytes → Except Err BlockReader
  firstStreamableBlock : Nat
  parallelDownloads : Nat
  preprocFunc : Option (Block → Except Err Obj)
  gator : Option (Block → Bool)
  retryDelay : Nat
  hasNotFoundCallback : Bool
  preprocessorThreadCount : Nat
  oneBlockFileMode : Bool
  runOneBlockFile : List Move → Option (Shutter × Option Block × List Event)

/-- The file source built by `Get`: the target number as start number, the
matching handler, every other field as the environment gives it. -/
def recoverySource (p : ATMCachedBlockPayload) (env : RecoveryEnv) : FileSource (Option Block) :=
  { startBlockNum := p.blockNum
    blockReaderFactory := env.blockReaderFactory
    preprocFunc := env.preprocFunc
    gator := env.gator
    handler := coldHandler p
    retryDelay := env.retryDelay
    hasNotFoundCallback := env.hasNotFoundCallback
    preprocessorThreadCount := env.preprocessorThreadCount
    firstStreamableBlock := env.firstStreamableBlock }

/-- The method `run` of the engine built by `Get`, followed by the `Shutdown`
of `Run`, under a schedule: the shutter, the captured variable `block` and the
calls made when `Run` returns; `none` when `Run` has not returned. -/
def recoveryRun (p : ATMCachedBlockPayload) (env : RecoveryEnv) (sched : List Move) :
    Option (Shutter × Option Block × List Event) :=
  if env.oneBlockFileMode then env.runOneBlockFile sched
  else
    match (recoverySource p env).RunUnder env.parallelDownloads env.world sched none with
    | none => none
    | some s => some (s.shutter, s.hstate, s.events)

/-- The method `ATMCachedBlockPayload.Get`, its recovery engine running under
the schedule `sched`. The result is `none` when `Run` has not returned under
that schedule; otherwise how the call ended, and the calls the recovery engine
made on its collaborators (`none` when no engine was built). -/
def ATMCachedBlockPayload.GetUnder (p : ATMCachedBlockPayload) (env : RecoveryEnv)
    (sched : List Move) : Option (Outcome GetReturn × Option (List Event)) :=
  let r := env.cacheRead p.blockId
  if r.found && r.err.isSome then some (.ret ⟨[], r.err⟩, none)
  else if r.data.length = 0 then
    match recoveryRun p env sched with
    | none => none
    | some (sh, block, events) =>
      match sh.err with
      | some e => some (.ret ⟨[], some e⟩, some events)
      | none =>
        match block with
        | none => some (.nilDeref, some events)
        | some b => some (.ret b.payloadGet, some events)
  else some (.ret ⟨r.data, r.err⟩, none)

/-- The invariant of the recovery engine under any schedule: a captured block
is a target; a shutter terminating with no error means the captured target is
the last block handed to the handler, no earlier one was a target, and
`launchSink` is not about to call the handler; while the shutter is running no
block is captured and no block handed over was a target; and `Run` returns
only with a terminating shutter. -/
structure Safe (p : ATMCachedBlockPayload) (s : Tasks (Option Block)) : Prop where
  captured : ∀ b, s.hstate = some b → isTarget p b = true
  clean : s.shutter = some none →
    (∃ b o pre, s.hstate = some b ∧ isTarget p b = true ∧
      delivered s.events = pre ++ [⟨b, o⟩] ∧ ∀ pb ∈ pre, isTarget p pb.block = false) ∧
    ∀ k pb, s.sink ≠ .checked k pb
  running : s.shutter = none →
    s.hstate = none ∧ ∀ pb ∈ delivered s.events, isTarget p pb.block = false
  returned : s.locator = .returned → s.shutter ≠ none

/-- The schedule that takes the recovery engine through the blocks of its
first file in lock-step: every published block is transformed, forwarded and
handed to the handler before the next `Read()`. -/
def lockstepMoves (cfg : StreamConfig) : Bool → BlockReader → List Move
  | _, [] => []
  | passed, r :: rest =>
    match readStep cfg passed r with
    | .fail _ => []
    | .finish => []
    | .skip q => .stream 0 .main :: lockstepMoves cfg q rest
    | .publish _ =>
      .stream 0 .main :: .stream 0 .forward :: .stream 0 (.preprocess 0) :: .stream 0 .forward ::
        .sink :: .sink :: lockstepMoves cfg passed rest

/-- The schedule on which the recovery engine finds its file at poll `m` and
hands over the blocks read up to `reads` in lock-step: `m` polls that miss, the
poll that hits, the dispatch, the reception of the file by `launchSink`, the
opening of the file, the blocks, and the top of the next iteration of the
polling loop. -/
def recoveryMoves (cfg : StreamConfig) (m : Nat) (reads : BlockReader) : List Move :=
  List.replicate m .locate ++ [.locate, .locate, .sink, .openFile 0] ++
    lockstepMoves cfg (initialPassed cfg) reads ++ [.locate]

/-- The state of the recovery engine while its first file, found on store `i`,
is streamed in lock-step: no termination requested, no block captured, the
read loop of the file at the top of an iteration with the cursor passed, no
block in flight, and `launchSink` ranging over the queue of the file with
every block sent on it received. -/
def lockstepState (loop : LoopState) (polls i : Nat) (name : String) (si : Store)
    (reads : BlockReader) (lastErr : Option Err) (out : List PreprocessedBlock)
    (events : List Event) (sh : Shutter) : Tasks (Option Block) :=
  { shutter := none, hstate := none, events := events, loop := loop, polls := polls,
    locator := .polling,
    files := [⟨i, name, si, some ⟨reads, true, .reading, [], false, lastErr, none, false, out, sh⟩,
      false, out.length⟩],
    received := 1, sink := .ranging 0 }

/-- No collaborator of the recovery engine ever fails: every store answers
every existence check and opens every object, every object decodes without
error up to its end, and the transform, if any, succeeds on every block. -/
def Reliable (env : RecoveryEnv) : Prop :=
  (∀ t, ∀ s ∈ (env.world t).primary :: (env.world t).secondaries, ∀ name,
    (∃ b, s.fileExists name = .ok b) ∧ ∃ bytes, s.openObject name = .ok bytes) ∧
  (∀ bytes, ∃ reader, env.blockReaderFactory bytes = .ok reader ∧
    ∀ e, ReadResult.fail e ∉ reader) ∧
  (∀ f, env.preprocFunc = some f → ∀ b, ∃ o, f b = .ok o)

/-- The invariant of a recovery engine whose collaborators never fail: the
shutter holds no error, the store of every dispatched file opens every
object, no unread part of a file holds a decode error, and a read loop has
returned an error only after termination was requested. -/
def Unfailing (s : Tasks (Option Block)) : Prop :=
  (∀ e, s.shutter ≠ some (some e)) ∧
  ∀ ft ∈ s.files,
    (∀ name, ∃ bytes, ft.store.openObject name = .ok bytes) ∧
    ∀ pl, ft.pipe = some pl →
      (∀ e, ReadResult.fail e ∉ pl.reads) ∧
      (∀ e, pl.main = .returned (some e) → s.shutter ≠ none)

/-! ## Sample environments -/

/-- A block with the given identity, number and payload bytes. -/
def sampleBlock (id : String) (num : Nat) (data : Bytes) : Block :=
  ⟨id, num, 0, ⟨data, none⟩⟩

/-- A store holding exactly the files listed. -/
def storeWith (names : List String) : Store :=
  ⟨fun n => .ok (names.contains n), fun _ => .ok []⟩

/-- A store set in which only the second secondary store has file
`0000000500`. -/
def fallbackStores : Stores :=
  ⟨storeWith [], [storeWith ["0000000400"], storeWith ["0000000500"]]⟩

/-- A store set holding the files of bases 200, 300 and 400 in the primary
store. -/
def threeFiles : Stores :=
  ⟨storeWith ["0000000200", "0000000300", "0000000400"], []⟩

/-- A store set with no file at all. -/
def emptyStores : Stores := ⟨storeWith [], [storeWith []]⟩

/-- A consumer that accepts every block. -/
def acceptAll : Handler Unit := fun _ _ => ((), ⟨none, none⟩)

/-- A file source starting at `start`, with a miss hook, whose files all decode
to no block. -/
def sampleSource (start : Nat) : FileSource Unit :=
  { startBlockNum := start
    blockReaderFactory := fun _ => .ok []
    preprocFunc := none
    gator := none
    handler := acceptAll
    retryDelay := 4000000000
    hasNotFoundCallback := true
    preprocessorThreadCount := 1
    firstStreamableBlock := 2 }

/-- An engine that has not started yet. -/
def freshEngine : Engine Unit := ⟨none, (), []⟩

/-- Four blocks of the batch of base 0. -/
def sampleBatch : List Block :=
  [sampleBlock "a" 10 [1], sampleBlock "b" 11 [2], sampleBlock "c" 12 [3],
   sampleBlock "d" 13 [4]]

/-- The cache-backed payload of block `c`, number 12. -/
def samplePayload : ATMCachedBlockPayload := ⟨"c", 12, 1⟩

/-- An environment whose store holds the batch of base 0 and whose cache
answers every read with `r`. -/
def sampleEnv (r : CacheRead) : ColdEnv :=
  { cacheRead := fun _ => r
    store := fun _ => storeWith ["0000000000"]
    blockReaderFactory := fun _ => .ok (readerOf sampleBatch)
    firstStreamableBlock := 0 }

/-- A consumer that fails on the block with number `n`. -/
def failAt (n : Nat) : Handler Unit :=
  fun _ pb =>
    ((), if pb.block.num = n then ⟨some (.msg "consumer failed"), none⟩ else ⟨none, none⟩)

/-- A preprocessed block with a nil transform result. -/
def samplePre (id : String) (num : Nat) : PreprocessedBlock :=
  ⟨sampleBlock id num [], .nilObj⟩

/-- The output queues of three files. -/
def sampleQueues : List (List PreprocessedBlock) :=
  [[samplePre "a" 10, samplePre "b" 11], [samplePre "c" 12, samplePre "d" 13],
   [samplePre "e" 14]]

/-- Five consecutive blocks, numbers 10 to 14. -/
def fiveBlocks : List Block :=
  [sampleBlock "a" 10 [], sampleBlock "b" 11 [], sampleBlock "c" 12 [],
   sampleBlock "d" 13 [], sampleBlock "e" 14 []]

/-- A stream configuration with start number 0, no gate, no transform, one
transform slot and the resume cursor on block `c`, number 12. -/
def resumeConfig : StreamConfig := ⟨0, none, none, 1, some ⟨"c", 12⟩⟩

/-- A stream configuration with start number 11, a gate rejecting block number
13, a transform returning the block number, three transform slots and no
cursor. -/
def gatedConfig : StreamConfig :=
  ⟨11, some (fun b => decide (b.num ≠ 13)), some (fun b => .ok (.val b.num)), 3, none⟩

/-- Two batches with increasing block numbers. -/
def twoBatches : List (List Block) :=
  [[sampleBlock "a" 10 [], sampleBlock "b" 11 [], sampleBlock "c" 12 []],
   [sampleBlock "d" 13 [], sampleBlock "e" 14 []]]

/-- The cache-backed payload of a block numbered 12 whose identity is in no
batch. -/
def missingPayload : ATMCachedBlockPayload := ⟨"zz", 12, 1⟩

/-- An environment of cold recovery with an empty cache: the engine runs in
merged-files mode on the primary store `store t` at poll `t`, every file
decoding to `reader`, with no transform, no gate, no miss hook, one transform
slot and a `fileStream` of capacity 2. -/
def recoveryEnv (store : Nat → Store) (reader : BlockReader) : RecoveryEnv :=
  { cacheRead := fun _ => ⟨[], false, none⟩
    world := fun t => ⟨store t, []⟩
    blockReaderFactory := fun _ => .ok reader
    firstStreamableBlock := 0
    parallelDownloads := 2
    preprocFunc := none
    gator := none
    retryDelay := 4000000000
    hasNotFoundCallback := false
    preprocessorThreadCount := 1
    oneBlockFileMode := false
    runOneBlockFile := fun _ => none }

/-- A store that holds the file of base 0 at every poll. -/
def steadyStore : Nat → Store := fun _ => storeWith ["0000000000"]

/-- A store that holds the file of base 0 at the first poll and fails every
later existence check. -/
def brokenStore : Nat → Store := fun t =>
  if t = 0 then storeWith ["0000000000"]
  else ⟨fun _ => .error (.msg "connection reset"), fun _ => .ok []⟩

/-- A store that never holds a file. -/
def emptyStore : Nat → Store := fun _ => storeWith []

/-- A file whose third block is followed by a decode error. -/
def tornReader : BlockReader :=
  [.ok (sampleBlock "a" 10 [1]), .ok (sampleBlock "b" 11 [2]), .ok (sampleBlock "c" 12 [3]),
   .fail (.msg "corrupt block")]

/-- The lock-step schedule over the whole file of `sampleBatch` for a start
number of 12, up to the poll that follows the file: blocks `a` and `b` are
skipped, blocks `c` and `d` handed over, the file ends, `launchSink` leaves it,
and the next poll is made. -/
def wholeFileMoves : List Move :=
  [.locate, .locate, .sink, .openFile 0, .stream 0 .main, .stream 0 .main,
   .stream 0 .main, .stream 0 .forward, .stream 0 (.preprocess 0), .stream 0 .forward, .sink, .sink,
   .stream 0 .main, .stream 0 .forward, .stream 0 (.preprocess 0), .stream 0 .forward, .sink, .sink,
   .stream 0 .main, .stream 0 .forward, .stream 0 .main, .fileReturn 0, .sink, .locate]

/-- A schedule on which the read loop runs ahead of `launchSink`: block `c` is
received by `launchSink`, which passes its `IsTerminating` test; the read loop
then meets the decode error and the goroutine of the file requests shutdown;
only then is the handler called on `c`; last, the polling loop sees the
termination. -/
def readAheadMoves : List Move :=
  [.locate, .locate, .sink, .openFile 0, .stream 0 .main, .stream 0 .main,
   .stream 0 .main, .stream 0 .forward, .stream 0 (.preprocess 0), .stream 0 .forward, .sink,
   .stream 0 .main, .fileReturn 0, .sink, .locate]

/-! ## File names -/

theorem decDigits_length (w n : Nat) : (decDigits w n).length = w := by
  induction w with
  | zero => rfl
  | succ w ih => simp [decDigits, ih]

theorem digitChar_lt_iff (x y : Nat) (hx : x < 10) (hy : y < 10) :
    Nat.digitChar x < Nat.digitChar y ↔ x < y := by
  interval_cases x <;> interval_cases y <;> decide

theorem digitChar_inj (x y : Nat) (hx : x < 10) (hy : y < 10)
    (h : Nat.digitChar x = Nat.digitChar y) : x = y := by
  interval_cases x <;> interval_cases y <;> first | rfl | (exfalso; revert h; decide)

theorem decDigits_zero (w : Nat) : decDigits w 0 = List.replicate w '0' := by
  induction w with
  | zero => rfl
  | succ w ih =>
    have h0 : Nat.digitChar 0 = '0' := rfl
    simp [decDigits, ih, List.replicate_succ, h0]

/-- Peeling the last digit instead of the first. -/
theorem decDigits_snoc (w n : Nat) :
    decDigits (w + 1) n = decDigits w (n / 10) ++ [Nat.digitChar (n % 10)] := by
  induction w with
  | zero => simp [decDigits]
  | succ w ih =>
    have h1 : decDigits (w + 1 + 1) n
        = Nat.digitChar (n / 10 ^ (w + 1) % 10) :: decDigits (w + 1) n := rfl
    have h2 : decDigits (w + 1) (n / 10)
        = Nat.digitChar (n / 10 / 10 ^ w % 10) :: decDigits w (n / 10) := rfl
    rw [h1, ih, h2, Nat.div_div_eq_div_mul, pow_succ, Nat.mul_comm 10 (10 ^ w)]
    simp

/-- The digits produced by the core conversion, padded to width `w`, are the
`w` low digits of `n`. -/
theorem toDigitsCore_pad (fuel : Nat) : ∀ (n w : Nat) (ds : List Char),
    n < fuel → n < 10 ^ w → 1 ≤ w →
    ∃ L : List Char, Nat.toDigitsCore 10 fuel n ds = L ++ ds ∧ L.length ≤ w ∧
      List.replicate (w - L.length) '0' ++ L = decDigits w n := by
  induction fuel with
  | zero => intro n w ds h; omega
  | succ fuel ih =>
    intro n w ds hn hw hw1
    obtain ⟨v, rfl⟩ : ∃ v, w = v + 1 := ⟨w - 1, by omega⟩
    by_cases h0 : n / 10 = 0
    · refine ⟨[Nat.digitChar (n % 10)], ?_, by simp, ?_⟩
      · simp [Nat.toDigitsCore, h0]
      · have hz : n / 10 = 0 := h0
        rw [decDigits_snoc, hz, decDigits_zero]
        simp
    · have hn10 : 10 ≤ n := by
        by_contra hlt
        exact h0 (Nat.div_eq_of_lt (by omega))
      have hv : 1 ≤ v := by
        rcases v with _ | v
        · simp at hw; omega
        · omega
      have hdiv : n / 10 < 10 ^ v := by
        rw [Nat.div_lt_iff_lt_mul (by decide)]
        rw [pow_succ] at hw
        exact hw
      obtain ⟨L, hL, hlen, hpad⟩ :=
        ih (n / 10) v (Nat.digitChar (n % 10) :: ds) (by omega) hdiv hv
      refine ⟨L ++ [Nat.digitChar (n % 10)], ?_, by simp; omega, ?_⟩
      · simp [Nat.toDigitsCore, h0, hL]
      · rw [decDigits_snoc, ← hpad]
        simp

theorem baseFilename_data (n : Nat) (h : n < 10 ^ 10) :
    (baseFilename n).data = decDigits 10 n := by
  obtain ⟨L, hL, _, hpad⟩ := toDigitsCore_pad (n + 1) n 10 [] (by omega) h (by decide)
  simp only [List.append_nil] at hL
  simp only [baseFilename, Nat.toDigits, hL]
  exact hpad

theorem cons_lt_cons_iff (x y : Char) (xs ys : List Char) :
    x :: xs < y :: ys ↔ x < y ∨ (x = y ∧ xs < ys) := by
  constructor
  · intro h
    cases h with
    | cons h => exact Or.inr ⟨rfl, h⟩
    | rel h => exact Or.inl h
  · rintro (h | ⟨rfl, h⟩)
    · exact List.Lex.rel h
    · exact List.Lex.cons h

theorem decDigits_lt_iff (w : Nat) : ∀ a b : Nat,
    (decDigits w a < decDigits w b ↔ a % 10 ^ w < b % 10 ^ w) := by
  induction w with
  | zero => intro a b; simp [decDigits, Nat.mod_one]
  | succ w ih =>
    intro a b
    have hp : 0 < 10 ^ w := by positivity
    have hda : a / 10 ^ w % 10 < 10 := Nat.mod_lt _ (by decide)
    have hdb : b / 10 ^ w % 10 < 10 := Nat.mod_lt _ (by decide)
    have hra : a % 10 ^ w < 10 ^ w := Nat.mod_lt _ hp
    have hrb : b % 10 ^ w < 10 ^ w := Nat.mod_lt _ hp
    have hstep : decDigits (w + 1) a < decDigits (w + 1) b ↔
        (a / 10 ^ w % 10 < b / 10 ^ w % 10 ∨
          (a / 10 ^ w % 10 = b / 10 ^ w % 10 ∧ a % 10 ^ w < b % 10 ^ w)) := by
      show Nat.digitChar (a / 10 ^ w % 10) :: decDigits w a
          < Nat.digitChar (b / 10 ^ w % 10) :: decDigits w b ↔ _
      rw [cons_lt_cons_iff, digitChar_lt_iff _ _ hda hdb, ih a b]
      constructor
      · rintro (h | ⟨h1, h2⟩)
        · exact Or.inl h
        · exact Or.inr ⟨digitChar_inj _ _ hda hdb h1, h2⟩
      · rintro (h | ⟨h1, h2⟩)
        · exact Or.inl h
        · exact Or.inr ⟨by rw [h1], h2⟩
    rw [hstep, Nat.mod_pow_succ, Nat.mod_pow_succ]
    generalize a / 10 ^ w % 10 = da at *
    generalize b / 10 ^ w % 10 = db at *
    generalize a % 10 ^ w = ra at *
    generalize b % 10 ^ w = rb at *
    generalize 10 ^ w = P at *
    constructor
    · rintro (h | ⟨rfl, h2⟩)
      · have : P * (da + 1) ≤ P * db := Nat.mul_le_mul_left P h
        rw [Nat.mul_add] at this
        omega
      · omega
    · intro h
      rcases Nat.lt_trichotomy da db with h1 | h1 | h1
      · exact Or.inl h1
      · subst h1; exact Or.inr ⟨rfl, by omega⟩
      · exfalso
        have : P * (db + 1) ≤ P * da := Nat.mul_le_mul_left P h1
        rw [Nat.mul_add] at this
        omega

theorem baseFilename_lt_iff (a b : Nat) (ha : a < 10 ^ 10) (hb : b < 10 ^ 10) :
    baseFilename a < baseFilename b ↔ a < b := by
  rw [String.lt_iff_toList_lt]
  show (baseFilename a).data < (baseFilename b).data ↔ _
  rw [baseFilename_data a ha, baseFilename_data b hb, decDigits_lt_iff,
    Nat.mod_eq_of_lt ha, Nat.mod_eq_of_lt hb]

theorem baseFilename_length (n : Nat) (h : n < 10 ^ 10) : (baseFilename n).length = 10 := by
  show (baseFilename n).data.length = 10
  rw [baseFilename_data n h, decDigits_length]

/-! ## The per-file pipeline -/

theorem setState_map_block (st : SlotState) : ∀ (i : Nat) (l : List Slot),
    (setState st i l).map (fun sl => sl.block) = l.map (fun sl => sl.block) := by
  intro i l
  induction l generalizing i with
  | nil => cases i <;> rfl
  | cons x xs ih =>
    cases i with
    | zero => rfl
    | succ i => simp [setState, ih]

theorem setState_eq_nil (st : SlotState) (i : Nat) (l : List Slot) :
    setState st i l = [] ↔ l = [] := by
  cases l with
  | nil => cases i <;> simp [setState]
  | cons x xs => cases i <;> simp [setState]

theorem mem_setState (st : SlotState) : ∀ (i : Nat) (l : List Slot) (sl : Slot),
    sl ∈ setState st i l →
    sl ∈ l ∨ ∃ x, l.get? i = some x ∧ sl = { x with state := st } := by
  intro i l
  induction l generalizing i with
  | nil => intro sl h; cases i <;> simp [setState] at h
  | cons x xs ih =>
    intro sl h
    cases i with
    | zero =>
      simp only [setState, List.mem_cons] at h
      rcases h with h | h
      · right; exact ⟨x, rfl, h⟩
      · left; exact List.mem_cons_of_mem _ h
    | succ i =>
      simp only [setState, List.mem_cons] at h
      rcases h with h | h
      · left; rw [h]; exact List.mem_cons_self _ _
      · rcases ih i sl h with h1 | ⟨y, hy, h1⟩
        · left; exact List.mem_cons_of_mem _ h1
        · right; exact ⟨y, by simpa using hy, h1⟩

theorem inflight_setSlot (s : Pipeline) (i : Nat) (st : SlotState) :
    (s.setSlot i st).inflight = setState st i s.inflight := by
  unfold Pipeline.setSlot Pipeline.inflight
  cases hh : s.held with
  | none => simp
  | some h =>
    cases i with
    | zero => simp [setState]
    | succ j => simp [setState]

theorem setSlot_fields (s : Pipeline) (i : Nat) (st : SlotState) :
    (s.setSlot i st).output = s.output ∧ (s.setSlot i st).main = s.main ∧
    (s.setSlot i st).passed = s.passed ∧ (s.setSlot i st).reads = s.reads ∧
    (s.setSlot i st).closed = s.closed ∧ (s.setSlot i st).fwdDone = s.fwdDone ∧
    (s.setSlot i st).shutter = s.shutter := by
  unfold Pipeline.setSlot
  split <;> simp

theorem pending_setSlot (cfg : StreamConfig) (s : Pipeline) (i : Nat) (st : SlotState) :
    (s.setSlot i st).pending cfg = s.pending cfg := by
  obtain ⟨_, h2, h3, h4, _⟩ := setSlot_fields s i st
  simp [Pipeline.pending, h2, h3, h4]

/-- Changing the state of a slot to a state that agrees with the transform
keeps the invariant, whatever happens to the shutter. -/
theorem Inv.setSlot {cfg : StreamConfig} {target : List Block} {s : Pipeline}
    (h : Inv cfg target s) (i : Nat) (st : SlotState) (sh : Shutter)
    (hsh : sh = none → s.shutter = none)
    (hst : ∀ x o, s.inflight.get? i = some x → st = .ready o →
      preprocessResult cfg x.block = .ok o) :
    Inv cfg target { s.setSlot i st with shutter := sh } := by
  obtain ⟨f1, f2, f3, f4, f5, f6, f7⟩ := setSlot_fields s i st
  have hin : ({ s.setSlot i st with shutter := sh } : Pipeline).inflight
      = setState st i s.inflight := by
    rw [← inflight_setSlot]; rfl
  have hpend : ({ s.setSlot i st with shutter := sh } : Pipeline).pending cfg
      = s.pending cfg := by
    rw [← pending_setSlot cfg s i st]; rfl
  constructor
  · rw [hin, setState_map_block]
    show (List.map _ (s.setSlot i st).output ++ _) <+: target
    rw [f1]; exact h.isPrefix
  · intro hnone
    rw [hin, setState_map_block, hpend]
    show List.map _ (s.setSlot i st).output ++ _ ++ _ = target
    rw [f1]; exact h.blocks (hsh hnone)
  · intro pb hpb
    have : pb ∈ s.output := by
      have h1 : pb ∈ (s.setSlot i st).output := hpb
      rwa [f1] at h1
    exact h.outOk pb this
  · intro sl hsl o ho
    rw [hin] at hsl
    rcases mem_setState st i s.inflight sl hsl with h1 | ⟨x, hx, h1⟩
    · exact h.slotOk sl h1 o ho
    · subst h1
      exact hst x o hx ho
  · intro hc
    have h1 : (s.setSlot i st).closed = true := hc
    rw [f5] at h1
    show (s.setSlot i st).main ≠ .reading
    rw [f2]; exact h.closedMain h1
  · intro hd hnone
    have h1 : (s.setSlot i st).fwdDone = true := hd
    rw [f6] at h1
    obtain ⟨hc, hi⟩ := h.doneOk h1 (hsh hnone)
    refine ⟨?_, ?_⟩
    · show (s.setSlot i st).closed = true
      rw [f5]; exact hc
    · rw [hin, hi]; cases i <;> rfl

theorem shutdown_eq_none (sh : Shutter) (e : Option Err) : sh.shutdown e ≠ none := by
  cases sh <;> simp [Shutter.shutdown]

theorem isTerminating_false {sh : Shutter} (h : sh.isTerminating = false) : sh = none := by
  cases sh <;> simp_all [Shutter.isTerminating]

theorem isTerminating_true {sh : Shutter} (h : sh.isTerminating = true) : sh ≠ none := by
  cases sh <;> simp_all [Shutter.isTerminating]

theorem Inv.stepPreprocess {cfg : StreamConfig} {target : List Block} {s t : Pipeline}
    (h : Inv cfg target s) (i : Nat) (hs : stepPreprocess cfg i s = some t) :
    Inv cfg target t := by
  unfold Bstream.stepPreprocess at hs
  split at hs
  · rename_i b hget
    split at hs
    · rename_i e he
      injection hs with hs; subst hs
      exact h.setSlot i .dead _ (fun hn => absurd hn (shutdown_eq_none _ _))
        (fun x o _ ho => by cases ho)
    · rename_i obj hobj
      injection hs with hs; subst hs
      have := h.setSlot i (.ready obj) (s.setSlot i (.ready obj)).shutter
        (fun hn => by rw [(setSlot_fields s i (.ready obj)).2.2.2.2.2.2] at hn; exact hn)
        (fun x o hx ho => by
          rw [hget] at hx
          injection hx with hx; subst hx
          injection ho with ho; subst ho
          exact hobj)
      exact this
  · cases hs

theorem Inv.stepPreprocessCancel {cfg : StreamConfig} {target : List Block} {s t : Pipeline}
    (h : Inv cfg target s) (i : Nat) (hs : stepPreprocessCancel i s = some t) :
    Inv cfg target t := by
  unfold Bstream.stepPreprocessCancel at hs
  split at hs
  · split at hs
    · injection hs with hs; subst hs
      exact h.setSlot i .dead (s.setSlot i .dead).shutter
        (fun hn => by rw [(setSlot_fields s i .dead).2.2.2.2.2.2] at hn; exact hn)
        (fun x o _ ho => by cases ho)
    · cases hs
  · cases hs

theorem Inv.stepForwardCancel {cfg : StreamConfig} {target : List Block} {s t : Pipeline}
    (h : Inv cfg target s) (hs : stepForwardCancel s = some t) :
    Inv cfg target t := by
  unfold Bstream.stepForwardCancel at hs
  split at hs
  · cases hs
  · split at hs
    · rename_i hterm
      injection hs with hs; subst hs
      exact ⟨h.isPrefix, h.blocks, h.outOk, h.slotOk, h.closedMain,
        fun _ hn => absurd hn (isTerminating_true hterm)⟩
    · cases hs

theorem Inv.shutdown {cfg : StreamConfig} {target : List Block} {s : Pipeline}
    (h : Inv cfg target s) (e : Option Err) :
    Inv cfg target { s with shutter := s.shutter.shutdown e } :=
  ⟨h.isPrefix, fun hn => absurd hn (shutdown_eq_none _ _), h.outOk, h.slotOk, h.closedMain,
    fun _ hn => absurd hn (shutdown_eq_none _ _)⟩

theorem Inv.stepForward {cfg : StreamConfig} {target : List Block} {s t : Pipeline}
    (h : Inv cfg target s) (hs : stepForward s = some t) :
    Inv cfg target t := by
  unfold Bstream.stepForward at hs
  split at hs
  · cases hs
  · rename_i hnd
    split at hs
    · rename_i b obj hheld
      injection hs with hs; subst hs
      have hin : s.inflight = ⟨b, .ready obj⟩ :: s.preprocessed := by
        simp [Pipeline.inflight, hheld]
      have hp := h.isPrefix
      have hb := h.blocks
      rw [hin] at hp hb
      refine ⟨?_, ?_, ?_, ?_, h.closedMain, ?_⟩
      · simpa [Pipeline.inflight] using hp
      · intro hn
        have := hb hn
        simpa [Pipeline.inflight, Pipeline.pending] using this
      · intro pb hpb
        simp only [List.mem_append, List.mem_singleton] at hpb
        rcases hpb with hpb | hpb
        · exact h.outOk pb hpb
        · subst hpb
          exact h.slotOk ⟨b, .ready obj⟩ (by rw [hin]; exact List.mem_cons_self _ _) obj rfl
      · intro sl hsl o ho
        exact h.slotOk sl (by rw [hin]; exact List.mem_cons_of_mem _ (by simpa [Pipeline.inflight] using hsl)) o ho
      · intro hd
        simp at hd
        exact absurd hd hnd
    · cases hs
    · rename_i hheld
      have hin : s.inflight = s.preprocessed := by simp [Pipeline.inflight, hheld]
      split at hs
      · rename_i sl rest hq
        injection hs with hs; subst hs
        have hin2 : s.inflight = sl :: rest := by rw [hin, hq]
        refine ⟨?_, ?_, h.outOk, ?_, h.closedMain, ?_⟩
        · have := h.isPrefix; rw [hin2] at this
          simpa [Pipeline.inflight] using this
        · intro hn
          have := h.blocks hn; rw [hin2] at this
          simpa [Pipeline.inflight, Pipeline.pending] using this
        · intro x hx o ho
          exact h.slotOk x (by rw [hin2]; simpa [Pipeline.inflight] using hx) o ho
        · intro hd
          simp at hd
          exact absurd hd hnd
      · rename_i hq
        split at hs
        · rename_i hc
          injection hs with hs; subst hs
          refine ⟨h.isPrefix, h.blocks, h.outOk, h.slotOk, h.closedMain, ?_⟩
          intro _ _
          exact ⟨hc, by show s.inflight = []; rw [hin, hq]⟩
        · cases hs

theorem Inv.stepMain {cfg : StreamConfig} {target : List Block} {s t : Pipeline}
    (h : Inv cfg target s) (hs : stepMain cfg s = some t) :
    Inv cfg target t := by
  unfold Bstream.stepMain at hs
  split at hs
  · cases hs
  · rename_i hm
    split at hs
    · injection hs with hs; subst hs
      refine ⟨h.isPrefix, ?_, h.outOk, h.slotOk, fun _ => by simp, h.doneOk⟩
      intro hn
      have := h.blocks hn
      simpa [Pipeline.pending, hm] using this
    · cases hs
  · rename_i hm
    split at hs
    · rename_i hterm
      injection hs with hs; subst hs
      exact ⟨h.isPrefix, fun hn => absurd hn (isTerminating_true hterm), h.outOk, h.slotOk,
        fun _ => by simp, h.doneOk⟩
    · rename_i hterm
      have hnone : s.shutter = none := isTerminating_false (by simpa using hterm)
      have hb := h.blocks hnone
      have hnc : s.closed = false := by
        cases hc : s.closed with
        | false => rfl
        | true => exact absurd hm (h.closedMain hc)
      have hnd : s.fwdDone = false := by
        cases hd : s.fwdDone with
        | false => rfl
        | true => rw [(h.doneOk hd hnone).1] at hnc; cases hnc
      split at hs
      · rename_i hr
        injection hs with hs; subst hs
        refine ⟨h.isPrefix, ?_, h.outOk, h.slotOk, fun _ => by simp, ?_⟩
        · intro _
          simpa [Pipeline.pending, hm, hr, admittedBlocks] using hb
        · intro hd; simp [hnd] at hd
      · rename_i r rest hr
        simp only [Pipeline.pending, hm, hr, if_true] at hb
        unfold admittedBlocks at hb
        split at hs
        · rename_i e he
          injection hs with hs; subst hs
          rw [he] at hb
          refine ⟨h.isPrefix, ?_, h.outOk, h.slotOk, fun _ => by simp, ?_⟩
          · intro _; simpa [Pipeline.pending] using hb
          · intro hd; simp [hnd] at hd
        · rename_i he
          injection hs with hs; subst hs
          rw [he] at hb
          refine ⟨h.isPrefix, ?_, h.outOk, h.slotOk, fun _ => by simp, ?_⟩
          · intro _; simpa [Pipeline.pending] using hb
          · intro hd; simp [hnd] at hd
        · rename_i p he
          injection hs with hs; subst hs
          rw [he] at hb
          refine ⟨h.isPrefix, ?_, h.outOk, h.slotOk, ?_, ?_⟩
          · intro _; simpa [Pipeline.pending, hm] using hb
          · intro hc; simp [hnc] at hc
          · intro hd; simp [hnd] at hd
        · rename_i b he
          rw [he] at hb
          split at hs
          · injection hs with hs; subst hs
            have hin : ∀ q : List Slot,
                (s.held.toList ++ (s.preprocessed ++ q)) = s.inflight ++ q := by
              intro q; simp [Pipeline.inflight]
            refine ⟨?_, ?_, h.outOk, ?_, ?_, ?_⟩
            · show (_ ++ List.map _ (s.held.toList ++ (s.preprocessed ++ _))) <+: target
              rw [hin, ← hb]
              simp only [List.map_append, List.map_cons, List.map_nil, List.append_assoc]
              refine (List.prefix_append_right_inj _).2 ?_
              refine (List.prefix_append_right_inj _).2 ?_
              exact List.prefix_append _ _
            · intro _
              show _ ++ List.map _ (s.held.toList ++ (s.preprocessed ++ _)) ++ _ = target
              rw [hin, ← hb]
              simp [Pipeline.pending, hm]
            · intro sl hsl o ho
              have hsl2 : sl ∈ s.inflight ++ [⟨b, .running⟩] := by
                rw [← hin]; exact hsl
              simp only [List.mem_append, List.mem_singleton] at hsl2
              rcases hsl2 with h1 | h1
              · exact h.slotOk sl h1 o ho
              · subst h1; cases ho
            · intro hc; simp [hnc] at hc
            · intro hd; simp [hnd] at hd
          · cases hs

theorem Inv.step {cfg : StreamConfig} {target : List Block} {s t : Pipeline} (a : Action)
    (h : Inv cfg target s) (hs : step cfg a s = some t) : Inv cfg target t := by
  cases a with
  | main => exact h.stepMain hs
  | preprocess i => exact h.stepPreprocess i hs
  | preprocessCancel i => exact h.stepPreprocessCancel i hs
  | forward => exact h.stepForward hs
  | forwardCancel => exact h.stepForwardCancel hs
  | shutdown e =>
    simp only [Bstream.step] at hs
    injection hs with hs; subst hs
    exact h.shutdown e

theorem Inv.run {cfg : StreamConfig} {target : List Block} (sched : List Action) :
    ∀ {s t : Pipeline}, Inv cfg target s → run cfg sched s = some t → Inv cfg target t := by
  induction sched with
  | nil => intro s t h hs; simp [Bstream.run] at hs; subst hs; exact h
  | cons a rest ih =>
    intro s t h hs
    simp only [Bstream.run] at hs
    split at hs
    · cases hs
    · rename_i s1 h1
      exact ih (h.step a h1) hs

theorem Inv.init (cfg : StreamConfig) (reads : BlockReader) (sh : Shutter) :
    Inv cfg (admittedBlocks cfg (initialPassed cfg) reads) (Pipeline.init cfg reads sh) := by
  refine ⟨?_, ?_, ?_, ?_, ?_, ?_⟩ <;>
    simp [Pipeline.init, Pipeline.inflight, Pipeline.pending]

/-- Whatever the schedule, a run of `streamReader` that ended with the
forwarding goroutine returned and no termination requested has sent on
`output` exactly the admitted blocks, in read order, each with the result of
its own transform. -/
theorem run_output {cfg : StreamConfig} {reads : BlockReader} {sched : List Action}
    {t : Pipeline} (hrun : run cfg sched (Pipeline.init cfg reads none) = some t)
    (hdone : t.fwdDone = true) (hsh : t.shutter = none) :
    t.output.map (fun pb => pb.block) = admittedBlocks cfg (initialPassed cfg) reads ∧
    ∀ pb ∈ t.output, preprocessResult cfg pb.block = .ok pb.obj := by
  have h := (Inv.init cfg reads none).run sched hrun
  obtain ⟨hc, hi⟩ := h.doneOk hdone hsh
  have hb := h.blocks hsh
  have hm := h.closedMain hc
  refine ⟨?_, h.outOk⟩
  simpa [Pipeline.pending, hm, hi] using hb

/-- Whatever the schedule and whether or not termination was requested, what a
run of `streamReader` has sent on `output` is a prefix of the admitted
blocks. -/
theorem run_output_prefix {cfg : StreamConfig} {reads : BlockReader} {sched : List Action}
    {sh : Shutter} {t : Pipeline} (hrun : run cfg sched (Pipeline.init cfg reads sh) = some t) :
    t.output.map (fun pb => pb.block) <+: admittedBlocks cfg (initialPassed cfg) reads := by
  have h := (Inv.init cfg reads sh).run sched hrun
  exact (List.prefix_append _ _).trans h.isPrefix

/-- The lock-step schedule can be played to its end: the forwarding goroutine
returns and no termination is requested, provided the ordering queue has room
for one slot and no transform fails on a block the read loop publishes. -/
theorem lockstep_complete (cfg : StreamConfig) (hc : 1 ≤ cfg.preprocessorThreadCount) :
    ∀ (reads : BlockReader) (passed : Bool) (lastErr : Option Err)
      (output : List PreprocessedBlock),
      (∀ b ∈ admittedBlocks cfg passed reads, ∃ o, preprocessResult cfg b = .ok o) →
      ∃ t, run cfg (lockstep cfg passed reads)
          ⟨reads, passed, .reading, [], false, lastErr, none, false, output, none⟩ = some t ∧
        t.fwdDone = true ∧ t.shutter = none := by
  intro reads
  induction reads with
  | nil =>
    intro passed lastErr output _
    simp [lockstep, run, step, stepMain, stepForward, Shutter.isTerminating]
  | cons r rest ih =>
    intro passed lastErr output hok
    unfold lockstep
    unfold admittedBlocks at hok
    cases hr : readStep cfg passed r with
    | fail e =>
      simp [hr, run, step, stepMain, stepForward, Shutter.isTerminating]
    | finish =>
      simp [hr, run, step, stepMain, stepForward, Shutter.isTerminating]
    | skip p =>
      rw [hr] at hok
      obtain ⟨t, ht, h1, h2⟩ := ih p r.err output hok
      refine ⟨t, ?_, h1, h2⟩
      simp [hr, run, step, stepMain, Shutter.isTerminating, ht]
    | publish b =>
      rw [hr] at hok
      obtain ⟨o, ho⟩ := hok b (List.mem_cons_self _ _)
      obtain ⟨t, ht, h1, h2⟩ := ih passed r.err (output ++ [⟨b, o⟩])
        (fun x hx => hok x (List.mem_cons_of_mem _ hx))
      refine ⟨t, ?_, h1, h2⟩
      have hlt : 0 < cfg.preprocessorThreadCount := hc
      simp [hr, run, step, stepMain, stepForward, stepPreprocess, Pipeline.inflight,
        Pipeline.setSlot, Shutter.isTerminating, hlt, ho, ht]

/-! ## Every run can be completed -/

theorem run_append (cfg : StreamConfig) :
    ∀ (a b : List Action) (s : Pipeline),
      run cfg (a ++ b) s =
        match run cfg a s with
        | none => none
        | some s1 => run cfg b s1 := by
  intro a
  induction a with
  | nil => intro b s; rfl
  | cons x rest ih =>
    intro b s
    simp only [List.cons_append, run]
    cases hs : step cfg x s with
    | none => rfl
    | some s1 => exact ih b s1

/-- A step never clears the shutter. -/
theorem step_shutter {cfg : StreamConfig} {a : Action} {s t : Pipeline}
    (hs : step cfg a s = some t) (ht : t.shutter = none) : s.shutter = none := by
  cases a with
  | main =>
    simp only [step, stepMain] at hs
    split at hs
    · cases hs
    · split at hs
      · injection hs with hs; subst hs; exact ht
      · cases hs
    · split at hs
      · injection hs with hs; subst hs; exact ht
      · split at hs
        · injection hs with hs; subst hs; exact ht
        · split at hs
          · injection hs with hs; subst hs; exact ht
          · injection hs with hs; subst hs; exact ht
          · injection hs with hs; subst hs; exact ht
          · split at hs
            · injection hs with hs; subst hs; exact ht
            · cases hs
  | preprocess i =>
    simp only [step, stepPreprocess] at hs
    split at hs
    · split at hs
      · injection hs with hs; subst hs
        exact absurd ht (shutdown_eq_none _ _)
      · injection hs with hs; subst hs
        rw [(setSlot_fields s i _).2.2.2.2.2.2] at ht
        exact ht
    · cases hs
  | preprocessCancel i =>
    simp only [step, stepPreprocessCancel] at hs
    split at hs
    · split at hs
      · injection hs with hs; subst hs
        rw [(setSlot_fields s i _).2.2.2.2.2.2] at ht
        exact ht
      · cases hs
    · cases hs
  | forward =>
    simp only [step, stepForward] at hs
    split at hs
    · cases hs
    · split at hs
      · injection hs with hs; subst hs; exact ht
      · cases hs
      · split at hs
        · injection hs with hs; subst hs; exact ht
        · split at hs
          · injection hs with hs; subst hs; exact ht
          · cases hs
  | forwardCancel =>
    simp only [step, stepForwardCancel] at hs
    split at hs
    · cases hs
    · split at hs
      · injection hs with hs; subst hs; exact ht
      · cases hs
  | shutdown e =>
    simp only [step] at hs
    injection hs with hs; subst hs
    exact absurd ht (shutdown_eq_none _ _)

theorem Live.atStart (cfg : StreamConfig) (reads : BlockReader) (sh : Shutter) :
    Live (Pipeline.init cfg reads sh) := by
  intro _
  simp [Pipeline.init, Pipeline.inflight]

theorem Live.after {cfg : StreamConfig} {a : Action} {s t : Pipeline}
    (h : Live s) (hs : step cfg a s = some t) : Live t := by
  intro ht
  have hsn : s.shutter = none := step_shutter hs ht
  have hnt : s.shutter.isTerminating = false := by simp [hsn, Shutter.isTerminating]
  obtain ⟨hd, hc⟩ := h hsn
  cases a with
  | main =>
    simp only [Bstream.step, stepMain] at hs
    split at hs
    · cases hs
    · rename_i hm
      split at hs
      · injection hs with hs; subst hs
        exact ⟨hd, fun _ => hc (by rw [hm]; simp)⟩
      · cases hs
    · rename_i hm
      simp only [hnt, Bool.false_eq_true, if_false] at hs
      split at hs
      · injection hs with hs; subst hs
        exact ⟨hd, fun _ => rfl⟩
      · split at hs
        · injection hs with hs; subst hs
          exact ⟨hd, fun _ => rfl⟩
        · injection hs with hs; subst hs
          exact ⟨hd, fun _ => rfl⟩
        · injection hs with hs; subst hs
          exact ⟨hd, fun hx => absurd hm hx⟩
        · rename_i b _
          split at hs
          · injection hs with hs; subst hs
            refine ⟨?_, fun hx => absurd hm hx⟩
            intro sl hsl
            have hsl2 : sl ∈ s.inflight ++ [⟨b, .running⟩] := by
              simpa [Pipeline.inflight] using hsl
            simp only [List.mem_append, List.mem_singleton] at hsl2
            rcases hsl2 with h1 | h1
            · exact hd sl h1
            · subst h1; simp
          · cases hs
  | preprocess i =>
    simp only [Bstream.step, stepPreprocess] at hs
    split at hs
    · split at hs
      · injection hs with hs; subst hs
        exact absurd ht (shutdown_eq_none _ _)
      · rename_i obj _
        injection hs with hs; subst hs
        obtain ⟨_, f2, _, _, f5, _, _⟩ := setSlot_fields s i (.ready obj)
        refine ⟨?_, fun hx => by rw [f5]; exact hc (by rw [← f2]; exact hx)⟩
        intro sl hsl
        rw [inflight_setSlot] at hsl
        rcases mem_setState _ i s.inflight sl hsl with h1 | ⟨x, _, h1⟩
        · exact hd sl h1
        · subst h1; simp
    · cases hs
  | preprocessCancel i =>
    simp only [Bstream.step, stepPreprocessCancel, hnt] at hs
    split at hs
    · simp at hs
    · cases hs
  | forward =>
    simp only [Bstream.step, stepForward] at hs
    split at hs
    · cases hs
    · split at hs
      · rename_i b obj hheld
        injection hs with hs; subst hs
        refine ⟨?_, hc⟩
        intro sl hsl
        exact hd sl (by
          have : sl ∈ s.preprocessed := by simpa [Pipeline.inflight] using hsl
          simp [Pipeline.inflight, this])
      · cases hs
      · rename_i hheld
        split at hs
        · rename_i sl0 rest hq
          injection hs with hs; subst hs
          refine ⟨?_, hc⟩
          intro sl hsl
          exact hd sl (by
            have : sl = sl0 ∨ sl ∈ rest := by simpa [Pipeline.inflight] using hsl
            simpa [Pipeline.inflight, hheld, hq] using this)
        · split at hs
          · injection hs with hs; subst hs
            exact ⟨hd, hc⟩
          · cases hs
  | forwardCancel =>
    simp only [Bstream.step, stepForwardCancel, hnt] at hs
    split at hs
    · cases hs
    · simp at hs
  | shutdown e =>
    simp only [Bstream.step] at hs
    injection hs with hs; subst hs
    exact absurd ht (shutdown_eq_none _ _)

theorem Live.along {cfg : StreamConfig} (sched : List Action) :
    ∀ {s t : Pipeline}, Live s → run cfg sched s = some t → Live t := by
  induction sched with
  | nil => intro s t h hs; simp [Bstream.run] at hs; subst hs; exact h
  | cons a rest ih =>
    intro s t h hs
    simp only [Bstream.run] at hs
    split at hs
    · cases hs
    · rename_i s1 h1
      exact ih (h.after h1) hs

/-- The forwarding goroutine can always get rid of the slot it holds. -/
theorem drain_held (cfg : StreamConfig) (reads : BlockReader) (passed : Bool) (main : MainPc)
    (q : List Slot) (closed : Bool) (lastErr : Option Err) (sl : Slot)
    (output : List PreprocessedBlock)
    (hlive : sl.state ≠ .dead) (hok : ∃ o, preprocessResult cfg sl.block = .ok o) :
    ∃ sched output1,
      run cfg sched ⟨reads, passed, main, q, closed, lastErr, some sl, false, output, none⟩
        = some ⟨reads, passed, main, q, closed, lastErr, none, false, output1, none⟩ := by
  obtain ⟨b, st⟩ := sl
  obtain ⟨o, ho⟩ := hok
  cases st with
  | dead => exact absurd rfl hlive
  | ready obj =>
    exact ⟨[.forward], output ++ [⟨b, obj⟩], by simp [run, step, stepForward]⟩
  | running =>
    refine ⟨[.preprocess 0, .forward], output ++ [⟨b, o⟩], ?_⟩
    simp only [List.append_eq] at ho
    simp [run, step, stepForward, stepPreprocess, Pipeline.inflight, Pipeline.setSlot, ho]

/-- The forwarding goroutine can always empty the ordering queue. -/
theorem drain_queue (cfg : StreamConfig) (reads : BlockReader) (passed : Bool) (main : MainPc)
    (closed : Bool) (lastErr : Option Err) :
    ∀ (q : List Slot) (output : List PreprocessedBlock),
      (∀ sl ∈ q, sl.state ≠ .dead ∧ ∃ o, preprocessResult cfg sl.block = .ok o) →
      ∃ sched output1,
        run cfg sched ⟨reads, passed, main, q, closed, lastErr, none, false, output, none⟩
          = some ⟨reads, passed, main, [], closed, lastErr, none, false, output1, none⟩ := by
  intro q
  induction q with
  | nil => intro output _; exact ⟨[], output, rfl⟩
  | cons sl rest ih =>
    intro output hq
    obtain ⟨hl, hok⟩ := hq sl (List.mem_cons_self _ _)
    obtain ⟨s1, o1, h1⟩ := drain_held cfg reads passed main rest closed lastErr sl output hl hok
    obtain ⟨s2, o2, h2⟩ := ih o1 (fun x hx => hq x (List.mem_cons_of_mem _ hx))
    refine ⟨.forward :: (s1 ++ s2), o2, ?_⟩
    simp only [run, step, stepForward, Bool.false_eq_true, if_false]
    rw [run_append, h1]
    exact h2

/-- Deadlock freedom. From every state of a run of `streamReader` on which no
termination was requested, the run can be played on until the forwarding
goroutine returns, still with no termination requested, when the transform
succeeds on the blocks to publish and the ordering queue has room for one
slot. -/
theorem can_complete (cfg : StreamConfig) (hc : 1 ≤ cfg.preprocessorThreadCount)
    (target : List Block) (hok : ∀ b ∈ target, ∃ o, preprocessResult cfg b = .ok o)
    (s : Pipeline) (hinv : Inv cfg target s) (hlive : Live s) (hsh : s.shutter = none) :
    ∃ sched t, run cfg sched s = some t ∧ t.fwdDone = true ∧ t.shutter = none := by
  by_cases hfd : s.fwdDone = true
  · exact ⟨[], s, rfl, hfd, hsh⟩
  · have hfd2 : s.fwdDone = false := by simpa using hfd
    obtain ⟨hdead, hclosed⟩ := hlive hsh
    have hb := hinv.blocks hsh
    have hin : ∀ sl ∈ s.inflight, ∃ o, preprocessResult cfg sl.block = .ok o := by
      intro sl hsl
      apply hok
      rw [← hb]
      simp only [List.mem_append, List.mem_map]
      exact Or.inl (Or.inr ⟨sl, hsl, rfl⟩)
    obtain ⟨reads, passed, main, q, closed, lastErr, held, fwdDone, output, shutter⟩ := s
    simp only at hsh hfd2
    subst hsh
    subst hfd2
    -- first the held slot, then the queue
    have hphase1 : ∃ sched output1,
        run cfg sched ⟨reads, passed, main, q, closed, lastErr, held, false, output, none⟩
          = some ⟨reads, passed, main, [], closed, lastErr, none, false, output1, none⟩ := by
      have hq : ∀ sl ∈ q, sl.state ≠ .dead ∧ ∃ o, preprocessResult cfg sl.block = .ok o :=
        fun sl hsl => ⟨hdead sl (by simp [Pipeline.inflight, hsl]),
          hin sl (by simp [Pipeline.inflight, hsl])⟩
      cases held with
      | none => exact drain_queue cfg reads passed main closed lastErr q output hq
      | some sl =>
        obtain ⟨s1, o1, h1⟩ := drain_held cfg reads passed main q closed lastErr sl output
          (hdead sl (by simp [Pipeline.inflight])) (hin sl (by simp [Pipeline.inflight]))
        obtain ⟨s2, o2, h2⟩ := drain_queue cfg reads passed main closed lastErr q o1 hq
        exact ⟨s1 ++ s2, o2, by rw [run_append, h1]; exact h2⟩
    obtain ⟨sched1, output1, hrun1⟩ := hphase1
    have hinv1 := hinv.run sched1 hrun1
    have hlive1 : Live _ := Live.along sched1 (fun _ => ⟨hdead, hclosed⟩) hrun1
    by_cases hm : main = .reading
    · subst hm
      have hcl : closed = false := by
        cases closed with
        | false => rfl
        | true => exact absurd rfl (hinv1.closedMain rfl)
      subst hcl
      have hb1 := hinv1.blocks rfl
      obtain ⟨t, ht, hd, hs⟩ := lockstep_complete cfg hc reads passed lastErr output1 (by
        intro b hbm
        apply hok
        rw [← hb1]
        simp only [Pipeline.pending, if_true, List.mem_append]
        exact Or.inr hbm)
      exact ⟨sched1 ++ lockstep cfg passed reads, t, by rw [run_append, hrun1]; exact ht, hd, hs⟩
    · have hcl : closed = true := (hlive1 rfl).2 hm
      subst hcl
      refine ⟨sched1 ++ [.forward],
        ⟨reads, passed, main, [], true, lastErr, none, true, output1, none⟩, ?_, rfl, rfl⟩
      rw [run_append, hrun1]
      simp only [run, step, stepForward, Bool.false_eq_true, if_false, if_true]

/-! ## The lock-step engine and the pipeline -/

/-- With a quiet consumer and a transform that succeeds, the lock-step engine
hands over the blocks the read loop publishes, in order, each with its
transform result: the output of every completed run of the pipeline. -/
theorem streamFile_quiet {σ : Type} (cfg : StreamConfig) (h : Handler σ)
    (hquiet : ∀ s pb, (h s pb).2 = ⟨none, none⟩) (tr : Block → Obj) :
    ∀ (reads : BlockReader) (passed : Bool) (lastErr : Option Err) (eng : Engine σ),
      eng.shutter = none →
      (∀ b ∈ admittedBlocks cfg passed reads, preprocessResult cfg b = .ok (tr b)) →
      (streamFile cfg h passed lastErr reads eng).1.events
          = eng.events ++
            (admittedBlocks cfg passed reads).map (fun b => Event.processBlock ⟨b, tr b⟩) ∧
        (streamFile cfg h passed lastErr reads eng).1.shutter = none := by
  intro reads
  induction reads with
  | nil =>
    intro passed lastErr eng hsh _
    have hterm : eng.shutter.isTerminating = false := by simp [hsh, Shutter.isTerminating]
    simp only [streamFile, hterm, Bool.false_eq_true, if_false, admittedBlocks, List.map_nil,
      List.append_nil, true_and]
    exact hsh
  | cons r rest ih =>
    intro passed lastErr eng hsh hok
    have hterm : eng.shutter.isTerminating = false := by simp [hsh, Shutter.isTerminating]
    unfold streamFile
    unfold admittedBlocks at hok ⊢
    simp only [hterm, Bool.false_eq_true, if_false]
    cases hr : readStep cfg passed r with
    | fail e => simp [hsh]
    | finish => simp [hsh]
    | skip q =>
      rw [hr] at hok
      exact ih q r.err eng hsh hok
    | publish b =>
      rw [hr] at hok
      have hb := hok b (List.mem_cons_self _ _)
      simp only [hb, sinkFile, hterm, Bool.false_eq_true, if_false, hquiet]
      have := ih passed r.err
        ⟨eng.shutter.request none, (h eng.hstate ⟨b, tr b⟩).1,
          eng.events ++ [Event.processBlock ⟨b, tr b⟩]⟩
        (by simp [hsh, Shutter.request])
        (fun x hx => hok x (List.mem_cons_of_mem _ hx))
      simpa using this

/-! ## Events appended by the engine -/

theorem filterMap_processBlock_nil {α : Type} (f : Event → Option α)
    (hf : ∀ pb, f (.processBlock pb) = none) (pbs : List PreprocessedBlock) :
    (pbs.map Event.processBlock).filterMap f = [] := by
  induction pbs with
  | nil => rfl
  | cons pb rest ih => simp [List.filterMap_cons, hf, ih]

theorem sinkFile_events {σ : Type} (h : Handler σ) :
    ∀ (l : List PreprocessedBlock) (eng : Engine σ),
      ∃ pbs : List PreprocessedBlock, (sinkFile h l eng).1.events = eng.events ++ pbs.map Event.processBlock := by
  intro l
  induction l with
  | nil => intro eng; exact ⟨[], by simp [sinkFile]⟩
  | cons pb rest ih =>
    intro eng
    unfold sinkFile
    split
    · exact ⟨[], by simp⟩
    · dsimp only
      cases herr : (h eng.hstate pb).2.err with
      | some e => exact ⟨[pb], by simp⟩
      | none =>
        obtain ⟨pbs, hp⟩ := ih
          { shutter := eng.shutter.request (h eng.hstate pb).2.shutdown,
            hstate := (h eng.hstate pb).1, events := eng.events ++ [.processBlock pb] }
        exact ⟨pb :: pbs, by rw [hp]; simp⟩

theorem streamFile_events {σ : Type} (cfg : StreamConfig) (h : Handler σ) :
    ∀ (reads : BlockReader) (passed : Bool) (lastErr : Option Err) (eng : Engine σ),
      ∃ pbs : List PreprocessedBlock, (streamFile cfg h passed lastErr reads eng).1.events
        = eng.events ++ pbs.map Event.processBlock := by
  intro reads
  induction reads with
  | nil =>
    intro passed lastErr eng
    refine ⟨[], ?_⟩
    unfold streamFile
    split <;> simp
  | cons r rest ih =>
    intro passed lastErr eng
    unfold streamFile
    by_cases ht : eng.shutter.isTerminating = true
    · exact ⟨[], by simp [ht]⟩
    · simp only [ht, if_false, Bool.false_eq_true]
      cases hr : readStep cfg passed r with
      | fail e => exact ⟨[], by simp⟩
      | finish => exact ⟨[], by simp⟩
      | skip p => exact ih _ _ _
      | publish b =>
        dsimp only
        cases hp : preprocessResult cfg b with
        | error e =>
          obtain ⟨pbs, hpbs⟩ := ih passed r.err
            { eng with shutter := eng.shutter.shutdown (some (.wrap "preprocess block" e)) }
          exact ⟨pbs, hpbs⟩
        | ok obj =>
          obtain ⟨q, hq⟩ := sinkFile_events h [⟨b, obj⟩] eng
          obtain ⟨pbs, hpbs⟩ := ih passed r.err (sinkFile h [⟨b, obj⟩] eng).1
          exact ⟨q ++ pbs, by rw [hpbs, hq]; simp⟩

theorem streamIncomingFile_events {σ : Type} (fs : FileSource σ) (store : Store) (idx : Nat)
    (name : String) (eng : Engine σ) :
    ∃ pbs : List PreprocessedBlock, (streamIncomingFile fs store idx name eng).1.events
      = eng.events ++ .openObject idx name :: pbs.map Event.processBlock := by
  unfold streamIncomingFile
  dsimp only
  split
  · exact ⟨[], by simp⟩
  · split
    · exact ⟨[], by simp⟩
    · rename_i reader _
      obtain ⟨pbs, hp⟩ := streamFile_events (fs.streamConfig none) fs.handler reader
        (initialPassed (fs.streamConfig none)) none
        { eng with events := eng.events ++ [.openObject idx name] }
      refine ⟨pbs, ?_⟩
      split
      · rename_i heq; rw [heq] at hp; simpa using hp
      · rename_i heq; rw [heq] at hp; simpa using hp

theorem processFile_events {σ : Type} (fs : FileSource σ) (w : Stores) (idx : Nat)
    (name : String) (eng : Engine σ) (store : Store) (hget : w.get idx = some store) :
    ∃ pbs : List PreprocessedBlock, (processFile fs w idx name eng).events
      = eng.events ++ .openObject idx name :: pbs.map Event.processBlock := by
  unfold processFile
  rw [hget]
  dsimp only
  obtain ⟨pbs, hp⟩ := streamIncomingFile_events fs store idx name eng
  refine ⟨pbs, ?_⟩
  split
  · rename_i heq; rw [heq] at hp; simpa using hp
  · rename_i heq; rw [heq] at hp; simpa using hp

/-! ## Store selection -/

/-- The secondary loop stops at the first store that has the file. -/
theorem lookupSecondary_hit (name : String) :
    ∀ (stores : List Store) (idx i : Nat) (si : Store),
      (∀ j, j < i → ∃ s, stores.get? j = some s ∧ s.fileExists name = .ok false) →
      stores.get? i = some si → si.fileExists name = .ok true →
      lookupSecondary name stores idx
        = ⟨(List.range (i + 1)).map (fun j => idx + j), .ok (some (idx + i))⟩ := by
  intro stores
  induction stores with
  | nil => intro idx i si _ hget; simp at hget
  | cons s rest ih =>
    intro idx i si hlack hget hhas
    cases i with
    | zero =>
      simp only [List.get?_cons_zero, Option.some.injEq] at hget
      subst hget
      simp [lookupSecondary, hhas, List.range_succ]
    | succ i =>
      obtain ⟨s0, h0, h0f⟩ := hlack 0 (Nat.succ_pos i)
      simp only [List.get?_cons_zero, Option.some.injEq] at h0
      subst h0
      have hrec := ih (idx + 1) i si
        (fun j hj => by
          obtain ⟨x, hx, hxf⟩ := hlack (j + 1) (Nat.succ_lt_succ hj)
          exact ⟨x, by simpa using hx, hxf⟩)
        (by simpa using hget) hhas
      simp only [lookupSecondary, h0f, hrec]
      rw [List.range_succ_eq_map (i + 1)]
      simp only [List.map_cons, List.map_map, Nat.add_zero]
      congr 1
      · congr 1
        apply List.map_congr_left
        intro j _
        simp only [Function.comp]
        omega
      · congr 2
        omega

/-- The secondary loop finds nothing when every store lacks the file. -/
theorem lookupSecondary_miss (name : String) :
    ∀ (stores : List Store) (idx : Nat),
      (∀ s ∈ stores, s.fileExists name = .ok false) →
      lookupSecondary name stores idx
        = ⟨(List.range stores.length).map (fun j => idx + j), .ok none⟩ := by
  intro stores
  induction stores with
  | nil => intro idx _; simp [lookupSecondary]
  | cons s rest ih =>
    intro idx hall
    have hs := hall s (List.mem_cons_self _ _)
    have hrec := ih (idx + 1) (fun x hx => hall x (List.mem_cons_of_mem _ hx))
    simp only [lookupSecondary, hs, hrec, List.length_cons]
    rw [List.range_succ_eq_map rest.length]
    simp only [List.map_cons, List.map_map, Nat.add_zero]
    congr 2
    apply List.map_congr_left
    intro j _
    simp only [Function.comp]
    omega

/-- The first store, primary first, that has the file is the one selected, and
exactly the stores up to it are queried. -/
theorem lookup_hit (w : Stores) (name : String) (i : Nat) (si : Store)
    (hlack : ∀ j, j < i → ∃ s, w.get j = some s ∧ s.fileExists name = .ok false)
    (hget : w.get i = some si) (hhas : si.fileExists name = .ok true) :
    lookup w.primary w.secondaries name = ⟨List.range (i + 1), .ok (some i)⟩ := by
  cases i with
  | zero =>
    simp only [Stores.get, Option.some.injEq] at hget
    subst hget
    simp [lookup, hhas, List.range_succ]
  | succ i =>
    obtain ⟨s0, h0, h0f⟩ := hlack 0 (Nat.succ_pos i)
    simp only [Stores.get, Option.some.injEq] at h0
    subst h0
    have hrec := lookupSecondary_hit name w.secondaries 1 i si
      (fun j hj => by
        obtain ⟨x, hx, hxf⟩ := hlack (j + 1) (Nat.succ_lt_succ hj)
        exact ⟨x, by simpa [Stores.get] using hx, hxf⟩)
      (by simpa [Stores.get] using hget) hhas
    simp only [lookup, h0f, hrec]
    rw [List.range_succ_eq_map (i + 1)]
    congr 1
    · congr 1
      apply List.map_congr_left
      intro j _
      omega
    · congr 2
      omega

theorem lookup_miss (w : Stores) (name : String)
    (hall : ∀ s ∈ w.primary :: w.secondaries, s.fileExists name = .ok false) :
    lookup w.primary w.secondaries name
      = ⟨List.range (w.secondaries.length + 1), .ok none⟩ := by
  have hp := hall w.primary (List.mem_cons_self _ _)
  have hrec := lookupSecondary_miss name w.secondaries 1
    (fun x hx => hall x (List.mem_cons_of_mem _ hx))
  simp only [lookup, hp, hrec]
  rw [List.range_succ_eq_map w.secondaries.length]
  congr 2
  apply List.map_congr_left
  intro j _
  omega

/-- A store selected by the secondary loop is a store of the list. -/
theorem lookupSecondary_some (name : String) :
    ∀ (stores : List Store) (idx k : Nat),
      (lookupSecondary name stores idx).result = .ok (some k) →
      ∃ i s, k = idx + i ∧ stores.get? i = some s ∧ s.fileExists name = .ok true := by
  intro stores
  induction stores with
  | nil => intro idx k h; simp [lookupSecondary] at h
  | cons s rest ih =>
    intro idx k h
    unfold lookupSecondary at h
    cases hs : s.fileExists name with
    | error e => simp [hs] at h
    | ok b =>
      cases b with
      | true =>
        simp only [hs, Except.ok.injEq, Option.some.injEq] at h
        exact ⟨0, s, by omega, rfl, hs⟩
      | false =>
        simp only [hs] at h
        obtain ⟨i, x, hk, hx, hxf⟩ := ih (idx + 1) k h
        exact ⟨i + 1, x, by omega, by simpa using hx, hxf⟩

/-- A selected store is a store of the set and has the file. -/
theorem lookup_some (w : Stores) (name : String) (k : Nat)
    (h : (lookup w.primary w.secondaries name).result = .ok (some k)) :
    ∃ s, w.get k = some s ∧ s.fileExists name = .ok true := by
  unfold lookup at h
  cases hs : w.primary.fileExists name with
  | error e => simp [hs] at h
  | ok b =>
    cases b with
    | true =>
      simp only [hs, Except.ok.injEq, Option.some.injEq] at h
      subst h
      exact ⟨w.primary, rfl, hs⟩
    | false =>
      simp only [hs] at h
      obtain ⟨i, x, hk, hx, hxf⟩ := lookupSecondary_some name w.secondaries 1 k h
      refine ⟨x, ?_, hxf⟩
      subst hk
      rw [Nat.add_comm]
      simpa [Stores.get] using hx

/-! ## One poll -/

theorem poll_hit (cfg : LocatorConfig) (w : Stores) (st : LoopState) (i : Nat) (si : Store)
    (hlack : ∀ j, j < i → ∃ s, w.get j = some s ∧
      s.fileExists (baseFilename (baseBlockNum st.currentIndex)) = .ok false)
    (hget : w.get i = some si)
    (hhas : si.fileExists (baseFilename (baseBlockNum st.currentIndex)) = .ok true) :
    poll cfg w st =
      ((List.range (i + 1)).map
          (fun j => Event.fileExists j (baseFilename (baseBlockNum st.currentIndex))),
        .hit i (baseFilename (baseBlockNum st.currentIndex))) := by
  simp only [poll, lookup_hit w _ i si hlack hget hhas]

theorem poll_miss (cfg : LocatorConfig) (w : Stores) (st : LoopState)
    (hall : ∀ s ∈ w.primary :: w.secondaries,
      s.fileExists (baseFilename (baseBlockNum st.currentIndex)) = .ok false) :
    poll cfg w st =
      ((List.range (w.secondaries.length + 1)).map
          (fun j => Event.fileExists j (baseFilename (baseBlockNum st.currentIndex))) ++
        (if cfg.hasNotFoundCallback then
          [Event.notFoundCallback (max (baseBlockNum st.currentIndex) cfg.firstStreamableBlock)]
         else []),
        .miss ⟨st.currentIndex, cfg.retryDelay⟩) := by
  have hmax : mergerBaseBlockNum cfg (baseBlockNum st.currentIndex)
      = max (baseBlockNum st.currentIndex) cfg.firstStreamableBlock := by
    unfold mergerBaseBlockNum
    split <;> omega
  simp only [poll, lookup_miss w _ hall, hmax]

/-- What a poll can answer: a miss keeps the cursor, a hit names the file of
the current base and a store of the set. -/
theorem poll_outcome (cfg : LocatorConfig) (w : Stores) (st : LoopState) :
    (∃ e, (poll cfg w st).2 = .failed e) ∨
    (poll cfg w st).2 = .miss ⟨st.currentIndex, cfg.retryDelay⟩ ∨
    (∃ i s, (poll cfg w st).2 = .hit i (baseFilename (baseBlockNum st.currentIndex)) ∧
      w.get i = some s) := by
  unfold poll
  dsimp only
  cases hr : (lookup w.primary w.secondaries (baseFilename (baseBlockNum st.currentIndex))).result with
  | error e => exact Or.inl ⟨e, rfl⟩
  | ok o =>
    cases o with
    | none => exact Or.inr (Or.inl rfl)
    | some i =>
      obtain ⟨s, hs, _⟩ := lookup_some w _ i hr
      exact Or.inr (Or.inr ⟨i, s, rfl, hs⟩)

theorem openedFiles_append (a b : List Event) :
    openedFiles (a ++ b) = openedFiles a ++ openedFiles b := by
  simp [openedFiles, List.filterMap_append]

theorem hookCalls_append (a b : List Event) :
    hookCalls (a ++ b) = hookCalls a ++ hookCalls b := by
  simp [hookCalls, List.filterMap_append]

theorem storeCalls_append (a b : List Event) :
    storeCalls (a ++ b) = storeCalls a ++ storeCalls b := by
  simp [storeCalls, List.filter_append]

theorem delivered_append (a b : List Event) :
    delivered (a ++ b) = delivered a ++ delivered b := by
  simp [delivered, List.filterMap_append]

/-- The events of a poll: existence checks, then at most one hook call. -/
theorem poll_events (cfg : LocatorConfig) (w : Stores) (st : LoopState) :
    ∃ (checks : List Nat) (hook : List Nat),
      (poll cfg w st).1 =
        checks.map (fun j => Event.fileExists j (baseFilename (baseBlockNum st.currentIndex)))
          ++ hook.map Event.notFoundCallback := by
  unfold poll
  dsimp only
  cases hr : (lookup w.primary w.secondaries (baseFilename (baseBlockNum st.currentIndex))).result with
  | error e => exact ⟨(lookup w.primary w.secondaries (baseFilename (baseBlockNum st.currentIndex))).queried, [], by simp⟩
  | ok o =>
    cases o with
    | none =>
      by_cases hc : cfg.hasNotFoundCallback = true
      · exact ⟨(lookup w.primary w.secondaries (baseFilename (baseBlockNum st.currentIndex))).queried, [mergerBaseBlockNum cfg (baseBlockNum st.currentIndex)], by simp [hc]⟩
      · exact ⟨(lookup w.primary w.secondaries (baseFilename (baseBlockNum st.currentIndex))).queried, [], by simp [hc]⟩
    | some i => exact ⟨(lookup w.primary w.secondaries (baseFilename (baseBlockNum st.currentIndex))).queried, [], by simp⟩

theorem openedFiles_poll (cfg : LocatorConfig) (w : Stores) (st : LoopState) :
    openedFiles (poll cfg w st).1 = [] := by
  obtain ⟨checks, hook, h⟩ := poll_events cfg w st
  rw [h, openedFiles_append]
  simp [openedFiles, List.filterMap_map, Function.comp_def]

/-! ## One iteration of the engine loop -/

theorem openedFiles_processBlocks (pbs : List PreprocessedBlock) :
    openedFiles (pbs.map Event.processBlock) = [] :=
  filterMap_processBlock_nil _ (fun _ => rfl) pbs

theorem hookCalls_processBlocks (pbs : List PreprocessedBlock) :
    hookCalls (pbs.map Event.processBlock) = [] :=
  filterMap_processBlock_nil _ (fun _ => rfl) pbs

theorem storeCalls_processBlocks (pbs : List PreprocessedBlock) :
    storeCalls (pbs.map Event.processBlock) = [] := by
  induction pbs with
  | nil => rfl
  | cons pb rest ih =>
    simp only [storeCalls, List.map_cons] at ih ⊢
    rw [List.filter_cons_of_neg (by simp [Event.isStoreCall])]
    exact ih

/-- How an iteration moves the cursor and which file it opens. -/
theorem iteration_cases {σ : Type} (fs : FileSource σ) (w : Stores) (st : LoopState)
    (eng : Engine σ) :
    ((∃ e, (iteration fs w st eng).2 = .error e) ∧
      openedFiles (iteration fs w st eng).1.events = openedFiles eng.events) ∨
    ((iteration fs w st eng).2 = .ok ⟨st.currentIndex, fs.retryDelay⟩ ∧
      openedFiles (iteration fs w st eng).1.events = openedFiles eng.events) ∨
    ((iteration fs w st eng).2 = .ok (afterHit st) ∧
      openedFiles (iteration fs w st eng).1.events
        = openedFiles eng.events ++ [baseFilename (baseBlockNum st.currentIndex)]) := by
  unfold iteration
  by_cases ht : eng.shutter.isTerminating = true
  · exact Or.inl ⟨⟨none, by simp [ht]⟩, by simp [ht]⟩
  · simp only [ht, if_false, Bool.false_eq_true]
    have hop := openedFiles_poll fs.locatorConfig w st
    rcases poll_outcome fs.locatorConfig w st with ⟨e, he⟩ | he | ⟨i, s, he, hs⟩
    · left
      rw [he]
      exact ⟨⟨some e, rfl⟩, by simp [openedFiles_append, hop]⟩
    · right; left
      rw [he]
      exact ⟨rfl, by simp [openedFiles_append, hop]⟩
    · right; right
      rw [he]
      refine ⟨rfl, ?_⟩
      obtain ⟨pbs, hp⟩ := processFile_events fs w i
        (baseFilename (baseBlockNum st.currentIndex))
        { eng with events := eng.events ++ (poll fs.locatorConfig w st).1 } s hs
      dsimp only
      rw [hp]
      rw [openedFiles_append, openedFiles_append, hop]
      have : openedFiles (Event.openObject i (baseFilename (baseBlockNum st.currentIndex))
          :: pbs.map Event.processBlock)
          = [baseFilename (baseBlockNum st.currentIndex)] := by
        have h2 := openedFiles_processBlocks pbs
        simp only [openedFiles] at h2 ⊢
        simp [List.filterMap_cons, h2]
      rw [this]
      simp

theorem iteration_events {σ : Type} (fs : FileSource σ) (w : Stores) (st : LoopState)
    (eng : Engine σ) :
    ∃ more, (iteration fs w st eng).1.events = eng.events ++ more := by
  unfold iteration
  by_cases ht : eng.shutter.isTerminating = true
  · exact ⟨[], by simp [ht]⟩
  · simp only [ht, if_false, Bool.false_eq_true]
    rcases poll_outcome fs.locatorConfig w st with ⟨e, he⟩ | he | ⟨i, s, he, hs⟩
    · rw [he]; exact ⟨_, rfl⟩
    · rw [he]; exact ⟨_, rfl⟩
    · rw [he]
      obtain ⟨pbs, hp⟩ := processFile_events fs w i
        (baseFilename (baseBlockNum st.currentIndex))
        { eng with events := eng.events ++ (poll fs.locatorConfig w st).1 } s hs
      dsimp only
      rw [hp]
      exact ⟨_, by rw [List.append_assoc]⟩

theorem iterate_events {σ : Type} (fs : FileSource σ) (world : Nat → Stores) :
    ∀ (n t : Nat) (st : LoopState) (eng : Engine σ),
      ∃ more, (iterate fs world n t st eng).1.events = eng.events ++ more := by
  intro n
  induction n with
  | zero => intro t st eng; exact ⟨[], by simp [iterate]⟩
  | succ n ih =>
    intro t st eng
    unfold iterate
    obtain ⟨m1, h1⟩ := iteration_events fs (world t) st eng
    cases hr : iteration fs (world t) st eng with
    | mk eng1 res =>
      rw [hr] at h1
      cases res with
      | error e => exact ⟨m1, h1⟩
      | ok st1 =>
        obtain ⟨m2, h2⟩ := ih (t + 1) st1 eng1
        exact ⟨m1 ++ m2, by dsimp only; rw [h2, h1, List.append_assoc]⟩

theorem baseBlockNum_add (c : Nat) : baseBlockNum (c + 100) = baseBlockNum c + 100 := by
  simp only [baseBlockNum, filesBlocksIncrement]
  omega

theorem advance_eq (c : Nat) (h : c + 100 < 2 ^ 64) : advance c = c + 100 := by
  simp only [advance, filesBlocksIncrement, uint64Size]
  exact Nat.mod_eq_of_lt h

/-- The `k`-th file opened from a given loop state is the file of the base
`100 * k` above the base at that state. -/
theorem iterate_opened {σ : Type} (fs : FileSource σ) (world : Nat → Stores) :
    ∀ (n t : Nat) (st : LoopState) (eng : Engine σ) (k : Nat) (name : String),
      st.currentIndex + 100 * k < 2 ^ 64 →
      (openedFiles (iterate fs world n t st eng).1.events).get?
        ((openedFiles eng.events).length + k) = some name →
      name = baseFilename (baseBlockNum st.currentIndex + 100 * k) := by
  intro n
  induction n with
  | zero =>
    intro t st eng k name _ h
    simp only [iterate] at h
    rw [List.get?_eq_none.2 (Nat.le_add_right _ _)] at h
    cases h
  | succ n ih =>
    intro t st eng k name hk h
    unfold iterate at h
    rcases iteration_cases fs (world t) st eng with ⟨⟨e, he⟩, ho⟩ | ⟨he, ho⟩ | ⟨he, ho⟩
    · cases hr : iteration fs (world t) st eng with
      | mk eng1 res =>
        rw [hr] at h he ho
        dsimp only at he ho
        subst he
        dsimp only at h
        rw [ho, List.get?_eq_none.2 (Nat.le_add_right _ _)] at h
        cases h
    · cases hr : iteration fs (world t) st eng with
      | mk eng1 res =>
        rw [hr] at h he ho
        dsimp only at he ho
        subst he
        dsimp only at h
        rw [← ho] at h
        exact ih (t + 1) ⟨st.currentIndex, fs.retryDelay⟩ eng1 k name hk h
    · cases hr : iteration fs (world t) st eng with
      | mk eng1 res =>
        rw [hr] at h he ho
        dsimp only at he ho
        subst he
        dsimp only at h
        cases k with
        | zero =>
          obtain ⟨more, hm⟩ := iterate_events fs world n (t + 1) (afterHit st) eng1
          rw [hm, openedFiles_append, ho, List.append_assoc, List.get?_eq_getElem?,
            List.getElem?_append_right (by omega)] at h
          simp at h
          simp [h]
        | succ k =>
          have hlen : (openedFiles eng.events).length + (k + 1)
              = (openedFiles eng1.events).length + k := by
            rw [ho]; simp; omega
          rw [hlen] at h
          have hadv : (afterHit st).currentIndex = st.currentIndex + 100 := by
            simp only [afterHit]
            exact advance_eq _ (by omega)
          have := ih (t + 1) (afterHit st) eng1 k name (by rw [hadv]; omega) h
          rw [this, hadv, baseBlockNum_add]
          congr 1
          omega

/-! ## The sink -/

theorem sinkFile_append {σ : Type} (h : Handler σ) :
    ∀ (a b : List PreprocessedBlock) (eng : Engine σ),
      sinkFile h (a ++ b) eng =
        match sinkFile h a eng with
        | (e1, true) => (e1, true)
        | (e1, false) => sinkFile h b e1 := by
  intro a
  induction a with
  | nil => intro b eng; simp [sinkFile]
  | cons pb rest ih =>
    intro b eng
    simp only [List.cons_append, sinkFile]
    by_cases ht : eng.shutter.isTerminating = true
    · simp [ht]
    · simp only [ht, if_false, Bool.false_eq_true]
      cases herr : (h eng.hstate pb).2.err with
      | some e => simp
      | none => simp only []; exact ih b _

/-- A terminating shutter stays with the sink: it hands over nothing. -/
theorem sinkFile_terminating {σ : Type} (h : Handler σ) (l : List PreprocessedBlock)
    (eng : Engine σ) (ht : eng.shutter.isTerminating = true) :
    (sinkFile h l eng).1 = eng := by
  cases l with
  | nil => rfl
  | cons pb rest => simp [sinkFile, ht]

/-- The sink over the files in discovery order is the sink over the
concatenation of their queues. -/
theorem launchSink_join {σ : Type} (h : Handler σ) :
    ∀ (files : List (List PreprocessedBlock)) (eng : Engine σ),
      launchSink h files eng = (sinkFile h files.flatten eng).1 := by
  intro files
  induction files with
  | nil => intro eng; rfl
  | cons f fs ih =>
    intro eng
    unfold launchSink
    by_cases ht : eng.shutter.isTerminating = true
    · simp only [ht, if_true]
      exact (sinkFile_terminating h _ eng ht).symm
    · simp only [ht, if_false, Bool.false_eq_true, List.flatten_cons]
      rw [sinkFile_append]
      cases hr : sinkFile h f eng with
      | mk e1 fl =>
        cases fl with
        | true => rfl
        | false => exact ih e1

/-- While the consumer neither fails nor sees a shutdown, the sink hands over
one block after the other. -/
theorem sinkFile_quiet {σ : Type} (h : Handler σ) :
    ∀ (pre rest : List PreprocessedBlock) (eng : Engine σ),
      eng.shutter = none →
      (∀ r ∈ (handlerRun h eng.hstate pre).2, r = ⟨none, none⟩) →
      sinkFile h (pre ++ rest) eng =
        sinkFile h rest
          ⟨none, (handlerRun h eng.hstate pre).1, eng.events ++ pre.map Event.processBlock⟩ := by
  intro pre
  induction pre with
  | nil =>
    intro rest eng hrun _
    simp only [List.nil_append, handlerRun, List.map_nil, List.append_nil]
    congr 1
    cases eng
    simp only at hrun
    subst hrun
    rfl
  | cons pb pre ih =>
    intro rest eng hrun hq
    have hterm : eng.shutter.isTerminating = false := by simp [hrun, Shutter.isTerminating]
    have h0 : (h eng.hstate pb).2 = ⟨none, none⟩ :=
      hq _ (by simp [handlerRun])
    have hstep : sinkFile h (pb :: (pre ++ rest)) eng
        = sinkFile h (pre ++ rest)
            ⟨eng.shutter.request none, (h eng.hstate pb).1,
              eng.events ++ [Event.processBlock pb]⟩ := by
      simp only [sinkFile, hterm, Bool.false_eq_true, if_false, h0]
    rw [List.cons_append, hstep,
      ih rest ⟨eng.shutter.request none, (h eng.hstate pb).1,
          eng.events ++ [Event.processBlock pb]⟩
        (by simp [hrun, Shutter.request])
        (fun r hr => hq r (by simp only [handlerRun]; exact List.mem_cons_of_mem _ hr))]
    simp [handlerRun]

/-! ## The recovery engine under any schedule -/

theorem delivered_processBlocks (pbs : List PreprocessedBlock) :
    delivered (pbs.map Event.processBlock) = pbs := by
  induction pbs with
  | nil => rfl
  | cons pb rest ih =>
    simp only [delivered, List.map_cons, List.filterMap_cons] at ih ⊢
    rw [ih]

theorem delivered_poll (cfg : LocatorConfig) (w : Stores) (st : LoopState) :
    delivered (poll cfg w st).1 = [] := by
  obtain ⟨checks, hook, h⟩ := poll_events cfg w st
  rw [h, delivered_append]
  simp [delivered, List.filterMap_map, Function.comp_def]

/-- A move of a run of `streamReader` leaves the shutter as it is or, through
a failed transform, terminates a running shutter with an error. -/
theorem step_shutter_move {cfg : StreamConfig} {a : Action} {s t : Pipeline}
    (hs : step cfg a s = some t) (ha : ∀ e, a ≠ .shutdown e) :
    t.shutter = s.shutter ∨ (s.shutter = none ∧ ∃ e, t.shutter = some (some e)) := by
  cases a with
  | main =>
    simp only [step, stepMain] at hs
    split at hs
    · cases hs
    · split at hs
      · injection hs with hs; subst hs; exact Or.inl rfl
      · cases hs
    · split at hs
      · injection hs with hs; subst hs; exact Or.inl rfl
      · split at hs
        · injection hs with hs; subst hs; exact Or.inl rfl
        · split at hs
          · injection hs with hs; subst hs; exact Or.inl rfl
          · injection hs with hs; subst hs; exact Or.inl rfl
          · injection hs with hs; subst hs; exact Or.inl rfl
          · split at hs
            · injection hs with hs; subst hs; exact Or.inl rfl
            · cases hs
  | preprocess i =>
    simp only [step, stepPreprocess] at hs
    split at hs
    · split at hs
      · injection hs with hs; subst hs
        cases hsh : s.shutter with
        | none => exact Or.inr ⟨rfl, _, by simp only [hsh, Shutter.shutdown]; rfl⟩
        | some x => exact Or.inl (by simp [hsh, Shutter.shutdown])
      · injection hs with hs; subst hs
        exact Or.inl (setSlot_fields s i _).2.2.2.2.2.2
    · cases hs
  | preprocessCancel i =>
    simp only [step, stepPreprocessCancel] at hs
    split at hs
    · split at hs
      · injection hs with hs; subst hs
        exact Or.inl (setSlot_fields s i _).2.2.2.2.2.2
      · cases hs
    · cases hs
  | forward =>
    simp only [step, stepForward] at hs
    split at hs
    · cases hs
    · split at hs
      · injection hs with hs; subst hs; exact Or.inl rfl
      · cases hs
      · split at hs
        · injection hs with hs; subst hs; exact Or.inl rfl
        · split at hs
          · injection hs with hs; subst hs; exact Or.inl rfl
          · cases hs
  | forwardCancel =>
    simp only [step, stepForwardCancel] at hs
    split at hs
    · cases hs
    · split at hs
      · injection hs with hs; subst hs; exact Or.inl rfl
      · cases hs
  | shutdown e => exact absurd rfl (ha e)

/-- A request to shut down with an error leaves the shutter as it is or
terminates a running shutter with that error. -/
theorem shutdown_move (sh : Shutter) (e : Err) :
    sh.shutdown (some e) = sh ∨ (sh = none ∧ ∃ x, sh.shutdown (some e) = some (some x)) := by
  cases sh with
  | none => exact Or.inr ⟨rfl, e, rfl⟩
  | some x => exact Or.inl rfl

/-- A request on a terminating shutter is a no-op. -/
theorem shutdown_terminating (sh : Shutter) (e : Option Err) (h : sh.isTerminating = true) :
    sh.shutdown e = sh := by
  cases sh with
  | none => cases h
  | some x => rfl

/-- The invariant is kept by every move that calls no handler. -/
theorem Safe.quiet {p : ATMCachedBlockPayload} {s t : Tasks (Option Block)} (h : Safe p s)
    (hh : t.hstate = s.hstate) (hd : delivered t.events = delivered s.events)
    (hk : ∀ k pb, t.sink = .checked k pb → s.sink = .checked k pb ∨ t.shutter = none)
    (hm : t.shutter = s.shutter ∨ (s.shutter = none ∧ ∃ e, t.shutter = some (some e)))
    (hr : t.locator = .returned → s.locator = .returned ∨ t.shutter ≠ none) : Safe p t := by
  have hclean : t.shutter = some none → s.shutter = some none := by
    intro ht
    rcases hm with hm | ⟨_, e, hm⟩
    · rw [← hm]; exact ht
    · rw [hm] at ht; cases ht
  have hrun : t.shutter = none → s.shutter = none := by
    intro ht
    rcases hm with hm | ⟨_, e, hm⟩
    · rw [← hm]; exact ht
    · rw [hm] at ht; cases ht
  constructor
  · intro b hb
    rw [hh] at hb
    exact h.captured b hb
  · intro ht
    obtain ⟨h1, h2⟩ := h.clean (hclean ht)
    rw [hh, hd]
    refine ⟨h1, ?_⟩
    intro k pb hs
    rcases hk k pb hs with hk | hk
    · exact h2 k pb hk
    · rw [hk] at ht; cases ht
  · intro ht
    rw [hh, hd]
    exact h.running (hrun ht)
  · intro hl
    rcases hr hl with hr | hr
    · have := h.returned hr
      rcases hm with hm | ⟨hm, _⟩
      · rw [hm]; exact this
      · exact absurd hm this
    · exact hr

theorem Safe.initial (p : ATMCachedBlockPayload) (fs : FileSource (Option Block)) :
    Safe p (Tasks.init fs none) := by
  constructor
  · intro b hb; cases hb
  · intro h; cases h
  · intro _; exact ⟨rfl, by simp [Tasks.init, delivered]⟩
  · intro h; cases h

theorem Safe.stepLocate {p : ATMCachedBlockPayload} (fs : FileSource (Option Block)) (par : Nat)
    (world : Nat → Stores) {s t : Tasks (Option Block)} (h : Safe p s)
    (hs : stepLocate fs par world s = some t) : Safe p t := by
  unfold Bstream.stepLocate at hs
  split at hs
  · cases hs
  · split at hs
    · rename_i hterm
      injection hs with hs; subst hs
      refine h.quiet rfl rfl (fun k pb hk => Or.inl hk) (Or.inl ?_) (fun _ => Or.inr ?_)
      · exact shutdown_terminating _ _ hterm
      · exact shutdown_eq_none _ _
    · rename_i hterm
      have hnone : s.shutter = none := isTerminating_false (by simpa using hterm)
      have hdel : delivered (s.events ++ (poll fs.locatorConfig (world s.polls) s.loop).1)
          = delivered s.events := by
        rw [delivered_append, delivered_poll, List.append_nil]
      dsimp only at hs
      split at hs
      · injection hs with hs; subst hs
        refine h.quiet rfl hdel (fun k pb hk => Or.inl hk) (Or.inr ⟨hnone, ?_⟩)
          (fun _ => Or.inr (shutdown_eq_none _ _))
        exact ⟨_, by simp only [hnone, Shutter.shutdown]; rfl⟩
      · rename_i hloc _ _ _
        injection hs with hs; subst hs
        refine h.quiet rfl hdel (fun k pb hk => Or.inl hk) (Or.inl rfl) (fun hl => ?_)
        simp only [hloc] at hl
        cases hl
      · injection hs with hs; subst hs
        refine h.quiet rfl hdel (fun k pb hk => Or.inl hk) (Or.inl rfl) (fun hl => ?_)
        cases hl
  · split at hs
    · split at hs
      · cases hs
      · injection hs with hs; subst hs
        refine h.quiet rfl rfl (fun k pb hk => Or.inl hk) (Or.inl rfl) (fun hl => ?_)
        cases hl
    · cases hs

theorem Safe.stepLocateCancel {p : ATMCachedBlockPayload} {s t : Tasks (Option Block)}
    (h : Safe p s) (hs : stepLocateCancel s = some t) : Safe p t := by
  unfold Bstream.stepLocateCancel at hs
  split at hs
  · split at hs
    · rename_i hterm
      injection hs with hs; subst hs
      exact h.quiet rfl rfl (fun k pb hk => Or.inl hk)
        (Or.inl (shutdown_terminating _ _ hterm)) (fun _ => Or.inr (shutdown_eq_none _ _))
    · cases hs
  · cases hs

theorem Safe.stepOpen {p : ATMCachedBlockPayload} (fs : FileSource (Option Block)) (k : Nat)
    {s t : Tasks (Option Block)} (h : Safe p s) (hs : stepOpen fs k s = some t) : Safe p t := by
  unfold Bstream.stepOpen at hs
  have hdel : ∀ i n, delivered (s.events ++ [Event.openObject i n]) = delivered s.events := by
    intro i n
    rw [delivered_append]
    simp [delivered]
  split at hs
  · cases hs
  · split at hs
    · cases hs
    · dsimp only at hs
      split at hs
      · injection hs with hs; subst hs
        exact h.quiet rfl (hdel _ _) (fun k pb hk => Or.inl hk) (shutdown_move _ _)
          (fun hl => Or.inl hl)
      · split at hs
        · injection hs with hs; subst hs
          exact h.quiet rfl (hdel _ _) (fun k pb hk => Or.inl hk) (shutdown_move _ _)
            (fun hl => Or.inl hl)
        · injection hs with hs; subst hs
          exact h.quiet rfl (hdel _ _) (fun k pb hk => Or.inl hk) (Or.inl rfl)
            (fun hl => Or.inl hl)

theorem Safe.stepStream {p : ATMCachedBlockPayload} (fs : FileSource (Option Block)) (k : Nat)
    (a : Action) {s t : Tasks (Option Block)} (h : Safe p s)
    (hs : stepStream fs k a s = some t) : Safe p t := by
  have key : ∀ (ft : FileTask) (pl q : Pipeline),
      step (fs.streamConfig none) a { pl with shutter := s.shutter } = some q →
      (∀ e, a ≠ .shutdown e) →
      Safe p { s with shutter := q.shutter, files := s.files.set k { ft with pipe := some q } } := by
    intro ft pl q hq ha
    have := step_shutter_move hq ha
    exact h.quiet rfl rfl (fun k pb hk => Or.inl hk) this (fun hl => Or.inl hl)
  cases a with
  | shutdown e => simp [Bstream.stepStream] at hs
  | main =>
    simp only [Bstream.stepStream] at hs
    split at hs
    · cases hs
    · split at hs
      · cases hs
      · split at hs
        · cases hs
        · rename_i hq
          split at hs
          · cases hs
          · injection hs with hs; subst hs
            exact key _ _ _ hq (fun e he => by cases he)
  | preprocess i =>
    simp only [Bstream.stepStream] at hs
    split at hs
    · cases hs
    · split at hs
      · cases hs
      · split at hs
        · cases hs
        · rename_i hq
          split at hs
          · cases hs
          · injection hs with hs; subst hs
            exact key _ _ _ hq (fun e he => by cases he)
  | preprocessCancel i =>
    simp only [Bstream.stepStream] at hs
    split at hs
    · cases hs
    · split at hs
      · cases hs
      · split at hs
        · cases hs
        · rename_i hq
          split at hs
          · cases hs
          · injection hs with hs; subst hs
            exact key _ _ _ hq (fun e he => by cases he)
  | forward =>
    simp only [Bstream.stepStream] at hs
    split at hs
    · cases hs
    · split at hs
      · cases hs
      · split at hs
        · cases hs
        · rename_i hq
          split at hs
          · cases hs
          · injection hs with hs; subst hs
            exact key _ _ _ hq (fun e he => by cases he)
  | forwardCancel =>
    simp only [Bstream.stepStream] at hs
    split at hs
    · cases hs
    · split at hs
      · cases hs
      · split at hs
        · cases hs
        · rename_i hq
          split at hs
          · cases hs
          · injection hs with hs; subst hs
            exact key _ _ _ hq (fun e he => by cases he)

theorem Safe.stepFileReturn {p : ATMCachedBlockPayload} (k : Nat)
    {s t : Tasks (Option Block)} (h : Safe p s) (hs : stepFileReturn k s = some t) :
    Safe p t := by
  unfold Bstream.stepFileReturn at hs
  split at hs
  · cases hs
  · split at hs
    · cases hs
    · split at hs
      · cases hs
      · split at hs
        · injection hs with hs; subst hs
          exact h.quiet rfl rfl (fun k pb hk => Or.inl hk) (Or.inl rfl) (fun hl => Or.inl hl)
        · injection hs with hs; subst hs
          exact h.quiet rfl rfl (fun k pb hk => Or.inl hk) (shutdown_move _ _)
            (fun hl => Or.inl hl)
        · cases hs

theorem Safe.stepSinkCancel {p : ATMCachedBlockPayload} {s t : Tasks (Option Block)}
    (h : Safe p s) (hs : stepSinkCancel s = some t) : Safe p t := by
  unfold Bstream.stepSinkCancel at hs
  split at hs
  · split at hs
    · injection hs with hs; subst hs
      exact h.quiet rfl rfl (fun k pb hk => by cases hk) (Or.inl rfl) (fun hl => Or.inl hl)
    · cases hs
  · cases hs

/-- The handler built by `Get` on a block that is not its target: nothing
changes. -/
theorem coldHandler_other (p : ATMCachedBlockPayload) (c : Option Block) (pb : PreprocessedBlock)
    (h : isTarget p pb.block = false) : coldHandler p c pb = (c, ⟨none, none⟩) := by
  unfold isTarget at h
  unfold coldHandler
  by_cases h1 : pb.block.num = p.blockNum
  · by_cases h2 : pb.block.id = p.blockId
    · simp [h1, h2] at h
    · simp [h2]
  · simp [h1]

/-- The handler built by `Get` on its target: the block is captured and
shutdown requested with no error. -/
theorem coldHandler_target (p : ATMCachedBlockPayload) (c : Option Block) (pb : PreprocessedBlock)
    (h : isTarget p pb.block = true) : coldHandler p c pb = (some pb.block, ⟨none, some none⟩) := by
  unfold isTarget at h
  unfold coldHandler
  simp only [Bool.and_eq_true, decide_eq_true_eq] at h
  simp [h.1, h.2]

theorem Safe.stepSink {p : ATMCachedBlockPayload} {s t : Tasks (Option Block)}
    (h : Safe p s) (hs : stepSink (coldHandler p) s = some t) : Safe p t := by
  unfold Bstream.stepSink at hs
  split at hs
  · cases hs
  · split at hs
    · injection hs with hs; subst hs
      exact h.quiet rfl rfl (fun k pb hk => by cases hk) (Or.inl rfl) (fun hl => Or.inl hl)
    · cases hs
  · split at hs
    · cases hs
    · split at hs
      · cases hs
      · split at hs
        · injection hs with hs; subst hs
          refine h.quiet rfl rfl (fun k pb hk => ?_) (Or.inl rfl) (fun hl => Or.inl hl)
          right
          by_cases hterm : s.shutter.isTerminating = true
          · simp [hterm] at hk
          · exact isTerminating_false (by simpa using hterm)
        · split at hs
          · injection hs with hs; subst hs
            exact h.quiet rfl rfl (fun k pb hk => by cases hk) (Or.inl rfl) (fun hl => Or.inl hl)
          · cases hs
  · rename_i k pb hsink
    by_cases htar : isTarget p pb.block = true
    · rw [coldHandler_target p _ pb htar] at hs
      simp only [Shutter.request] at hs
      injection hs with hs; subst hs
      have hdel : delivered (s.events ++ [Event.processBlock pb]) = delivered s.events ++ [pb] := by
        rw [delivered_append]; simp [delivered]
      cases hsh : s.shutter with
      | none =>
        obtain ⟨_, hnot⟩ := h.running hsh
        constructor
        · intro b hb
          simp only [Option.some.injEq] at hb
          rw [← hb]; exact htar
        · intro _
          refine ⟨⟨pb.block, pb.obj, delivered s.events, rfl, htar, ?_, hnot⟩, ?_⟩
          · simp only [hdel]
          · intro k2 pb2 hk; cases hk
        · intro hn
          simp [Shutter.shutdown] at hn
        · intro hl
          simp [Shutter.shutdown]
      | some x =>
        have hx : x ≠ none := by
          intro hx
          rw [hx] at hsh
          exact (h.clean hsh).2 k pb hsink
        constructor
        · intro b hb
          simp only [Option.some.injEq] at hb
          rw [← hb]; exact htar
        · intro hc
          simp only [Shutter.shutdown, Option.some.injEq] at hc
          exact absurd hc hx
        · intro hn
          simp [Shutter.shutdown] at hn
        · intro _
          simp [Shutter.shutdown]
    · have htar2 : isTarget p pb.block = false := by simpa using htar
      rw [coldHandler_other p _ pb htar2] at hs
      simp only [Shutter.request] at hs
      injection hs with hs; subst hs
      have hdel : delivered (s.events ++ [Event.processBlock pb]) = delivered s.events ++ [pb] := by
        rw [delivered_append]; simp [delivered]
      constructor
      · exact h.captured
      · intro hc
        exact absurd hsink ((h.clean hc).2 k pb)
      · intro hn
        obtain ⟨h1, h2⟩ := h.running hn
        refine ⟨h1, ?_⟩
        intro x hx
        simp only [hdel, List.mem_append, List.mem_singleton] at hx
        rcases hx with hx | hx
        · exact h2 x hx
        · rw [hx]; exact htar2
      · exact h.returned

theorem Safe.move {p : ATMCachedBlockPayload} (fs : FileSource (Option Block))
    (hfs : fs.handler = coldHandler p) (par : Nat) (world : Nat → Stores) (m : Move)
    {s t : Tasks (Option Block)} (h : Safe p s)
    (hs : stepTasks fs par world m s = some t) : Safe p t := by
  unfold stepTasks at hs
  split at hs
  · cases hs
  · cases m with
    | locate => exact h.stepLocate fs par world hs
    | locateCancel => exact h.stepLocateCancel hs
    | openFile k => exact h.stepOpen fs k hs
    | stream k a => exact h.stepStream fs k a hs
    | fileReturn k => exact h.stepFileReturn k hs
    | sink => simp only [hfs] at hs; exact h.stepSink hs
    | sinkCancel => exact h.stepSinkCancel hs

theorem Safe.schedule {p : ATMCachedBlockPayload} (fs : FileSource (Option Block))
    (hfs : fs.handler = coldHandler p) (par : Nat) (world : Nat → Stores) (sched : List Move) :
    ∀ {s t : Tasks (Option Block)}, Safe p s → runTasks fs par world sched s = some t →
      Safe p t := by
  induction sched with
  | nil =>
    intro s t h hs
    simp only [runTasks, Option.some.injEq] at hs
    rw [← hs]; exact h
  | cons m rest ih =>
    intro s t h hs
    simp only [runTasks] at hs
    cases hm : stepTasks fs par world m s with
    | none => rw [hm] at hs; cases hs
    | some s1 =>
      rw [hm] at hs
      exact ih (h.move fs hfs par world m hm) hs

/-! ## The recovery engine in lock-step -/

theorem runTasks_append {σ : Type} (fs : FileSource σ) (par : Nat) (world : Nat → Stores) :
    ∀ (a b : List Move) (s : Tasks σ),
      runTasks fs par world (a ++ b) s =
        match runTasks fs par world a s with
        | none => none
        | some s1 => runTasks fs par world b s1 := by
  intro a
  induction a with
  | nil => intro b s; rfl
  | cons x rest ih =>
    intro b s
    simp only [List.cons_append, runTasks]
    cases hs : stepTasks fs par world x s with
    | none => rfl
    | some s1 => exact ih b s1

/-- With the cursor passed a decoded block is skipped or published. -/
theorem filterBlock_passed (cfg : StreamConfig) (x : Block) :
    filterBlock cfg true x = .skip true ∨ filterBlock cfg true x = .publish x := by
  unfold filterBlock
  split
  · exact Or.inl rfl
  · simp only [Bool.not_true, Bool.false_eq_true, if_false]
    split
    · split
      · exact Or.inr rfl
      · exact Or.inl rfl
    · exact Or.inr rfl

/-- A skipped block in lock-step. -/
theorem lockstep_skip (fs : FileSource (Option Block)) (par : Nat)
    (world : Nat → Stores) (loop : LoopState) (polls i : Nat) (name : String) (si : Store)
    (x : Block) (reads : BlockReader) (le : Option Err) (out : List PreprocessedBlock)
    (evs : List Event) (sh : Shutter)
    (hskip : filterBlock (fs.streamConfig none) true x = .skip true) (more : List Move) :
    runTasks fs par world (.stream 0 .main :: more)
        (lockstepState loop polls i name si (.ok x :: reads) le out evs sh)
      = runTasks fs par world more (lockstepState loop polls i name si reads none out evs none) := by
  simp [runTasks, stepTasks, lockstepState, stepStream, step, stepMain, readStep, hskip,
    Shutter.isTerminating, ReadResult.err]

/-- A published block that is not the target, in lock-step. -/
theorem lockstep_publish (p : ATMCachedBlockPayload) (fs : FileSource (Option Block)) (par : Nat)
    (hfs : fs.handler = coldHandler p) (hth : 1 ≤ fs.preprocessorThreadCount)
    (world : Nat → Stores) (loop : LoopState) (polls i : Nat) (name : String) (si : Store)
    (x : Block) (o : Obj) (reads : BlockReader) (le : Option Err) (out : List PreprocessedBlock)
    (evs : List Event) (sh : Shutter)
    (hpub : filterBlock (fs.streamConfig none) true x = .publish x)
    (hres : preprocessResult (fs.streamConfig none) x = .ok o)
    (hnt : isTarget p x = false) (more : List Move) :
    runTasks fs par world
        (.stream 0 .main :: .stream 0 .forward :: .stream 0 (.preprocess 0) :: .stream 0 .forward ::
          .sink :: .sink :: more)
        (lockstepState loop polls i name si (.ok x :: reads) le out evs sh)
      = runTasks fs par world more
          (lockstepState loop polls i name si reads none (out ++ [⟨x, o⟩])
            (evs ++ [.processBlock ⟨x, o⟩]) none) := by
  have hth2 : 0 < (fs.streamConfig none).preprocessorThreadCount := hth
  have hh := coldHandler_other p none ⟨x, o⟩ hnt
  simp [runTasks, stepTasks, lockstepState, stepStream, step, stepMain, readStep, hpub,
    Shutter.isTerminating, ReadResult.err, hth2, stepForward, stepPreprocess, Pipeline.inflight,
    hres, Pipeline.setSlot, stepSink, hfs, hh, Shutter.request]

/-- The target in lock-step: it is captured, shutdown is requested with no
error, and `Run` returns at the top of the next iteration of the polling
loop. -/
theorem lockstep_target (p : ATMCachedBlockPayload) (fs : FileSource (Option Block)) (par : Nat)
    (hfs : fs.handler = coldHandler p) (hth : 1 ≤ fs.preprocessorThreadCount)
    (world : Nat → Stores) (loop : LoopState) (polls i : Nat) (name : String) (si : Store)
    (b : Block) (o : Obj) (reads : BlockReader) (le : Option Err) (out : List PreprocessedBlock)
    (evs : List Event) (sh : Shutter)
    (hpub : filterBlock (fs.streamConfig none) true b = .publish b)
    (hres : preprocessResult (fs.streamConfig none) b = .ok o)
    (ht : isTarget p b = true) :
    ∃ s, runTasks fs par world
        [.stream 0 .main, .stream 0 .forward, .stream 0 (.preprocess 0), .stream 0 .forward,
          .sink, .sink, .locate]
        (lockstepState loop polls i name si (.ok b :: reads) le out evs sh) = some s ∧
      s.locator = .returned ∧ s.shutter = some none ∧ s.hstate = some b ∧
      s.events = evs ++ [.processBlock ⟨b, o⟩] := by
  have hth2 : 0 < (fs.streamConfig none).preprocessorThreadCount := hth
  have hh := coldHandler_target p none ⟨b, o⟩ ht
  refine ⟨(⟨some none, some b, evs ++ [.processBlock ⟨b, o⟩], loop, polls, .returned,
    [⟨i, name, si,
      some ⟨reads, true, .reading, [], false, none, none, false, out ++ [⟨b, o⟩], none⟩, false,
      out.length + 1⟩], 1, .ranging 0⟩ : Tasks (Option Block)), ?_, rfl, rfl, rfl, rfl⟩
  simp [runTasks, stepTasks, lockstepState, stepStream, step, stepMain, readStep, hpub,
    Shutter.isTerminating, ReadResult.err, hth2, stepForward, stepPreprocess, Pipeline.inflight,
    hres, Pipeline.setSlot, stepSink, hfs, hh, Shutter.request, stepLocate, Shutter.shutdown]

/-- The moves of lock-step over blocks followed by further reads. -/
theorem lockstepMoves_append (cfg : StreamConfig) (reads : BlockReader) :
    ∀ pre : List Block,
      lockstepMoves cfg true (readerOf pre ++ reads)
        = lockstepMoves cfg true (readerOf pre) ++ lockstepMoves cfg true reads := by
  intro pre
  induction pre with
  | nil => rfl
  | cons x rest ih =>
    simp only [readerOf, List.map_cons, List.cons_append, lockstepMoves, readStep] at ih ⊢
    rcases filterBlock_passed cfg x with h | h
    · simp only [h, List.cons_append, List.append_eq, ih]
    · simp only [h, List.cons_append, List.append_eq, ih]

/-- The blocks before the target in lock-step: the admitted ones are handed to
the handler, in read order, each with its transform result. -/
theorem lockstep_blocks (p : ATMCachedBlockPayload) (fs : FileSource (Option Block)) (par : Nat)
    (hfs : fs.handler = coldHandler p) (hth : 1 ≤ fs.preprocessorThreadCount)
    (world : Nat → Stores) (loop : LoopState) (polls i : Nat) (name : String) (si : Store) :
    ∀ (pre : List Block), (∀ x ∈ pre, isTarget p x = false) →
      (∀ x ∈ admittedBlocks (fs.streamConfig none) true (readerOf pre),
        ∃ o, preprocessResult (fs.streamConfig none) x = .ok o) →
      ∀ (tail : BlockReader) (le : Option Err) (out : List PreprocessedBlock) (evs : List Event)
        (sh : Shutter),
      ∃ (le1 : Option Err) (sh1 : Shutter) (new : List PreprocessedBlock),
        new.map (fun pb => pb.block) = admittedBlocks (fs.streamConfig none) true (readerOf pre) ∧
        (∀ pb ∈ new, preprocessResult (fs.streamConfig none) pb.block = .ok pb.obj) ∧
        ∀ more, runTasks fs par world
            (lockstepMoves (fs.streamConfig none) true (readerOf pre) ++ more)
            (lockstepState loop polls i name si (readerOf pre ++ tail) le out evs sh)
          = runTasks fs par world more
            (lockstepState loop polls i name si tail le1 (out ++ new)
              (evs ++ new.map Event.processBlock) sh1) := by
  intro pre
  induction pre with
  | nil =>
    intro _ _ tail le out evs sh
    exact ⟨le, sh, [], rfl, fun pb hpb => absurd hpb (List.not_mem_nil pb),
      fun more => by simp [readerOf, lockstepMoves]⟩
  | cons x rest ih =>
    intro hnt hok tail le out evs sh
    have hnt1 : ∀ y ∈ rest, isTarget p y = false := fun y hy => hnt y (List.mem_cons_of_mem _ hy)
    rcases filterBlock_passed (fs.streamConfig none) x with h | h
    · have hadm : admittedBlocks (fs.streamConfig none) true (readerOf (x :: rest))
          = admittedBlocks (fs.streamConfig none) true (readerOf rest) := by
        simp only [readerOf, List.map_cons, admittedBlocks, readStep, h]
      rw [hadm] at hok
      obtain ⟨le1, sh1, new, hnew, hobj, hrun⟩ := ih hnt1 hok tail none out evs none
      refine ⟨le1, sh1, new, by rw [hadm]; exact hnew, hobj, ?_⟩
      intro more
      have hm : lockstepMoves (fs.streamConfig none) true (readerOf (x :: rest))
          = .stream 0 .main :: lockstepMoves (fs.streamConfig none) true (readerOf rest) := by
        simp only [readerOf, List.map_cons, lockstepMoves, readStep, h]
      rw [hm, List.cons_append]
      have hr : readerOf (x :: rest) ++ tail = .ok x :: (readerOf rest ++ tail) := by
        simp [readerOf]
      rw [hr, lockstep_skip fs par world loop polls i name si x _ le out evs sh h]
      exact hrun more
    · have hadm : admittedBlocks (fs.streamConfig none) true (readerOf (x :: rest))
          = x :: admittedBlocks (fs.streamConfig none) true (readerOf rest) := by
        simp only [readerOf, List.map_cons, admittedBlocks, readStep, h]
      rw [hadm] at hok
      obtain ⟨o, ho⟩ := hok x (List.mem_cons_self _ _)
      obtain ⟨le1, sh1, new, hnew, hobj, hrun⟩ := ih hnt1
        (fun y hy => hok y (List.mem_cons_of_mem _ hy)) tail none (out ++ [⟨x, o⟩])
        (evs ++ [.processBlock ⟨x, o⟩]) none
      refine ⟨le1, sh1, ⟨x, o⟩ :: new, by rw [hadm]; simp [hnew], ?_, ?_⟩
      · intro pb hpb
        rcases List.mem_cons.1 hpb with h1 | h1
        · rw [h1]; exact ho
        · exact hobj pb h1
      intro more
      have hm : lockstepMoves (fs.streamConfig none) true (readerOf (x :: rest))
          = .stream 0 .main :: .stream 0 .forward :: .stream 0 (.preprocess 0) ::
              .stream 0 .forward :: .sink :: .sink ::
              lockstepMoves (fs.streamConfig none) true (readerOf rest) := by
        simp only [readerOf, List.map_cons, lockstepMoves, readStep, h]
      rw [hm]
      simp only [List.cons_append]
      have hr : readerOf (x :: rest) ++ tail = .ok x :: (readerOf rest ++ tail) := by
        simp [readerOf]
      rw [hr, lockstep_publish p fs par hfs hth world loop polls i name si x o _ le out evs sh h ho
        (hnt x (List.mem_cons_self _ _))]
      have := hrun more
      simp only [List.append_assoc, List.singleton_append, List.map_cons] at this ⊢
      exact this

/-- The polls of the recovery engine while its file is in no store. -/
theorem locate_misses (fs : FileSource (Option Block)) (par : Nat) (world : Nat → Stores) :
    ∀ (m t : Nat) (loop : LoopState) (evs : List Event),
      (∀ j, j < m → ∀ s ∈ (world (t + j)).primary :: (world (t + j)).secondaries,
        s.fileExists (baseFilename (baseBlockNum loop.currentIndex)) = .ok false) →
      ∃ (loop1 : LoopState) (evs1 : List Event),
        loop1.currentIndex = loop.currentIndex ∧ delivered evs1 = delivered evs ∧
        ∀ more, runTasks fs par world (List.replicate m .locate ++ more)
            ⟨none, none, evs, loop, t, .polling, [], 0, .atSelect⟩
          = runTasks fs par world more
            ⟨none, none, evs1, loop1, t + m, .polling, [], 0, .atSelect⟩ := by
  intro m
  induction m with
  | zero =>
    intro t loop evs _
    exact ⟨loop, evs, rfl, rfl, fun more => by simp⟩
  | succ m ih =>
    intro t loop evs hmiss
    have hp := poll_miss fs.locatorConfig (world t) loop (by simpa using hmiss 0 (Nat.succ_pos m))
    obtain ⟨loop1, evs1, hc, hd, hrun⟩ := ih (t + 1)
      ⟨loop.currentIndex, fs.locatorConfig.retryDelay⟩
      (evs ++ (poll fs.locatorConfig (world t) loop).1)
      (fun j hj => by
        have := hmiss (j + 1) (Nat.succ_lt_succ hj)
        rw [Nat.add_assoc, Nat.add_comm 1 j]
        exact this)
    refine ⟨loop1, evs1, hc, ?_, ?_⟩
    · rw [hd, delivered_append, delivered_poll, List.append_nil]
    · intro more
      have := hrun more
      rw [Nat.add_assoc, Nat.add_comm 1 m] at this
      rw [← this]
      simp only [List.replicate_succ, List.cons_append, runTasks, stepTasks, stepLocate,
        Shutter.isTerminating, Option.isSome_none, Bool.false_eq_true, if_false]
      simp [hp]

/-- The poll that finds the file of the recovery engine, the dispatch of the
file, its reception by `launchSink`, and its opening. -/
theorem locate_hit (fs : FileSource (Option Block)) (par : Nat) (world : Nat → Stores) (t : Nat)
    (loop : LoopState) (evs : List Event) (i : Nat) (si : Store) (bytes : Bytes)
    (reader : BlockReader)
    (hlack : ∀ j, j < i → ∃ s, (world t).get j = some s ∧
      s.fileExists (baseFilename (baseBlockNum loop.currentIndex)) = .ok false)
    (hget : (world t).get i = some si)
    (hhas : si.fileExists (baseFilename (baseBlockNum loop.currentIndex)) = .ok true)
    (hopen : si.openObject (baseFilename (baseBlockNum loop.currentIndex)) = .ok bytes)
    (hread : fs.blockReaderFactory bytes = .ok reader) :
    ∃ evs1, delivered evs1 = delivered evs ∧ ∀ more,
      runTasks fs par world (.locate :: .locate :: .sink :: .openFile 0 :: more)
          ⟨none, none, evs, loop, t, .polling, [], 0, .atSelect⟩
        = runTasks fs par world more
          (lockstepState (afterHit loop) (t + 1) i
            (baseFilename (baseBlockNum loop.currentIndex)) si reader none [] evs1 none) := by
  have hp := poll_hit fs.locatorConfig (world t) loop i si hlack hget hhas
  refine ⟨evs ++ (poll fs.locatorConfig (world t) loop).1 ++
    [.openObject i (baseFilename (baseBlockNum loop.currentIndex))], ?_, ?_⟩
  · rw [delivered_append, delivered_append, delivered_poll]
    simp [delivered]
  · intro more
    simp [runTasks, stepTasks, stepLocate, Shutter.isTerminating, hp, hget, stepSink, stepOpen,
      hopen, hread, lockstepState, Pipeline.init, initialPassed, FileSource.streamConfig]

/-- With the cursor passed an admitted block is published. -/
theorem filterBlock_admits (cfg : StreamConfig) (x : Block) (h : admits cfg x = true) :
    filterBlock cfg true x = .publish x := by
  unfold admits at h
  unfold filterBlock
  simp only [Bool.and_eq_true, decide_eq_true_eq] at h
  have hlt : ¬ x.num < cfg.startBlockNum := by omega
  simp only [hlt, if_false, Bool.not_true, Bool.false_eq_true]
  cases hg : cfg.gator with
  | none => rfl
  | some g =>
    have := h.2
    simp only [hg] at this
    simp [this]

/-- The blocks a read loop with the cursor passed publishes from blocks
followed by further reads. -/
theorem admittedBlocks_passed_append (cfg : StreamConfig) (reads : BlockReader) :
    ∀ pre : List Block,
      admittedBlocks cfg true (readerOf pre ++ reads)
        = admittedBlocks cfg true (readerOf pre) ++ admittedBlocks cfg true reads := by
  intro pre
  induction pre with
  | nil => rfl
  | cons x rest ih =>
    simp only [readerOf, List.map_cons, List.cons_append, admittedBlocks, readStep] at ih ⊢
    rcases filterBlock_passed cfg x with h | h
    · simp only [h, List.append_eq, ih]
    · simp only [h, List.cons_append, List.append_eq, ih]

/-! ## The recovery engine when no collaborator fails -/

theorem lookupSecondary_ok (name : String) :
    ∀ (l : List Store) (idx : Nat), (∀ s ∈ l, ∃ b, s.fileExists name = .ok b) →
      ∃ o, (lookupSecondary name l idx).result = .ok o := by
  intro l
  induction l with
  | nil => intro idx _; exact ⟨none, rfl⟩
  | cons bs rest ih =>
    intro idx h
    obtain ⟨b, hb⟩ := h bs (List.mem_cons_self _ _)
    unfold lookupSecondary
    rw [hb]
    cases b with
    | true => exact ⟨some idx, rfl⟩
    | false => exact ih (idx + 1) (fun s hs => h s (List.mem_cons_of_mem _ hs))

theorem lookup_ok (w : Stores) (name : String)
    (h : ∀ s ∈ w.primary :: w.secondaries, ∃ b, s.fileExists name = .ok b) :
    ∃ o, (lookup w.primary w.secondaries name).result = .ok o := by
  obtain ⟨b, hb⟩ := h w.primary (List.mem_cons_self _ _)
  unfold lookup
  rw [hb]
  cases b with
  | true => exact ⟨some 0, rfl⟩
  | false =>
    exact lookupSecondary_ok name w.secondaries 1 (fun s hs => h s (List.mem_cons_of_mem _ hs))

/-- A poll on stores that answer every existence check does not fail. -/
theorem poll_ok (cfg : LocatorConfig) (w : Stores) (st : LoopState)
    (h : ∀ s ∈ w.primary :: w.secondaries, ∀ name, ∃ b, s.fileExists name = .ok b) (e : Err) :
    (poll cfg w st).2 ≠ .failed e := by
  obtain ⟨o, ho⟩ := lookup_ok w (baseFilename (baseBlockNum st.currentIndex))
    (fun s hs => h s hs _)
  unfold poll
  simp only [ho]
  cases o with
  | none => intro hc; cases hc
  | some i => intro hc; cases hc

theorem Stores.get_mem (w : Stores) (i : Nat) (s : Store) (h : w.get i = some s) :
    s ∈ w.primary :: w.secondaries := by
  unfold Stores.get at h
  cases i with
  | zero =>
    simp only [Option.some.injEq] at h
    rw [← h]; exact List.mem_cons_self _ _
  | succ j =>
    simp only at h
    exact List.mem_cons_of_mem _ (List.get?_mem h)

/-- A move of a run of `streamReader` whose transform never fails and whose
unread blocks hold no decode error: the shutter is left as it is, the unread
blocks still hold no decode error, and the read loop returns an error only
when it sees the termination. -/
theorem step_unfailing {cfg : StreamConfig} {a : Action} {s t : Pipeline}
    (hs : step cfg a s = some t) (ha : ∀ e, a ≠ .shutdown e)
    (hpre : ∀ b, ∃ o, preprocessResult cfg b = .ok o)
    (hreads : ∀ e, ReadResult.fail e ∉ s.reads) :
    t.shutter = s.shutter ∧ (∀ e, ReadResult.fail e ∉ t.reads) ∧
    (∀ e, t.main = .returned (some e) → s.main = .returned (some e) ∨ s.shutter ≠ none) := by
  cases a with
  | main =>
    simp only [step, stepMain] at hs
    split at hs
    · cases hs
    · split at hs
      · injection hs with hs; subst hs
        exact ⟨rfl, hreads, fun e he => by cases he⟩
      · cases hs
    · split at hs
      · rename_i hterm
        injection hs with hs; subst hs
        exact ⟨rfl, hreads, fun e _ => Or.inr (isTerminating_true hterm)⟩
      · split at hs
        · injection hs with hs; subst hs
          exact ⟨rfl, hreads, fun e he => by cases he⟩
        · rename_i r rest hr
          have hrest : ∀ e, ReadResult.fail e ∉ rest := by
            intro e he
            exact hreads e (by rw [hr]; exact List.mem_cons_of_mem _ he)
          split at hs
          · rename_i e hre
            exfalso
            cases r with
            | fail e2 => exact hreads e2 (by rw [hr]; exact List.mem_cons_self _ _)
            | eof => simp [readStep] at hre
            | last b =>
              simp only [readStep] at hre
              split at hre
              · cases hre
              · unfold filterBlock at hre
                split at hre
                · cases hre
                · split at hre
                  · split at hre <;> cases hre
                  · split at hre
                    · split at hre <;> cases hre
                    · cases hre
            | ok b =>
              simp only [readStep] at hre
              unfold filterBlock at hre
              split at hre
              · cases hre
              · split at hre
                · split at hre <;> cases hre
                · split at hre
                  · split at hre <;> cases hre
                  · cases hre
          · injection hs with hs; subst hs
            exact ⟨rfl, hrest, fun e he => by cases he⟩
          · injection hs with hs; subst hs
            exact ⟨rfl, hrest, fun e he => Or.inl he⟩
          · split at hs
            · injection hs with hs; subst hs
              exact ⟨rfl, hrest, fun e he => Or.inl he⟩
            · cases hs
  | preprocess i =>
    simp only [step, stepPreprocess] at hs
    split at hs
    · rename_i b _
      split at hs
      · rename_i e he
        obtain ⟨o, ho⟩ := hpre b
        rw [ho] at he
        cases he
      · injection hs with hs; subst hs
        obtain ⟨_, h2, _, h4, _, _, h7⟩ := setSlot_fields s i (.ready ‹Obj›)
        exact ⟨h7, by rw [h4]; exact hreads, fun e he => Or.inl (by rw [← h2]; exact he)⟩
    · cases hs
  | preprocessCancel i =>
    simp only [step, stepPreprocessCancel] at hs
    split at hs
    · split at hs
      · injection hs with hs; subst hs
        obtain ⟨_, h2, _, h4, _, _, h7⟩ := setSlot_fields s i .dead
        exact ⟨h7, by rw [h4]; exact hreads, fun e he => Or.inl (by rw [← h2]; exact he)⟩
      · cases hs
    · cases hs
  | forward =>
    simp only [step, stepForward] at hs
    split at hs
    · cases hs
    · split at hs
      · injection hs with hs; subst hs
        exact ⟨rfl, hreads, fun e he => Or.inl he⟩
      · cases hs
      · split at hs
        · injection hs with hs; subst hs
          exact ⟨rfl, hreads, fun e he => Or.inl he⟩
        · split at hs
          · injection hs with hs; subst hs
            exact ⟨rfl, hreads, fun e he => Or.inl he⟩
          · cases hs
  | forwardCancel =>
    simp only [step, stepForwardCancel] at hs
    split at hs
    · cases hs
    · split at hs
      · injection hs with hs; subst hs
        exact ⟨rfl, hreads, fun e he => Or.inl he⟩
      · cases hs
  | shutdown e => exact absurd rfl (ha e)

/-- The invariant carries over to a state whose shutter holds no error and
is still terminating if it was, and whose files are old ones or satisfy the
invariant. -/
theorem Unfailing.update {s t : Tasks (Option Block)} (h : Unfailing s)
    (hsh : ∀ e, t.shutter ≠ some (some e)) (hmono : s.shutter ≠ none → t.shutter ≠ none)
    (hfiles : ∀ ft ∈ t.files, ft ∈ s.files ∨
      ((∀ name, ∃ bytes, ft.store.openObject name = .ok bytes) ∧
        ∀ pl, ft.pipe = some pl →
          (∀ e, ReadResult.fail e ∉ pl.reads) ∧
          (∀ e, pl.main = .returned (some e) → t.shutter ≠ none))) : Unfailing t := by
  refine ⟨hsh, ?_⟩
  intro ft hft
  rcases hfiles ft hft with hold | hnew
  · obtain ⟨h1, h2⟩ := h.2 ft hold
    refine ⟨h1, fun pl hpl => ?_⟩
    obtain ⟨h3, h4⟩ := h2 pl hpl
    exact ⟨h3, fun e he => hmono (h4 e he)⟩
  · exact hnew

theorem Unfailing.begin (fs : FileSource (Option Block)) : Unfailing (Tasks.init fs none) := by
  refine ⟨fun e h => (by cases h), ?_⟩
  intro ft hft
  simp [Tasks.init] at hft

theorem Unfailing.next {p : ATMCachedBlockPayload} (fs : FileSource (Option Block))
    (hfs : fs.handler = coldHandler p) (par : Nat) (world : Nat → Stores)
    (hstore : ∀ t, ∀ s ∈ (world t).primary :: (world t).secondaries, ∀ name,
      (∃ b, s.fileExists name = .ok b) ∧ ∃ bytes, s.openObject name = .ok bytes)
    (hfac : ∀ bytes, ∃ reader, fs.blockReaderFactory bytes = .ok reader ∧
      ∀ e, ReadResult.fail e ∉ reader)
    (hpre : ∀ b, ∃ o, preprocessResult (fs.streamConfig none) b = .ok o)
    (m : Move) {s t : Tasks (Option Block)} (h : Unfailing s)
    (hs : stepTasks fs par world m s = some t) : Unfailing t := by
  unfold stepTasks at hs
  split at hs
  · cases hs
  · cases m with
    | locate =>
      simp only [stepLocate] at hs
      split at hs
      · cases hs
      · split at hs
        · rename_i hterm
          injection hs with hs; subst hs
          have : s.shutter.shutdown none = s.shutter := shutdown_terminating _ _ hterm
          exact h.update (by simp only [this]; exact h.1) (by simp only [this]; exact id)
            (fun ft hft => Or.inl hft)
        · split at hs
          · rename_i e he
            exact absurd he (poll_ok _ _ _ (fun s hs name => (hstore _ s hs name).1) e)
          · injection hs with hs; subst hs
            exact h.update h.1 id (fun ft hft => Or.inl hft)
          · injection hs with hs; subst hs
            exact h.update h.1 id (fun ft hft => Or.inl hft)
      · split at hs
        · split at hs
          · cases hs
          · rename_i store hget
            injection hs with hs; subst hs
            refine h.update h.1 id (fun ft hft => ?_)
            rcases List.mem_append.1 hft with hft | hft
            · exact Or.inl hft
            · right
              simp only [List.mem_singleton] at hft
              subst hft
              refine ⟨fun name => (hstore _ store (Stores.get_mem _ _ _ hget) name).2, ?_⟩
              intro pl hpl
              cases hpl
        · cases hs
    | locateCancel =>
      simp only [stepLocateCancel] at hs
      split at hs
      · split at hs
        · rename_i hterm
          injection hs with hs; subst hs
          have : s.shutter.shutdown s.shutter.err = s.shutter := shutdown_terminating _ _ hterm
          exact h.update (by simp only [this]; exact h.1) (by simp only [this]; exact id)
            (fun ft hft => Or.inl hft)
        · cases hs
      · cases hs
    | openFile k =>
      simp only [stepOpen] at hs
      split at hs
      · cases hs
      · rename_i ft hget
        have hmem : ft ∈ s.files := List.get?_mem hget
        obtain ⟨hopen, _⟩ := h.2 ft hmem
        split at hs
        · cases hs
        · split at hs
          · rename_i e he
            obtain ⟨bytes, hb⟩ := hopen ft.name
            rw [hb] at he
            cases he
          · rename_i bytes _
            obtain ⟨reader, hr, hnofail⟩ := hfac bytes
            split at hs
            · rename_i e he
              rw [hr] at he
              cases he
            · rename_i reader2 hr2
              rw [hr] at hr2
              injection hr2 with hr2
              subst hr2
              injection hs with hs; subst hs
              refine h.update h.1 id (fun ft2 hft2 => ?_)
              rcases List.mem_or_eq_of_mem_set hft2 with hft2 | hft2
              · exact Or.inl hft2
              · right
                subst hft2
                refine ⟨hopen, ?_⟩
                intro pl hpl
                simp only [Option.some.injEq] at hpl
                subst hpl
                exact ⟨hnofail, fun e he => by cases he⟩
    | stream k a =>
      have key : ∀ (ft : FileTask) (pl q : Pipeline), s.files.get? k = some ft →
          ft.pipe = some pl →
          step (fs.streamConfig none) a { pl with shutter := s.shutter } = some q →
          (∀ e, a ≠ .shutdown e) →
          Unfailing { s with shutter := q.shutter,
                             files := s.files.set k { ft with pipe := some q } } := by
        intro ft pl q hget hpl hq ha
        have hmem : ft ∈ s.files := List.get?_mem hget
        obtain ⟨hopen, hpipe⟩ := h.2 ft hmem
        obtain ⟨hreads, hret⟩ := hpipe pl hpl
        obtain ⟨h1, h2, h3⟩ := step_unfailing hq ha hpre hreads
        have h1b : q.shutter = s.shutter := h1
        refine h.update (by simp only [h1b]; exact h.1) (by simp only [h1b]; exact id)
          (fun ft2 hft2 => ?_)
        rcases List.mem_or_eq_of_mem_set hft2 with hft2 | hft2
        · exact Or.inl hft2
        · right
          subst hft2
          refine ⟨hopen, ?_⟩
          intro pl2 hpl2
          simp only [Option.some.injEq] at hpl2
          subst hpl2
          refine ⟨h2, fun e he => ?_⟩
          simp only [h1b]
          rcases h3 e he with h3 | h3
          · exact hret e h3
          · exact h3
      cases a with
      | shutdown e => simp [stepStream] at hs
      | main =>
        simp only [stepStream] at hs
        split at hs
        · cases hs
        · rename_i hget
          split at hs
          · cases hs
          · rename_i hpl
            split at hs
            · cases hs
            · rename_i hq
              split at hs
              · cases hs
              · injection hs with hs; subst hs
                exact key _ _ _ hget hpl hq (fun e he => by cases he)
      | preprocess i =>
        simp only [stepStream] at hs
        split at hs
        · cases hs
        · rename_i hget
          split at hs
          · cases hs
          · rename_i hpl
            split at hs
            · cases hs
            · rename_i hq
              split at hs
              · cases hs
              · injection hs with hs; subst hs
                exact key _ _ _ hget hpl hq (fun e he => by cases he)
      | preprocessCancel i =>
        simp only [stepStream] at hs
        split at hs
        · cases hs
        · rename_i hget
          split at hs
          · cases hs
          · rename_i hpl
            split at hs
            · cases hs
            · rename_i hq
              split at hs
              · cases hs
              · injection hs with hs; subst hs
                exact key _ _ _ hget hpl hq (fun e he => by cases he)
      | forward =>
        simp only [stepStream] at hs
        split at hs
        · cases hs
        · rename_i hget
          split at hs
          · cases hs
          · rename_i hpl
            split at hs
            · cases hs
            · rename_i hq
              split at hs
              · cases hs
              · injection hs with hs; subst hs
                exact key _ _ _ hget hpl hq (fun e he => by cases he)
      | forwardCancel =>
        simp only [stepStream] at hs
        split at hs
        · cases hs
        · rename_i hget
          split at hs
          · cases hs
          · rename_i hpl
            split at hs
            · cases hs
            · rename_i hq
              split at hs
              · cases hs
              · injection hs with hs; subst hs
                exact key _ _ _ hget hpl hq (fun e he => by cases he)
    | fileReturn k =>
      simp only [stepFileReturn] at hs
      split at hs
      · cases hs
      · rename_i ft hget
        have hmem : ft ∈ s.files := List.get?_mem hget
        obtain ⟨hopen, hpipe⟩ := h.2 ft hmem
        have hfile : ∀ ft2 ∈ s.files.set k { ft with returned := true }, ft2 ∈ s.files ∨
            ((∀ name, ∃ bytes, ft2.store.openObject name = .ok bytes) ∧
              ∀ pl, ft2.pipe = some pl →
                (∀ e, ReadResult.fail e ∉ pl.reads) ∧
                (∀ e, pl.main = .returned (some e) → s.shutter ≠ none)) := by
          intro ft2 hft2
          rcases List.mem_or_eq_of_mem_set hft2 with hft2 | hft2
          · exact Or.inl hft2
          · right
            subst hft2
            exact ⟨hopen, hpipe⟩
        split at hs
        · cases hs
        · split at hs
          · cases hs
          · rename_i pl hpl
            split at hs
            · injection hs with hs; subst hs
              exact h.update h.1 id hfile
            · rename_i e hmain
              injection hs with hs; subst hs
              have hterm : s.shutter ≠ none := (hpipe pl hpl).2 e hmain
              have : s.shutter.shutdown (some (.wrap "processing of file failed"
                  (.wrap "error processing incoming file" e))) = s.shutter := by
                cases hsh : s.shutter with
                | none => exact absurd hsh hterm
                | some x => rfl
              refine h.update (by simp only [this]; exact h.1) (by simp only [this]; exact id)
                (fun ft2 hft2 => ?_)
              simp only [this]
              exact hfile ft2 hft2
            · cases hs
    | sink =>
      simp only [stepSink, hfs] at hs
      split at hs
      · cases hs
      · split at hs
        · injection hs with hs; subst hs
          exact h.update h.1 id (fun ft hft => Or.inl hft)
        · cases hs
      · split at hs
        · cases hs
        · rename_i ft hget
          have hmem : ft ∈ s.files := List.get?_mem hget
          obtain ⟨hopen, hpipe⟩ := h.2 ft hmem
          have hfile : ∀ ft2 ∈ s.files.set ‹Nat› { ft with taken := ft.taken + 1 },
              ft2 ∈ s.files ∨
              ((∀ name, ∃ bytes, ft2.store.openObject name = .ok bytes) ∧
                ∀ pl, ft2.pipe = some pl →
                  (∀ e, ReadResult.fail e ∉ pl.reads) ∧
                  (∀ e, pl.main = .returned (some e) → s.shutter ≠ none)) := by
            intro ft2 hft2
            rcases List.mem_or_eq_of_mem_set hft2 with hft2 | hft2
            · exact Or.inl hft2
            · right
              subst hft2
              exact ⟨hopen, hpipe⟩
          split at hs
          · cases hs
          · split at hs
            · injection hs with hs; subst hs
              exact h.update h.1 id hfile
            · split at hs
              · injection hs with hs; subst hs
                exact h.update h.1 id (fun ft hft => Or.inl hft)
              · cases hs
      · rename_i k pb _
        by_cases htar : isTarget p pb.block = true
        · rw [coldHandler_target p _ pb htar] at hs
          simp only [Shutter.request] at hs
          injection hs with hs; subst hs
          refine h.update ?_ (fun _ => shutdown_eq_none _ _) (fun ft hft => Or.inl hft)
          intro e he
          cases hsh : s.shutter with
          | none => simp [hsh, Shutter.shutdown] at he
          | some x =>
            simp only [hsh, Shutter.shutdown] at he
            exact h.1 e (by rw [hsh, he])
        · have htar2 : isTarget p pb.block = false := by simpa using htar
          rw [coldHandler_other p _ pb htar2] at hs
          simp only [Shutter.request] at hs
          injection hs with hs; subst hs
          exact h.update h.1 id (fun ft hft => Or.inl hft)
    | sinkCancel =>
      simp only [stepSinkCancel] at hs
      split at hs
      · split at hs
        · injection hs with hs; subst hs
          exact h.update h.1 id (fun ft hft => Or.inl hft)
        · cases hs
      · cases hs

theorem Unfailing.throughout {p : ATMCachedBlockPayload} (fs : FileSource (Option Block))
    (hfs : fs.handler = coldHandler p) (par : Nat) (world : Nat → Stores)
    (hstore : ∀ t, ∀ s ∈ (world t).primary :: (world t).secondaries, ∀ name,
      (∃ b, s.fileExists name = .ok b) ∧ ∃ bytes, s.openObject name = .ok bytes)
    (hfac : ∀ bytes, ∃ reader, fs.blockReaderFactory bytes = .ok reader ∧
      ∀ e, ReadResult.fail e ∉ reader)
    (hpre : ∀ b, ∃ o, preprocessResult (fs.streamConfig none) b = .ok o)
    (sched : List Move) :
    ∀ {s t : Tasks (Option Block)}, Unfailing s → runTasks fs par world sched s = some t →
      Unfailing t := by
  induction sched with
  | nil =>
    intro s t h hs
    simp only [runTasks, Option.some.injEq] at hs
    rw [← hs]; exact h
  | cons m rest ih =>
    intro s t h hs
    simp only [runTasks] at hs
    cases hm : stepTasks fs par world m s with
    | none => rw [hm] at hs; cases hs
    | some s1 =>
      rw [hm] at hs
      exact ih (h.next fs hfs par world hstore hfac hpre m hm) hs

theorem hookCalls_checks (l : List Nat) (name : String) :
    hookCalls (l.map (fun j => Event.fileExists j name)) = [] := by
  induction l with
  | nil => rfl
  | cons a rest ih =>
    simp only [hookCalls, List.map_cons, List.filterMap_cons] at ih ⊢
    exact ih

theorem storeCalls_checks (l : List Nat) (name : String) :
    storeCalls (l.map (fun j => Event.fileExists j name))
      = l.map (fun j => Event.fileExists j name) := by
  induction l with
  | nil => rfl
  | cons a rest ih =>
    simp only [storeCalls, List.map_cons] at ih ⊢
    rw [List.filter_cons_of_pos (by simp [Event.isStoreCall]), ih]

theorem baseBlockNum_mono {c d : Nat} (h : c ≤ d) : baseBlockNum c ≤ baseBlockNum d := by
  simp only [baseBlockNum, filesBlocksIncrement]
  omega

/-- Without overflow the cursor never moves backwards. -/
theorem iterate_index {σ : Type} (fs : FileSource σ) (world : Nat → Stores) :
    ∀ (n t : Nat) (st : LoopState) (eng : Engine σ) (st1 : LoopState),
      (iterate fs world n t st eng).2 = .ok st1 →
      st.currentIndex + 100 * n < 2 ^ 64 →
      st.currentIndex ≤ st1.currentIndex ∧ st1.currentIndex ≤ st.currentIndex + 100 * n := by
  intro n
  induction n with
  | zero =>
    intro t st eng st1 h _
    simp only [iterate, Except.ok.injEq] at h
    subst h
    omega
  | succ n ih =>
    intro t st eng st1 h hb
    unfold iterate at h
    rcases iteration_cases fs (world t) st eng with ⟨⟨e, he⟩, _⟩ | ⟨he, _⟩ | ⟨he, _⟩
    · cases hr : iteration fs (world t) st eng with
      | mk eng1 res =>
        rw [hr] at h he
        dsimp only at he
        subst he
        cases h
    · cases hr : iteration fs (world t) st eng with
      | mk eng1 res =>
        rw [hr] at h he
        dsimp only at he
        subst he
        have := ih (t + 1) ⟨st.currentIndex, fs.retryDelay⟩ eng1 st1 h (by dsimp only; omega)
        dsimp only at this
        omega
    · cases hr : iteration fs (world t) st eng with
      | mk eng1 res =>
        rw [hr] at h he
        dsimp only at he
        subst he
        have hadv : (afterHit st).currentIndex = st.currentIndex + 100 := by
          simp only [afterHit]
          exact advance_eq _ (by omega)
        have := ih (t + 1) (afterHit st) eng1 st1 h (by rw [hadv]; omega)
        rw [hadv] at this
        omega

/-- C6. Store selection in `runMergeFile`: when the stores before store `i`
(primary first, then the secondary stores in list order) answer that the file
of the current base is absent and store `i` answers that it is present, the
store calls of the iteration are exactly the existence checks on stores
`0, ..., i` in that order followed by the opening of the file on store `i`; no
later store is queried and no other store is opened. -/
theorem store_selection {σ : Type} (fs : FileSource σ) (w : Stores) (st : LoopState)
    (eng : Engine σ) (i : Nat) (si : Store)
    (hrun : eng.shutter = none)
    (hlack : ∀ j, j < i → ∃ s, w.get j = some s ∧
      s.fileExists (baseFilename (baseBlockNum st.currentIndex)) = .ok false)
    (hget : w.get i = some si)
    (hhas : si.fileExists (baseFilename (baseBlockNum st.currentIndex)) = .ok true) :
    storeCalls (iteration fs w st eng).1.events
      = storeCalls eng.events
        ++ (List.range (i + 1)).map
            (fun j => Event.fileExists j (baseFilename (baseBlockNum st.currentIndex)))
        ++ [Event.openObject i (baseFilename (baseBlockNum st.currentIndex))] := by
  have hterm : eng.shutter.isTerminating = false := by simp [hrun, Shutter.isTerminating]
  unfold iteration
  simp only [hterm, Bool.false_eq_true, if_false,
    poll_hit fs.locatorConfig w st i si hlack hget hhas]
  obtain ⟨pbs, hp⟩ := processFile_events fs w i (baseFilename (baseBlockNum st.currentIndex))
    { eng with events := eng.events ++ ((List.range (i + 1)).map
        (fun j => Event.fileExists j (baseFilename (baseBlockNum st.currentIndex)))) } si hget
  rw [hp]
  rw [storeCalls_append, storeCalls_append, storeCalls_checks]
  congr 1
  have h2 := storeCalls_processBlocks pbs
  simp only [storeCalls] at h2 ⊢
  rw [List.filter_cons_of_pos (by simp [Event.isStoreCall]), h2]

theorem store_selection_witness :
    storeCalls (iteration (sampleSource 500) fallbackStores ⟨500, 0⟩ freshEngine).1.events
      = [Event.fileExists 0 "0000000500", Event.fileExists 1 "0000000500",
         Event.fileExists 2 "0000000500", Event.openObject 2 "0000000500"] :=
  store_selection (sampleSource 500) fallbackStores ⟨500, 0⟩ freshEngine 2
    (storeWith ["0000000500"]) rfl
    (fun j hj => by
      interval_cases j
      · exact ⟨storeWith [], rfl, rfl⟩
      · exact ⟨storeWith ["0000000400"], rfl, rfl⟩)
    rfl rfl

/-- C7. Batch base and stride in `runMergeFile`: the base `c - c % 100` is a
multiple of 100, at most `c` and at most 99 below `c`; the `k`-th file opened
by the loop started at `s` (counting from 0) is the file of base
`(s - s % 100) + 100 * k` as long as `s + 100 * k` fits in 64 bits; the name
of a base is its decimal form padded on the left with zeros to width 10, which
for a base below `10 ^ 10` has exactly 10 characters, the ten decimal digits
of the base, and compares like the base. -/
theorem batch_base_and_stride {σ : Type} (fs : FileSource σ) (world : Nat → Stores)
    (eng : Engine σ) (c s k n a b : Nat) (name : String)
    (hfresh : eng.events = [])
    (hfit : s + 100 * k < 2 ^ 64)
    (hk : (openedFiles (iterate fs world n 0 ⟨s, 0⟩ eng).1.events).get? k = some name)
    (ha : a < 10 ^ 10) (hb : b < 10 ^ 10) :
    (100 ∣ baseBlockNum c ∧ baseBlockNum c ≤ c ∧ c - baseBlockNum c ≤ 99) ∧
    name = baseFilename ((s - s % 100) + 100 * k) ∧
    (baseFilename c).data
      = List.replicate (10 - (Nat.toDigits 10 c).length) '0' ++ Nat.toDigits 10 c ∧
    ((baseFilename a).length = 10 ∧ (baseFilename a).data = decDigits 10 a) ∧
    (a < b ↔ baseFilename a < baseFilename b) := by
  refine ⟨⟨?_, ?_, ?_⟩, ?_, rfl, ⟨baseFilename_length a ha, baseFilename_data a ha⟩,
    (baseFilename_lt_iff a b ha hb).symm⟩
  · simp only [baseBlockNum, filesBlocksIncrement]; omega
  · simp only [baseBlockNum, filesBlocksIncrement]; omega
  · simp only [baseBlockNum, filesBlocksIncrement]; omega
  · have h := iterate_opened fs world n 0 ⟨s, 0⟩ eng k name hfit
      (by rw [hfresh]; simpa [openedFiles] using hk)
    simpa [baseBlockNum, filesBlocksIncrement] using h

theorem batch_base_and_stride_witness :
    (100 ∣ baseBlockNum 250 ∧ baseBlockNum 250 ≤ 250 ∧ 250 - baseBlockNum 250 ≤ 99) ∧
    "0000000400" = baseFilename ((250 - 250 % 100) + 100 * 2) ∧
    (baseFilename 250).data
      = List.replicate (10 - (Nat.toDigits 10 250).length) '0' ++ Nat.toDigits 10 250 ∧
    ((baseFilename 300).length = 10 ∧ (baseFilename 300).data = decDigits 10 300) ∧
    (300 < 400 ↔ baseFilename 300 < baseFilename 400) :=
  batch_base_and_stride (sampleSource 250) (fun _ => threeFiles) freshEngine 250 250 2 3
    300 400 "0000000400" rfl (by decide) rfl (by decide) (by decide)

/-- C8. Miss handling in `runMergeFile`. An iteration that finds the file of
the current base in no store calls the miss hook, when set, exactly once with
the larger of the base and the first streamable block, opens nothing, keeps
the cursor and sets the delay to the retry delay. An iteration that finds the
file calls no hook, sets the delay to zero and advances the cursor by 100 (as
a 64-bit unsigned number); as long as the cursor does not overflow, every
later iteration polls a strictly larger base. -/
theorem miss_handling {σ : Type} (fs : FileSource σ) (w : Stores) (st : LoopState)
    (eng : Engine σ) (hrun : eng.shutter = none) :
    ((∀ s ∈ w.primary :: w.secondaries,
        s.fileExists (baseFilename (baseBlockNum st.currentIndex)) = .ok false) →
      (iteration fs w st eng).2 = .ok ⟨st.currentIndex, fs.retryDelay⟩ ∧
      hookCalls (iteration fs w st eng).1.events
        = hookCalls eng.events ++
          (if fs.hasNotFoundCallback then
            [max (baseBlockNum st.currentIndex) fs.firstStreamableBlock] else []) ∧
      openedFiles (iteration fs w st eng).1.events = openedFiles eng.events) ∧
    (∀ (i : Nat) (si : Store),
      (∀ j, j < i → ∃ s, w.get j = some s ∧
        s.fileExists (baseFilename (baseBlockNum st.currentIndex)) = .ok false) →
      w.get i = some si →
      si.fileExists (baseFilename (baseBlockNum st.currentIndex)) = .ok true →
      (iteration fs w st eng).2 = .ok ⟨(st.currentIndex + 100) % 2 ^ 64, 0⟩ ∧
      hookCalls (iteration fs w st eng).1.events = hookCalls eng.events ∧
      ∀ (world : Nat → Stores) (n t : Nat) (later : LoopState),
        st.currentIndex + 100 * (n + 1) < 2 ^ 64 →
        (iterate fs world n t ⟨(st.currentIndex + 100) % 2 ^ 64, 0⟩
          (iteration fs w st eng).1).2 = .ok later →
        baseBlockNum st.currentIndex < baseBlockNum later.currentIndex) := by
  have hterm : eng.shutter.isTerminating = false := by simp [hrun, Shutter.isTerminating]
  constructor
  · intro hall
    have hp := poll_miss fs.locatorConfig w st hall
    unfold iteration
    simp only [hterm, Bool.false_eq_true, if_false, hp]
    refine ⟨rfl, ?_, ?_⟩
    · rw [hookCalls_append, hookCalls_append, hookCalls_checks]
      by_cases hc : fs.hasNotFoundCallback = true
      · simp [hc, FileSource.locatorConfig, hookCalls]
      · simp [hc, FileSource.locatorConfig, hookCalls]
    · have := openedFiles_poll fs.locatorConfig w st
      rw [hp] at this
      rw [openedFiles_append, this]
      simp
  · intro i si hlack hget hhas
    have hp := poll_hit fs.locatorConfig w st i si hlack hget hhas
    have hnext : (iteration fs w st eng).2 = .ok ⟨(st.currentIndex + 100) % 2 ^ 64, 0⟩ := by
      unfold iteration
      simp only [hterm, Bool.false_eq_true, if_false, hp]
      rfl
    refine ⟨hnext, ?_, ?_⟩
    · unfold iteration
      simp only [hterm, Bool.false_eq_true, if_false, hp]
      obtain ⟨pbs, hpb⟩ := processFile_events fs w i
        (baseFilename (baseBlockNum st.currentIndex))
        { eng with events := eng.events ++ ((List.range (i + 1)).map
          (fun j => Event.fileExists j (baseFilename (baseBlockNum st.currentIndex)))) } si hget
      rw [hpb, hookCalls_append, hookCalls_append, hookCalls_checks]
      have h2 := hookCalls_processBlocks pbs
      simp only [hookCalls] at h2 ⊢
      simp [List.filterMap_cons, h2]
    · intro world n t later hb hlater
      have hmod : (st.currentIndex + 100) % 2 ^ 64 = st.currentIndex + 100 :=
        Nat.mod_eq_of_lt (by omega)
      rw [hmod] at hlater
      have := (iterate_index fs world n t ⟨st.currentIndex + 100, 0⟩ _ later hlater
        (by dsimp only; omega)).1
      dsimp only at this
      have h1 := baseBlockNum_mono this
      rw [baseBlockNum_add] at h1
      omega

theorem miss_handling_witness :
    ((iteration (sampleSource 1) emptyStores ⟨1, 0⟩ freshEngine).2 = .ok ⟨1, 4000000000⟩ ∧
      hookCalls (iteration (sampleSource 1) emptyStores ⟨1, 0⟩ freshEngine).1.events = [2] ∧
      openedFiles (iteration (sampleSource 1) emptyStores ⟨1, 0⟩ freshEngine).1.events = []) ∧
    ((iteration (sampleSource 500) fallbackStores ⟨500, 0⟩ freshEngine).2 = .ok ⟨600, 0⟩ ∧
      hookCalls (iteration (sampleSource 500) fallbackStores ⟨500, 0⟩ freshEngine).1.events = []) :=
  ⟨(miss_handling (sampleSource 1) emptyStores ⟨1, 0⟩ freshEngine rfl).1
      (fun s hs => by
        simp only [emptyStores, List.mem_cons, List.mem_singleton, List.not_mem_nil,
          or_false, or_self] at hs
        subst hs
        rfl),
    ⟨((miss_handling (sampleSource 500) fallbackStores ⟨500, 0⟩ freshEngine rfl).2 2
        (storeWith ["0000000500"])
        (fun j hj => by
          interval_cases j
          · exact ⟨storeWith [], rfl, rfl⟩
          · exact ⟨storeWith ["0000000400"], rfl, rfl⟩)
        rfl rfl).1,
      ((miss_handling (sampleSource 500) fallbackStores ⟨500, 0⟩ freshEngine rfl).2 2
        (storeWith ["0000000500"])
        (fun j hj => by
          interval_cases j
          · exact ⟨storeWith [], rfl, rfl⟩
          · exact ⟨storeWith ["0000000400"], rfl, rfl⟩)
        rfl rfl).2.1⟩⟩

/-! ## Block payloads -/

/-- C3 (as amended). A cache read that fails is reported by
`ATMCachedBlockPayload.Get` when the cache says the key was found (with nil
data) or when it handed out a non-empty byte string (with that data); no
recovery engine is built. -/
theorem cache_error_propagates (p : ATMCachedBlockPayload) (env : ColdEnv) (fuel : Nat)
    (e : Err) (herr : (env.cacheRead p.blockId).err = some e)
    (hseen : (env.cacheRead p.blockId).found = true ∨ (env.cacheRead p.blockId).data ≠ []) :
    p.Get env fuel
      = some (.ret ⟨if (env.cacheRead p.blockId).found then [] else (env.cacheRead p.blockId).data,
          some e⟩, none) := by
  unfold ATMCachedBlockPayload.Get
  by_cases hf : (env.cacheRead p.blockId).found = true
  · simp [hf, herr]
  · have hd : (env.cacheRead p.blockId).data ≠ [] := by
      rcases hseen with h | h
      · exact absurd h hf
      · exact h
    simp [hf, herr, hd]

theorem cache_error_propagates_witness :
    samplePayload.Get (sampleEnv ⟨[7], false, some (.msg "cache read failed")⟩) 0
      = some (.ret ⟨[7], some (.msg "cache read failed")⟩, none) :=
  cache_error_propagates samplePayload (sampleEnv ⟨[7], false, some (.msg "cache read failed")⟩)
    0 (.msg "cache read failed") rfl (Or.inr (by decide))

/-- C3 (counterexample). The cache read fails with found false and no data:
`Get` runs the recovery engine and returns the bytes of the recovered block
with a nil error. -/
theorem cache_error_dropped :
    ((sampleEnv ⟨[], false, some (.msg "cache read failed")⟩).cacheRead samplePayload.blockId).err
        = some (.msg "cache read failed") ∧
    samplePayload.Get (sampleEnv ⟨[], false, some (.msg "cache read failed")⟩) 2
      = some (.ret ⟨[3], none⟩,
          some [.fileExists 0 "0000000000", .openObject 0 "0000000000",
                .processBlock ⟨sampleBlock "c" 12 [3], .nilObj⟩]) := by
  decide

/-- C5 (as amended). A cache hit with no error and a non-empty byte string is
returned as it is, with a nil error, and no recovery engine is built. -/
theorem cache_hit_returns_bytes (p : ATMCachedBlockPayload) (env : ColdEnv) (fuel : Nat)
    (hfound : (env.cacheRead p.blockId).found = true)
    (herr : (env.cacheRead p.blockId).err = none)
    (hdata : (env.cacheRead p.blockId).data ≠ []) :
    p.Get env fuel = some (.ret ⟨(env.cacheRead p.blockId).data, none⟩, none) := by
  unfold ATMCachedBlockPayload.Get
  simp [hfound, herr, hdata]

theorem cache_hit_returns_bytes_witness :
    samplePayload.Get (sampleEnv ⟨[9, 9], true, none⟩) 0 = some (.ret ⟨[9, 9], none⟩, none) :=
  cache_hit_returns_bytes samplePayload (sampleEnv ⟨[9, 9], true, none⟩) 0 rfl rfl (by decide)

/-- C5 (counterexample). The cache reports the key found, with no error and the
empty byte string: `Get` builds and runs the recovery engine, and returns the
bytes of the recovered block instead of the cached (empty) ones. -/
theorem cache_hit_empty_recovers :
    samplePayload.Get (sampleEnv ⟨[], true, none⟩) 2
      = some (.ret ⟨[3], none⟩,
          some [.fileExists 0 "0000000000", .openObject 0 "0000000000",
                .processBlock ⟨sampleBlock "c" 12 [3], .nilObj⟩]) ∧
    samplePayload.Get (sampleEnv ⟨[], true, none⟩) 1 = none := by
  decide

/-- C10. Agreement of `Len` and `Get`. For the in-memory payload `Get` returns
the wrapped bytes with a nil error and `Len` their length. For the cache-backed
payload, on the same cache and stores, `Len` returns exactly when `Get` does,
it is negative exactly when `Get` returns an error, and otherwise it is the
length of the bytes `Get` returns. -/
theorem len_get_agreement (m : MemoryBlockPayload) (p : ATMCachedBlockPayload) (env : ColdEnv)
    (fuel : Nat) :
    (m.Get = ⟨m.data, none⟩ ∧ m.Len = (m.data.length : Int) ∧ 0 ≤ m.Len) ∧
    (p.Len env fuel = none ↔ p.Get env fuel = none) ∧
    (p.Len env fuel = some .nilDeref ↔ ∃ ev, p.Get env fuel = some (.nilDeref, ev)) ∧
    (∀ r ev, p.Get env fuel = some (.ret r, ev) →
      ∃ n : Int, p.Len env fuel = some (.ret n) ∧ (n < 0 ↔ r.err ≠ none) ∧
        (r.err = none → n = (r.data.length : Int) ∧ 0 ≤ n)) := by
  refine ⟨⟨rfl, rfl, by simp [MemoryBlockPayload.Len]⟩, ?_, ?_, ?_⟩
  · unfold ATMCachedBlockPayload.Len
    cases hg : p.Get env fuel with
    | none => simp
    | some x =>
      obtain ⟨o, ev⟩ := x
      cases o <;> simp
  · unfold ATMCachedBlockPayload.Len
    cases hg : p.Get env fuel with
    | none => simp
    | some x =>
      obtain ⟨o, ev⟩ := x
      cases o <;> simp
  · intro r ev hg
    unfold ATMCachedBlockPayload.Len
    rw [hg]
    cases he : r.err with
    | none => exact ⟨(r.data.length : Int), by simp [he], by simp [he], fun _ => ⟨rfl, by simp⟩⟩
    | some e => exact ⟨-1, by simp [he], by simp [he], fun h => by cases h⟩

theorem len_get_agreement_witness :
    ((MemoryBlockPayload.mk [1, 2]).Get = ⟨[1, 2], none⟩ ∧
      (MemoryBlockPayload.mk [1, 2]).Len = 2 ∧ 0 ≤ (MemoryBlockPayload.mk [1, 2]).Len) ∧
    ∃ n : Int, samplePayload.Len (sampleEnv ⟨[], false, none⟩) 2 = some (.ret n) ∧
      (n < 0 ↔ (GetReturn.mk [3] none).err ≠ none) ∧
      ((GetReturn.mk [3] none).err = none → n = 1 ∧ 0 ≤ n) :=
  ⟨(len_get_agreement ⟨[1, 2]⟩ samplePayload (sampleEnv ⟨[], false, none⟩) 2).1,
    (len_get_agreement ⟨[1, 2]⟩ samplePayload (sampleEnv ⟨[], false, none⟩) 2).2.2.2
      ⟨[3], none⟩
      (some [.fileExists 0 "0000000000", .openObject 0 "0000000000",
             .processBlock ⟨sampleBlock "c" 12 [3], .nilObj⟩])
      (by decide)⟩

/-- C9. A consumer error is fatal in `launchSink`. Let the queues of the
discovered files, joined in discovery order, be `pre ++ pb :: post`, the
consumer being quiet (no error, no shutdown requested) on `pre` and not quiet
on `pb`. Then the consumer is called exactly on `pre ++ [pb]`, in order, and
never on a block of `post`, be it in the same file or in a later one. If the
consumer returned error `e` on `pb`, `Shutdown` was called with the error
wrapping `e`, which is the terminal error unless a shutdown was requested
while the consumer ran. And a sink whose shutter is terminating hands over
nothing. -/
theorem consumer_error_fatal {σ : Type} (h : Handler σ)
    (files : List (List PreprocessedBlock)) (eng : Engine σ)
    (pre post : List PreprocessedBlock) (pb : PreprocessedBlock)
    (hrun : eng.shutter = none)
    (hsplit : files.flatten = pre ++ pb :: post)
    (hquiet : ∀ r ∈ (handlerRun h eng.hstate pre).2, r = ⟨none, none⟩)
    (hstop : (h (handlerRun h eng.hstate pre).1 pb).2 ≠ ⟨none, none⟩) :
    (launchSink h files eng).events
      = eng.events ++ (pre ++ [pb]).map Event.processBlock ∧
    (∀ e, (h (handlerRun h eng.hstate pre).1 pb).2.err = some e →
      (launchSink h files eng).shutter
        = (Shutter.request none (h (handlerRun h eng.hstate pre).1 pb).2.shutdown).shutdown
            (some (.wrap "process block failed" e)) ∧
      ((h (handlerRun h eng.hstate pre).1 pb).2.shutdown = none →
        (launchSink h files eng).shutter = some (some (.wrap "process block failed" e)))) ∧
    (∀ eng2 : Engine σ, eng2.shutter.isTerminating = true → launchSink h files eng2 = eng2) := by
  refine ⟨?_, ?_, ?_⟩
  · rw [launchSink_join, hsplit, sinkFile_quiet h pre (pb :: post) eng hrun hquiet]
    simp only [sinkFile, Shutter.isTerminating, Option.isSome_none, Bool.false_eq_true, if_false]
    cases herr : (h (handlerRun h eng.hstate pre).1 pb).2.err with
    | some e => simp
    | none =>
      simp only []
      have hsd : (h (handlerRun h eng.hstate pre).1 pb).2.shutdown ≠ none := by
        intro hn
        apply hstop
        cases hr : (h (handlerRun h eng.hstate pre).1 pb).2 with
        | mk err sd =>
          rw [hr] at herr hn
          simp only at herr hn
          rw [herr, hn]
      rw [sinkFile_terminating]
      · simp
      · cases hs : (h (handlerRun h eng.hstate pre).1 pb).2.shutdown with
        | none => exact absurd hs hsd
        | some x => simp [Shutter.request, Shutter.shutdown, Shutter.isTerminating]
  · intro e herr
    have hsh : (launchSink h files eng).shutter
        = (Shutter.request none (h (handlerRun h eng.hstate pre).1 pb).2.shutdown).shutdown
            (some (.wrap "process block failed" e)) := by
      rw [launchSink_join, hsplit, sinkFile_quiet h pre (pb :: post) eng hrun hquiet]
      simp only [sinkFile, Shutter.isTerminating, Option.isSome_none, Bool.false_eq_true,
        if_false, herr]
    refine ⟨hsh, ?_⟩
    intro hn
    rw [hsh, hn]
    rfl
  · intro eng2 ht
    rw [launchSink_join]
    exact sinkFile_terminating h _ eng2 ht

theorem consumer_error_fatal_witness :
    (launchSink (failAt 12) sampleQueues freshEngine).events
      = [Event.processBlock (samplePre "a" 10), Event.processBlock (samplePre "b" 11),
         Event.processBlock (samplePre "c" 12)] ∧
    (launchSink (failAt 12) sampleQueues freshEngine).shutter
      = some (some (.wrap "process block failed" (.msg "consumer failed"))) :=
  ⟨(consumer_error_fatal (failAt 12) sampleQueues freshEngine
      [samplePre "a" 10, samplePre "b" 11] [samplePre "d" 13, samplePre "e" 14]
      (samplePre "c" 12) rfl rfl (by decide) (by decide)).1,
    ((consumer_error_fatal (failAt 12) sampleQueues freshEngine
      [samplePre "a" 10, samplePre "b" 11] [samplePre "d" 13, samplePre "e" 14]
      (samplePre "c" 12) rfl rfl (by decide) (by decide)).2.1
        (.msg "consumer failed") rfl).2 rfl⟩

/-! ## Delivery order -/

/-- With a nil cursor the read loop publishes the blocks that pass the start
number and the gate. -/
theorem admittedBlocks_readerOf (cfg : StreamConfig) (hcur : cfg.prevLastBlockRead = none)
    (blocks : List Block) :
    admittedBlocks cfg (initialPassed cfg) (readerOf blocks) = blocks.filter (admits cfg) := by
  have hp : initialPassed cfg = true := by simp [initialPassed, hcur]
  rw [hp]
  induction blocks with
  | nil => rfl
  | cons b rest ih =>
    simp only [readerOf, List.map_cons] at ih ⊢
    unfold admittedBlocks
    simp only [readStep, filterBlock]
    by_cases hlt : b.num < cfg.startBlockNum
    · have ha : admits cfg b = false := by simp [admits, hlt]
      simp [hlt, ha, ih]
    · have hle : cfg.startBlockNum ≤ b.num := Nat.le_of_not_lt hlt
      cases hg : cfg.gator with
      | none =>
        have ha : admits cfg b = true := by simp [admits, hle, hg]
        simp [hlt, ha, ih]
      | some pass =>
        by_cases hpass : pass b = true
        · have ha : admits cfg b = true := by simp [admits, hle, hg, hpass]
          simp [hlt, hpass, ha, ih]
        · have ha : admits cfg b = false := by simp [admits, hg, hpass]
          simp [hlt, hpass, ha, ih]

/-- A consumer that is always quiet is quiet on every run. -/
theorem handlerRun_quiet {σ : Type} (h : Handler σ) (hquiet : ∀ s pb, (h s pb).2 = ⟨none, none⟩) :
    ∀ (l : List PreprocessedBlock) (s : σ), ∀ r ∈ (handlerRun h s l).2, r = ⟨none, none⟩ := by
  intro l
  induction l with
  | nil => intro s r hr; simp [handlerRun] at hr
  | cons pb rest ih =>
    intro s r hr
    simp only [handlerRun, List.mem_cons] at hr
    rcases hr with hr | hr
    · rw [hr]; exact hquiet s pb
    · exact ih _ r hr

/-- A quiet consumer is handed every block of every queue, in order. -/
theorem launchSink_quiet {σ : Type} (h : Handler σ) (hquiet : ∀ s pb, (h s pb).2 = ⟨none, none⟩)
    (files : List (List PreprocessedBlock)) (eng : Engine σ) (hrun : eng.shutter = none) :
    (launchSink h files eng).events = eng.events ++ files.flatten.map Event.processBlock := by
  rw [launchSink_join]
  have := sinkFile_quiet h files.flatten [] eng hrun (handlerRun_quiet h hquiet _ _)
  rw [List.append_nil] at this
  rw [this]
  rfl

/-- The output of a completed run on a batch, given the transform results. -/
theorem Completes.output {cfg : StreamConfig} {blocks : List Block}
    {r : List Action × Pipeline} (hr : Completes cfg blocks r)
    (hcur : cfg.prevLastBlockRead = none) (tr : Block → Obj)
    (htr : ∀ b ∈ blocks, preprocessResult cfg b = .ok (tr b)) :
    r.2.output = (blocks.filter (admits cfg)).map (fun b => ⟨b, tr b⟩) := by
  obtain ⟨hrun, hdone, hsh⟩ := hr
  obtain ⟨hblocks, hobj⟩ := run_output hrun hdone hsh
  rw [admittedBlocks_readerOf cfg hcur] at hblocks
  rw [← hblocks, List.map_map]
  have hmem : ∀ pb ∈ r.2.output, pb.block ∈ blocks := by
    intro pb hpb
    have : pb.block ∈ r.2.output.map (fun pb => pb.block) := List.mem_map_of_mem _ hpb
    rw [hblocks] at this
    exact (List.mem_filter.1 this).1
  symm
  calc List.map ((fun b => (⟨b, tr b⟩ : PreprocessedBlock)) ∘ fun pb => pb.block) r.2.output
      = List.map id r.2.output := by
        apply List.map_congr_left
        intro pb hpb
        have h1 := hobj pb hpb
        rw [htr pb.block (hmem pb hpb)] at h1
        injection h1 with h1
        simp only [Function.comp, id]
        rw [h1]
    _ = r.2.output := List.map_id _

/-- Every batch has a completed run: the lock-step schedule. -/
theorem completes_exists (cfg : StreamConfig) (hcur : cfg.prevLastBlockRead = none)
    (hc : 1 ≤ cfg.preprocessorThreadCount) (blocks : List Block)
    (hok : ∀ b ∈ blocks, ∃ o, preprocessResult cfg b = .ok o) :
    ∃ r, Completes cfg blocks r := by
  obtain ⟨t, ht, hd, hs⟩ := lockstep_complete cfg hc (readerOf blocks) (initialPassed cfg)
    none [] (by
      intro b hb
      rw [admittedBlocks_readerOf cfg hcur] at hb
      exact hok b (List.mem_filter.1 hb).1)
  exact ⟨(lockstep cfg (initialPassed cfg) (readerOf blocks), t), ht, hd, hs⟩

theorem completes_outputs {cfg : StreamConfig} (hcur : cfg.prevLastBlockRead = none)
    (tr : Block → Obj) :
    ∀ (batches : List (List Block)) (runs : List (List Action × Pipeline)),
      (∀ bl ∈ batches, ∀ b ∈ bl, preprocessResult cfg b = .ok (tr b)) →
      List.Forall₂ (Completes cfg) batches runs →
      runs.map (fun r => r.2.output)
        = batches.map (fun bl => (bl.filter (admits cfg)).map (fun b => ⟨b, tr b⟩)) := by
  intro batches runs htr hall
  induction hall with
  | nil => rfl
  | @cons bl r bls rs hr _ ih =>
    simp only [List.map_cons]
    rw [hr.output hcur tr (htr bl (List.mem_cons_self _ _)),
      ih (fun x hx => htr x (List.mem_cons_of_mem _ hx))]

theorem completes_all (cfg : StreamConfig) (hcur : cfg.prevLastBlockRead = none)
    (hc : 1 ≤ cfg.preprocessorThreadCount) :
    ∀ batches : List (List Block),
      (∀ bl ∈ batches, ∀ b ∈ bl, ∃ o, preprocessResult cfg b = .ok o) →
      ∃ runs, List.Forall₂ (Completes cfg) batches runs := by
  intro batches
  induction batches with
  | nil => intro _; exact ⟨[], List.Forall₂.nil⟩
  | cons bl rest ih =>
    intro hok
    obtain ⟨r, hr⟩ := completes_exists cfg hcur hc bl (hok bl (List.mem_cons_self _ _))
    obtain ⟨rs, hrs⟩ := ih (fun x hx => hok x (List.mem_cons_of_mem _ hx))
    exact ⟨r :: rs, List.Forall₂.cons hr hrs⟩

/-- C2. Delivery order and content. For batches discovered in a given order and
decoded without error, no resume cursor, a transform that succeeds on their
blocks, a consumer that neither fails nor sees a shutdown, and a transform
concurrency of at least 1: every batch has a run of its pipeline that
completes, and every run on which no termination was requested can be played
on to completion; whatever the completed runs (whatever the schedule of the
read loop, the transform tasks and the forwarding goroutine), the consumer is
handed exactly the blocks that pass the start number and the gate, batch after
batch in discovery order and in read order inside a batch, each with its own
transform result; and these blocks have strictly increasing numbers when the
blocks of the batches have. -/
theorem delivery_order {σ : Type} (cfg : StreamConfig) (h : Handler σ) (eng : Engine σ)
    (batches : List (List Block)) (tr : Block → Obj)
    (hcur : cfg.prevLastBlockRead = none)
    (hc : 1 ≤ cfg.preprocessorThreadCount)
    (htr : ∀ bl ∈ batches, ∀ b ∈ bl, preprocessResult cfg b = .ok (tr b))
    (hquiet : ∀ s pb, (h s pb).2 = ⟨none, none⟩)
    (hrun : eng.shutter = none) :
    (∃ runs, List.Forall₂ (Completes cfg) batches runs) ∧
    (∀ bl ∈ batches, ∀ sched s,
      run cfg sched (Pipeline.init cfg (readerOf bl) none) = some s → s.shutter = none →
      ∃ more t, Completes cfg bl (sched ++ more, t)) ∧
    (∀ runs, List.Forall₂ (Completes cfg) batches runs →
      (launchSink h (runs.map (fun r => r.2.output)) eng).events
        = eng.events ++
          ((batches.map (fun bl => bl.filter (admits cfg))).flatten.map
            (fun b => Event.processBlock ⟨b, tr b⟩))) ∧
    ((batches.flatten.map (fun b => b.num)).Pairwise (fun x y => x < y) →
      (((batches.map (fun bl => bl.filter (admits cfg))).flatten).map
        (fun b => b.num)).Pairwise (fun x y => x < y)) := by
  refine ⟨?_, ?_, ?_, ?_⟩
  · exact completes_all cfg hcur hc batches (fun bl hbl b hb => ⟨tr b, htr bl hbl b hb⟩)
  · intro bl hbl sched s hrun hsh
    obtain ⟨more, t, ht, hd, hs⟩ := can_complete cfg hc
      (admittedBlocks cfg (initialPassed cfg) (readerOf bl))
      (fun b hb => by
        rw [admittedBlocks_readerOf cfg hcur] at hb
        exact ⟨tr b, htr bl hbl b (List.mem_filter.1 hb).1⟩)
      s ((Inv.init cfg (readerOf bl) none).run sched hrun)
      (Live.along sched (Live.atStart cfg (readerOf bl) none) hrun) hsh
    exact ⟨more, t, by rw [run_append, hrun]; exact ht, hd, hs⟩
  · intro runs hall
    rw [launchSink_quiet h hquiet _ eng hrun, completes_outputs hcur tr batches runs htr hall]
    congr 1
    simp only [List.map_flatten, List.map_map]
    congr 1
    apply List.map_congr_left
    intro bl _
    simp [Function.comp]
  · intro hp
    have hsub : List.Sublist (batches.map (fun bl => bl.filter (admits cfg))).flatten
        batches.flatten := by
      rw [← List.filter_flatten]
      exact List.filter_sublist _
    exact List.Pairwise.sublist (hsub.map _) hp

theorem delivery_order_witness :
    (∃ runs, List.Forall₂ (Completes gatedConfig) twoBatches runs) ∧
    (∀ bl ∈ twoBatches, ∀ sched s,
      run gatedConfig sched (Pipeline.init gatedConfig (readerOf bl) none) = some s →
      s.shutter = none → ∃ more t, Completes gatedConfig bl (sched ++ more, t)) ∧
    (∀ runs, List.Forall₂ (Completes gatedConfig) twoBatches runs →
      (launchSink acceptAll (runs.map (fun r => r.2.output)) freshEngine).events
        = [Event.processBlock ⟨sampleBlock "b" 11 [], .val 11⟩,
           Event.processBlock ⟨sampleBlock "c" 12 [], .val 12⟩,
           Event.processBlock ⟨sampleBlock "e" 14 [], .val 14⟩]) ∧
    (([10, 11, 12, 13, 14] : List Nat).Pairwise (fun x y => x < y) →
      ([11, 12, 14] : List Nat).Pairwise (fun x y => x < y)) :=
  delivery_order gatedConfig acceptAll freshEngine twoBatches (fun b => .val b.num) rfl
    (by decide) (fun _ _ _ _ => rfl) (fun _ _ => rfl) rfl

/-! ## Resume cursor -/

/-- With the cursor on the third of five blocks, the read loop publishes the
fourth and the fifth. -/
theorem admittedBlocks_resume (cfg : StreamConfig) (N : Nat) (b0 b1 b2 b3 b4 : Block)
    (ref : BlockRef) (hN : 2 ≤ N)
    (hnums : b0.num = N - 2 ∧ b1.num = N - 1 ∧ b2.num = N ∧ b3.num = N + 1 ∧ b4.num = N + 2)
    (hstart : cfg.startBlockNum ≤ N - 2)
    (hids : [b0.id, b1.id, b2.id, b3.id, b4.id].Nodup)
    (hgate : ∀ g, cfg.gator = some g → ∀ b, g b = true)
    (hcur : cfg.prevLastBlockRead = some ref) (href : ref.id = b2.id) :
    admittedBlocks cfg (initialPassed cfg) (readerOf [b0, b1, b2, b3, b4]) = [b3, b4] := by
  obtain ⟨h0, h1, h2, h3, h4⟩ := hnums
  have hp : initialPassed cfg = false := by simp [initialPassed, hcur]
  simp only [List.nodup_cons, List.mem_cons, List.mem_singleton, not_or, List.not_mem_nil,
    not_false_eq_true, List.nodup_nil, and_true] at hids
  obtain ⟨⟨_, h02, _, _⟩, ⟨h12, _, _⟩, _⟩ := hids
  have e0 : ¬ b0.num < cfg.startBlockNum := by omega
  have e1 : ¬ b1.num < cfg.startBlockNum := by omega
  have e2 : ¬ b2.num < cfg.startBlockNum := by omega
  have e3 : ¬ b3.num < cfg.startBlockNum := by omega
  have e4 : ¬ b4.num < cfg.startBlockNum := by omega
  have i0 : ¬ ref.id = b0.id := by rw [href]; exact fun h => h02 h.symm
  have i1 : ¬ ref.id = b1.id := by rw [href]; exact fun h => h12 h.symm
  have pub : ∀ b, ¬ b.num < cfg.startBlockNum → filterBlock cfg true b = .publish b := by
    intro b hb
    unfold filterBlock
    cases hg : cfg.gator with
    | none => simp [hb]
    | some g => simp [hb, hgate g hg b]
  have s0 : filterBlock cfg false b0 = .skip false := by simp [filterBlock, e0, hcur, i0]
  have s1 : filterBlock cfg false b1 = .skip false := by simp [filterBlock, e1, hcur, i1]
  have s2 : filterBlock cfg false b2 = .skip true := by simp [filterBlock, e2, hcur, href]
  rw [hp]
  simp [readerOf, admittedBlocks, readStep, s0, s1, s2, pub b3 e3, pub b4 e4]

/-- C1 (as amended). The resume cursor is exclusive in `streamReader`. For five
blocks numbered `N - 2` to `N + 2`, all at or above the start number, with
distinct identities, a gate that is absent or admits every block, and the
cursor on the identity of block `N`: every run of the pipeline that completes
without termination has sent on the output queue exactly the blocks `N + 1`
and `N + 2`, each with its transform result; and every run on which no
termination was requested can be played on to completion when the transform
succeeds on these two blocks and the transform concurrency is at least 1. The
block that matches the cursor is skipped. -/
theorem resume_cursor_exclusive (cfg : StreamConfig) (N : Nat) (b0 b1 b2 b3 b4 : Block)
    (ref : BlockRef) (hN : 2 ≤ N)
    (hnums : b0.num = N - 2 ∧ b1.num = N - 1 ∧ b2.num = N ∧ b3.num = N + 1 ∧ b4.num = N + 2)
    (hstart : cfg.startBlockNum ≤ N - 2)
    (hids : [b0.id, b1.id, b2.id, b3.id, b4.id].Nodup)
    (hgate : ∀ g, cfg.gator = some g → ∀ b, g b = true)
    (hcur : cfg.prevLastBlockRead = some ref) (href : ref.id = b2.id) :
    (∀ sched t, run cfg sched (Pipeline.init cfg (readerOf [b0, b1, b2, b3, b4]) none) = some t →
      t.fwdDone = true → t.shutter = none →
      t.output.map (fun pb => pb.block) = [b3, b4] ∧
      ∀ pb ∈ t.output, preprocessResult cfg pb.block = .ok pb.obj) ∧
    (1 ≤ cfg.preprocessorThreadCount →
      (∃ o, preprocessResult cfg b3 = .ok o) → (∃ o, preprocessResult cfg b4 = .ok o) →
      ∀ sched s, run cfg sched (Pipeline.init cfg (readerOf [b0, b1, b2, b3, b4]) none) = some s →
        s.shutter = none →
        ∃ more t,
          run cfg (sched ++ more) (Pipeline.init cfg (readerOf [b0, b1, b2, b3, b4]) none)
            = some t ∧
          t.fwdDone = true ∧ t.shutter = none) := by
  have hadm := admittedBlocks_resume cfg N b0 b1 b2 b3 b4 ref hN hnums hstart hids hgate hcur href
  constructor
  · intro sched t hrun hdone hsh
    have := run_output hrun hdone hsh
    rw [hadm] at this
    exact this
  · intro hc h3 h4 sched s hrun hsh
    obtain ⟨more, t, ht, hd, hs⟩ := can_complete cfg hc
      (admittedBlocks cfg (initialPassed cfg) (readerOf [b0, b1, b2, b3, b4]))
      (by
        intro b hb
        rw [hadm] at hb
        simp only [List.mem_cons, List.mem_singleton, List.not_mem_nil, or_false] at hb
        rcases hb with rfl | rfl
        · exact h3
        · exact h4)
      s ((Inv.init cfg _ none).run sched hrun) (Live.along sched (Live.atStart cfg _ none) hrun) hsh
    exact ⟨more, t, by rw [run_append, hrun]; exact ht, hd, hs⟩

theorem resume_cursor_exclusive_witness :
    (∀ sched t,
      run resumeConfig sched (Pipeline.init resumeConfig (readerOf fiveBlocks) none) = some t →
      t.fwdDone = true → t.shutter = none →
      t.output.map (fun pb => pb.block) = [sampleBlock "d" 13 [], sampleBlock "e" 14 []] ∧
      ∀ pb ∈ t.output, preprocessResult resumeConfig pb.block = .ok pb.obj) ∧
    (1 ≤ resumeConfig.preprocessorThreadCount →
      (∃ o, preprocessResult resumeConfig (sampleBlock "d" 13 []) = .ok o) →
      (∃ o, preprocessResult resumeConfig (sampleBlock "e" 14 []) = .ok o) →
      ∀ sched s,
        run resumeConfig sched (Pipeline.init resumeConfig (readerOf fiveBlocks) none) = some s →
        s.shutter = none →
        ∃ more t,
          run resumeConfig (sched ++ more)
            (Pipeline.init resumeConfig (readerOf fiveBlocks) none) = some t ∧
          t.fwdDone = true ∧ t.shutter = none) :=
  resume_cursor_exclusive resumeConfig 12 (sampleBlock "a" 10 []) (sampleBlock "b" 11 [])
    (sampleBlock "c" 12 []) (sampleBlock "d" 13 []) (sampleBlock "e" 14 []) ⟨"c", 12⟩
    (by decide) (by decide) (by decide) (by decide) (fun g hg => by cases hg) rfl rfl

/-- C1 (counterexample). Blocks 10 to 14 with the cursor on block 12: the
lock-step run completes and has sent blocks 13 and 14 only; block 12, which
matches the cursor, is not delivered. -/
theorem resume_cursor_not_inclusive :
    (run resumeConfig (lockstep resumeConfig (initialPassed resumeConfig) (readerOf fiveBlocks))
        (Pipeline.init resumeConfig (readerOf fiveBlocks) none)).map
      (fun t => (t.fwdDone, t.shutter, t.output.map (fun pb => pb.block.num)))
      = some (true, none, [13, 14]) := by
  decide

/-! ## Cold recovery (C4) -/

/-- What the recovery engine leaves behind when `Run` returns in merged-files
mode, under any schedule: a shutter terminating with no error, the captured
target, handed to the handler last and first among the targets; or a shutter
terminating with an error. -/
theorem recoveryRun_cases (p : ATMCachedBlockPayload) (env : RecoveryEnv)
    (hmode : env.oneBlockFileMode = false) (sched : List Move) (sh : Shutter)
    (block : Option Block) (evs : List Event)
    (h : recoveryRun p env sched = some (sh, block, evs)) :
    (sh = some none ∧ ∃ b o pre, block = some b ∧ isTarget p b = true ∧
      delivered evs = pre ++ [⟨b, o⟩] ∧ ∀ pb ∈ pre, isTarget p pb.block = false) ∨
    (∃ e, sh = some (some e)) := by
  unfold recoveryRun at h
  simp only [hmode, Bool.false_eq_true, if_false, FileSource.RunUnder] at h
  cases hr : runTasks (recoverySource p env) env.parallelDownloads env.world sched
      (Tasks.init (recoverySource p env) none) with
  | none => rw [hr] at h; cases h
  | some s =>
    rw [hr] at h
    by_cases hl : s.locator = .returned
    · simp only [hl, if_true, Option.some.injEq, Prod.mk.injEq] at h
      obtain ⟨h1, h2, h3⟩ := h
      have hsafe : Safe p s :=
        Safe.schedule (recoverySource p env) rfl _ _ sched (Safe.initial p _) hr
      cases hsh : s.shutter with
      | none => exact absurd hsh (hsafe.returned hl)
      | some x =>
        cases x with
        | none =>
          obtain ⟨⟨b, o, pre, hb, ht, hd, hpre⟩, _⟩ := hsafe.clean hsh
          left
          refine ⟨by rw [← h1, hsh], b, o, pre, by rw [← h2, hb], ht, by rw [← h3, hd], hpre⟩
        | some e => exact Or.inr ⟨e, by rw [← h1, hsh]⟩
    · simp [hl] at h

/-- When no collaborator fails the recovery engine does not terminate on an
error, under any schedule. -/
theorem recoveryRun_reliable (p : ATMCachedBlockPayload) (env : RecoveryEnv)
    (hmode : env.oneBlockFileMode = false) (hrel : Reliable env) (sched : List Move)
    (sh : Shutter) (block : Option Block) (evs : List Event)
    (h : recoveryRun p env sched = some (sh, block, evs)) (e : Err) : sh ≠ some (some e) := by
  unfold recoveryRun at h
  simp only [hmode, Bool.false_eq_true, if_false, FileSource.RunUnder] at h
  cases hr : runTasks (recoverySource p env) env.parallelDownloads env.world sched
      (Tasks.init (recoverySource p env) none) with
  | none => rw [hr] at h; cases h
  | some s =>
    rw [hr] at h
    by_cases hl : s.locator = .returned
    · simp only [hl, if_true, Option.some.injEq, Prod.mk.injEq] at h
      have hpre : ∀ b, ∃ o,
          preprocessResult ((recoverySource p env).streamConfig none) b = .ok o := by
        intro b
        unfold preprocessResult
        cases hf : ((recoverySource p env).streamConfig none).preprocFunc with
        | none => exact ⟨.nilObj, rfl⟩
        | some f => exact hrel.2.2 f hf b
      have hun : Unfailing s :=
        Unfailing.throughout (recoverySource p env) rfl _ _ hrel.1 hrel.2.1 hpre sched
          (Unfailing.begin _) hr
      rw [← h.1]
      exact hun.1 e
    · simp [hl] at h

/-- The sample environment with a steady store has no failing collaborator. -/
theorem reliable_sample : Reliable (recoveryEnv steadyStore (readerOf sampleBatch)) := by
  refine ⟨?_, ?_, ?_⟩
  · intro t s hs name
    simp only [recoveryEnv, List.mem_singleton] at hs
    subst hs
    exact ⟨⟨_, rfl⟩, ⟨_, rfl⟩⟩
  · intro bytes
    refine ⟨readerOf sampleBatch, rfl, ?_⟩
    intro e he
    simp [readerOf, sampleBatch] at he
  · intro f hf
    cases hf

/-- The invariant of an engine whose stores never hold a file: under any
schedule it keeps polling. -/
theorem idle_engine (p : ATMCachedBlockPayload) (reader : BlockReader) :
    ∀ (sched : List Move) (evs : List Event) (d t : Nat),
      runTasks (recoverySource p (recoveryEnv emptyStore reader)) 2
          (fun t => ⟨emptyStore t, []⟩) sched
          ⟨none, none, evs, ⟨p.blockNum, d⟩, t, .polling, [], 0, .atSelect⟩ = none ∨
      ∃ evs1 d1 t1,
        runTasks (recoverySource p (recoveryEnv emptyStore reader)) 2
          (fun t => ⟨emptyStore t, []⟩) sched
          ⟨none, none, evs, ⟨p.blockNum, d⟩, t, .polling, [], 0, .atSelect⟩
        = some ⟨none, none, evs1, ⟨p.blockNum, d1⟩, t1, .polling, [], 0, .atSelect⟩ := by
  intro sched
  induction sched with
  | nil => intro evs d t; exact Or.inr ⟨evs, d, t, rfl⟩
  | cons m rest ih =>
    intro evs d t
    cases m with
    | locate =>
      have hp := poll_miss (recoverySource p (recoveryEnv emptyStore reader)).locatorConfig
        ⟨emptyStore t, []⟩ ⟨p.blockNum, d⟩ (by
          intro s hs
          simp only [List.mem_singleton] at hs
          subst hs
          simp [emptyStore, storeWith])
      have hstep : stepTasks (recoverySource p (recoveryEnv emptyStore reader)) 2
          (fun t => ⟨emptyStore t, []⟩) .locate
          ⟨none, none, evs, ⟨p.blockNum, d⟩, t, .polling, [], 0, .atSelect⟩
          = some ⟨none, none,
              evs ++ (poll (recoverySource p (recoveryEnv emptyStore reader)).locatorConfig
                ⟨emptyStore t, []⟩ ⟨p.blockNum, d⟩).1,
              ⟨p.blockNum, (recoverySource p (recoveryEnv emptyStore reader)).locatorConfig.retryDelay⟩,
              t + 1, .polling, [], 0, .atSelect⟩ := by
        simp [stepTasks, stepLocate, Shutter.isTerminating, hp]
      simp only [runTasks, hstep]
      exact ih _ _ _
    | locateCancel => left; simp [runTasks, stepTasks, stepLocateCancel]
    | openFile k => left; simp [runTasks, stepTasks, stepOpen]
    | stream k a => left; cases a <;> simp [runTasks, stepTasks, stepStream]
    | fileReturn k => left; simp [runTasks, stepTasks, stepFileReturn]
    | sink => left; simp [runTasks, stepTasks, stepSink]
    | sinkCancel => left; simp [runTasks, stepTasks, stepSinkCancel, Shutter.isTerminating]

/-- The recovery engine of a payload never returns, under any schedule, when
the store never holds a file. -/
theorem idle_never_returns (p : ATMCachedBlockPayload) (reader : BlockReader)
    (sched : List Move) : p.GetUnder (recoveryEnv emptyStore reader) sched = none := by
  have hrun : recoveryRun p (recoveryEnv emptyStore reader) sched = none := by
    unfold recoveryRun FileSource.RunUnder
    have hmode : (recoveryEnv emptyStore reader).oneBlockFileMode = false := rfl
    simp only [hmode, Bool.false_eq_true, if_false]
    rcases idle_engine p reader sched [] 0 0 with h | ⟨evs1, d1, t1, h⟩
    · have h2 : runTasks (recoverySource p (recoveryEnv emptyStore reader))
          (recoveryEnv emptyStore reader).parallelDownloads (recoveryEnv emptyStore reader).world
          sched (Tasks.init (recoverySource p (recoveryEnv emptyStore reader)) none) = none := h
      rw [h2]
    · have h2 : runTasks (recoverySource p (recoveryEnv emptyStore reader))
          (recoveryEnv emptyStore reader).parallelDownloads (recoveryEnv emptyStore reader).world
          sched (Tasks.init (recoverySource p (recoveryEnv emptyStore reader)) none)
          = some ⟨none, none, evs1, ⟨p.blockNum, d1⟩, t1, .polling, [], 0, .atSelect⟩ := h
      rw [h2]
      simp
  have hc : (recoveryEnv emptyStore reader).cacheRead p.blockId = ⟨[], false, none⟩ := rfl
  unfold ATMCachedBlockPayload.GetUnder
  simp [hrun, hc]

/-- C4 (amended). Cold recovery in `ATMCachedBlockPayload.Get`, the engine
being in merged-files mode and whatever the constructor sets besides the start
number and the handler. When the cache read hands out no data (and does not
report the key found with an error), `Get` runs an engine starting at the
target number whose handler captures the first block handed to it whose
number and identity both equal the target and then requests shutdown with no
error.

Under every schedule of the goroutines of the engine, whenever `Get` returns:
either the engine terminated with no error, and then `Get` returns what the
payload of the captured target returns, that block being the last one handed
to the handler and no earlier one a target; or the engine terminated on an
error and `Get` returns that error with nil data, whether or not the target
was handed over meanwhile. It returns in no other way: it dereferences no
missing block and builds no error of its own.

When no collaborator ever fails (existence checks, opens, decoding,
transform), the second case does not arise: under every schedule, whenever
`Get` returns it returns what the payload of the captured target returns.

There is a schedule on which `Get` returns the payload of the target: when the
file of the target is missing from every store at `m` polls, then found on
store `i`, opened and decoded as the blocks `pre`, none of them a target,
followed by the target `b`, the gate admitting `b` and the transform succeeding
on the admitted blocks, the lock-step schedule hands the admitted blocks of
`pre` and then `b` to the handler, each with its transform result, and `Get`
returns what the payload of `b` returns. -/
theorem cold_recovery (p : ATMCachedBlockPayload) (env : RecoveryEnv)
    (hmiss : (env.cacheRead p.blockId).found = false ∨ (env.cacheRead p.blockId).err = none)
    (hempty : (env.cacheRead p.blockId).data = [])
    (hmode : env.oneBlockFileMode = false) :
    (∀ (sched : List Move) (out : Outcome GetReturn) (ev : Option (List Event)),
      p.GetUnder env sched = some (out, ev) →
      (∃ b o pre evs, ev = some evs ∧ out = .ret b.payloadGet ∧ isTarget p b = true ∧
        delivered evs = pre ++ [⟨b, o⟩] ∧ ∀ pb ∈ pre, isTarget p pb.block = false) ∨
      (∃ e evs, ev = some evs ∧ out = .ret ⟨[], some e⟩)) ∧
    (Reliable env →
      ∀ (sched : List Move) (out : Outcome GetReturn) (ev : Option (List Event)),
        p.GetUnder env sched = some (out, ev) →
        ∃ b o pre evs, ev = some evs ∧ out = .ret b.payloadGet ∧ isTarget p b = true ∧
          delivered evs = pre ++ [⟨b, o⟩] ∧ ∀ pb ∈ pre, isTarget p pb.block = false) ∧
    (∀ (m i : Nat) (si : Store) (bytes : Bytes) (pre : List Block) (b : Block)
        (rest : BlockReader),
      (∀ j, j < m → ∀ s ∈ (env.world j).primary :: (env.world j).secondaries,
        s.fileExists (baseFilename (baseBlockNum p.blockNum)) = .ok false) →
      (∀ j, j < i → ∃ s, (env.world m).get j = some s ∧
        s.fileExists (baseFilename (baseBlockNum p.blockNum)) = .ok false) →
      (env.world m).get i = some si →
      si.fileExists (baseFilename (baseBlockNum p.blockNum)) = .ok true →
      si.openObject (baseFilename (baseBlockNum p.blockNum)) = .ok bytes →
      env.blockReaderFactory bytes = .ok (readerOf pre ++ ReadResult.ok b :: rest) →
      (∀ x ∈ pre, isTarget p x = false) → isTarget p b = true →
      1 ≤ env.preprocessorThreadCount →
      admits ((recoverySource p env).streamConfig none) b = true →
      (∀ x ∈ pre ++ [b], admits ((recoverySource p env).streamConfig none) x = true →
        ∃ o, preprocessResult ((recoverySource p env).streamConfig none) x = .ok o) →
      ∃ evs,
        p.GetUnder env
            (recoveryMoves ((recoverySource p env).streamConfig none) m (readerOf (pre ++ [b])))
          = some (.ret b.payloadGet, some evs) ∧
        (delivered evs).map (fun pb => pb.block)
          = pre.filter (admits ((recoverySource p env).streamConfig none)) ++ [b] ∧
        ∀ pb ∈ delivered evs,
          preprocessResult ((recoverySource p env).streamConfig none) pb.block = .ok pb.obj) := by
  have hcond : ((env.cacheRead p.blockId).found && (env.cacheRead p.blockId).err.isSome)
      = false := by
    rcases hmiss with h | h
    · simp [h]
    · simp [h]
  have hlen : (env.cacheRead p.blockId).data.length = 0 := by simp [hempty]
  refine ⟨?_, ?_, ?_⟩
  · intro sched out ev hget
    unfold ATMCachedBlockPayload.GetUnder at hget
    simp only [hcond, Bool.false_eq_true, if_false, hlen, if_true] at hget
    cases hr : recoveryRun p env sched with
    | none => rw [hr] at hget; cases hget
    | some r =>
      obtain ⟨sh, block, evs⟩ := r
      rw [hr] at hget
      rcases recoveryRun_cases p env hmode sched sh block evs hr with
        ⟨hsh, b, o, pre, hb, ht, hd, hpre⟩ | ⟨e, hsh⟩
      · left
        simp only [hsh, Shutter.err, hb, Option.some.injEq, Prod.mk.injEq] at hget
        exact ⟨b, o, pre, evs, hget.2.symm, hget.1.symm, ht, hd, hpre⟩
      · right
        simp only [hsh, Shutter.err, Option.some.injEq, Prod.mk.injEq] at hget
        exact ⟨e, evs, hget.2.symm, hget.1.symm⟩
  · intro hrel sched out ev hget
    unfold ATMCachedBlockPayload.GetUnder at hget
    simp only [hcond, Bool.false_eq_true, if_false, hlen, if_true] at hget
    cases hr : recoveryRun p env sched with
    | none => rw [hr] at hget; cases hget
    | some r =>
      obtain ⟨sh, block, evs⟩ := r
      rw [hr] at hget
      rcases recoveryRun_cases p env hmode sched sh block evs hr with
        ⟨hsh, b, o, pre, hb, ht, hd, hpre⟩ | ⟨e, hsh⟩
      · simp only [hsh, Shutter.err, hb, Option.some.injEq, Prod.mk.injEq] at hget
        exact ⟨b, o, pre, evs, hget.2.symm, hget.1.symm, ht, hd, hpre⟩
      · exact absurd hsh (recoveryRun_reliable p env hmode hrel sched sh block evs hr e)
  · intro m i si bytes pre b rest hlack hlacki hget hhas hopen hread hpre hb hth hadm htr
    have hfs : (recoverySource p env).handler = coldHandler p := rfl
    have hth2 : 1 ≤ (recoverySource p env).preprocessorThreadCount := hth
    have hpubb := filterBlock_admits _ b hadm
    obtain ⟨o, ho⟩ := htr b (by simp) hadm
    have hadmpre : admittedBlocks ((recoverySource p env).streamConfig none) true (readerOf pre)
        = pre.filter (admits ((recoverySource p env).streamConfig none)) :=
      admittedBlocks_readerOf ((recoverySource p env).streamConfig none) rfl pre
    obtain ⟨loop1, evs1, hc, hd1, hrunA⟩ := locate_misses (recoverySource p env)
      env.parallelDownloads env.world m 0 ⟨p.blockNum, 0⟩ []
      (fun j hj => by rw [Nat.zero_add]; exact hlack j hj)
    have hc2 : loop1.currentIndex = p.blockNum := hc
    obtain ⟨evs2, hd2, hrunB⟩ := locate_hit (recoverySource p env) env.parallelDownloads
      env.world (0 + m) loop1 evs1 i si bytes (readerOf pre ++ ReadResult.ok b :: rest)
      (by rw [Nat.zero_add, hc2]; exact hlacki) (by rw [Nat.zero_add]; exact hget)
      (by rw [hc2]; exact hhas) (by rw [hc2]; exact hopen) hread
    obtain ⟨le1, sh1, new, hnew, hobj, hrunC⟩ := lockstep_blocks p (recoverySource p env)
      env.parallelDownloads hfs hth2 env.world (afterHit loop1) (0 + m + 1) i
      (baseFilename (baseBlockNum loop1.currentIndex)) si pre hpre
      (fun x hx => by
        rw [hadmpre] at hx
        obtain ⟨hx1, hx2⟩ := List.mem_filter.1 hx
        exact htr x (List.mem_append_left _ hx1) hx2)
      (ReadResult.ok b :: rest) none [] evs2 none
    obtain ⟨s, hrunD, hl, hsh, hhs, hev⟩ := lockstep_target p (recoverySource p env)
      env.parallelDownloads hfs hth2 env.world (afterHit loop1) (0 + m + 1) i
      (baseFilename (baseBlockNum loop1.currentIndex)) si b o rest le1 ([] ++ new)
      (evs2 ++ new.map Event.processBlock) sh1 hpubb ho hb
    have hmoves : recoveryMoves ((recoverySource p env).streamConfig none) m
          (readerOf (pre ++ [b]))
        = List.replicate m .locate ++ (.locate :: .locate :: .sink :: .openFile 0 ::
            (lockstepMoves ((recoverySource p env).streamConfig none) true (readerOf pre) ++
              [.stream 0 .main, .stream 0 .forward, .stream 0 (.preprocess 0),
               .stream 0 .forward, .sink, .sink, .locate])) := by
      have hr : readerOf (pre ++ [b]) = readerOf pre ++ [ReadResult.ok b] := by simp [readerOf]
      have hi : initialPassed ((recoverySource p env).streamConfig none) = true := rfl
      have hlast : lockstepMoves ((recoverySource p env).streamConfig none) true
          [ReadResult.ok b]
          = [.stream 0 .main, .stream 0 .forward, .stream 0 (.preprocess 0),
             .stream 0 .forward, .sink, .sink] := by
        simp [lockstepMoves, readStep, hpubb]
      unfold recoveryMoves
      rw [hr, hi, lockstepMoves_append, hlast]
      simp
    have hrun : runTasks (recoverySource p env) env.parallelDownloads env.world
        (recoveryMoves ((recoverySource p env).streamConfig none) m (readerOf (pre ++ [b])))
        (Tasks.init (recoverySource p env) none) = some s := by
      rw [hmoves]
      have h0 : Tasks.init (recoverySource p env) none
          = ⟨none, none, [], ⟨p.blockNum, 0⟩, 0, .polling, [], 0, .atSelect⟩ := rfl
      rw [h0, hrunA, hrunB, hrunC]
      exact hrunD
    refine ⟨s.events, ?_, ?_, ?_⟩
    · unfold ATMCachedBlockPayload.GetUnder
      simp only [hcond, Bool.false_eq_true, if_false, hlen, if_true, recoveryRun, hmode,
        FileSource.RunUnder, hrun, hl, hsh, Shutter.err, hhs]
    · rw [hev, delivered_append, delivered_append, delivered_processBlocks, hd2, hd1]
      simp [delivered, hnew, hadmpre]
    · intro pb hpb
      rw [hev, delivered_append, delivered_append, delivered_processBlocks, hd2, hd1] at hpb
      simp only [delivered, List.filterMap_nil, List.nil_append, List.filterMap_cons,
        List.mem_append, List.mem_singleton] at hpb
      rcases hpb with hpb | hpb
      · exact hobj pb hpb
      · rw [hpb]; exact ho

theorem cold_recovery_witness :
    Reliable (recoveryEnv steadyStore (readerOf sampleBatch)) ∧
    ∃ evs,
      samplePayload.GetUnder (recoveryEnv steadyStore (readerOf sampleBatch))
          (recoveryMoves ((recoverySource samplePayload
              (recoveryEnv steadyStore (readerOf sampleBatch))).streamConfig none) 0
            (readerOf ([sampleBlock "a" 10 [1], sampleBlock "b" 11 [2]]
              ++ [sampleBlock "c" 12 [3]])))
        = some (.ret (sampleBlock "c" 12 [3]).payloadGet, some evs) ∧
      (delivered evs).map (fun pb => pb.block)
        = [sampleBlock "a" 10 [1], sampleBlock "b" 11 [2]].filter
            (admits ((recoverySource samplePayload
              (recoveryEnv steadyStore (readerOf sampleBatch))).streamConfig none))
          ++ [sampleBlock "c" 12 [3]] ∧
      ∀ pb ∈ delivered evs,
        preprocessResult ((recoverySource samplePayload
          (recoveryEnv steadyStore (readerOf sampleBatch))).streamConfig none) pb.block
          = .ok pb.obj :=
  ⟨reliable_sample,
   (cold_recovery samplePayload (recoveryEnv steadyStore (readerOf sampleBatch)) (Or.inl rfl) rfl
      rfl).2.2 0 0 (storeWith ["0000000000"]) []
    [sampleBlock "a" 10 [1], sampleBlock "b" 11 [2]] (sampleBlock "c" 12 [3])
    [ReadResult.ok (sampleBlock "d" 13 [4])]
    (fun j hj => absurd hj (Nat.not_lt_zero j)) (fun j hj => absurd hj (Nat.not_lt_zero j))
    rfl rfl rfl rfl (by decide) (by decide) (Nat.le_refl 1) rfl
    (fun _ _ _ => ⟨.nilObj, rfl⟩)⟩

/-- C4 (counterexample). First, the payload of a block that is in no batch:
when the store fails the existence check that follows the first file, the
engine stops with no block matching, and `Get` returns the wrapped store
error, which is not a not-found error; when the store merely never holds a
file, `Get` returns under no schedule. Second, the payload of block `c` whose
file is torn after `c`: on a schedule where the read loop meets the decode
error between the `IsTerminating` test of `launchSink` and the call of the
handler on `c`, the handler captures `c` and requests shutdown with no error,
yet `Get` returns the decode error and not the payload of `c`. -/
theorem cold_recovery_no_not_found :
    (missingPayload.GetUnder (recoveryEnv brokenStore (readerOf sampleBatch)) wholeFileMoves
        = some (.ret ⟨[], some (.wrap "reading file existence" (.msg "connection reset"))⟩,
            some [.fileExists 0 "0000000000", .openObject 0 "0000000000",
                  .processBlock ⟨sampleBlock "c" 12 [3], .nilObj⟩,
                  .processBlock ⟨sampleBlock "d" 13 [4], .nilObj⟩,
                  .fileExists 0 "0000000100"]) ∧
      (Err.wrap "reading file existence" (.msg "connection reset")).isNotFound = false) ∧
    (¬ ∃ sched, (missingPayload.GetUnder (recoveryEnv emptyStore (readerOf sampleBatch))
        sched).isSome = true) ∧
    samplePayload.GetUnder (recoveryEnv steadyStore tornReader) readAheadMoves
      = some (.ret ⟨[], some (.wrap "processing of file failed"
            (.wrap "error processing incoming file" (.msg "corrupt block")))⟩,
          some [.fileExists 0 "0000000000", .openObject 0 "0000000000",
                .processBlock ⟨sampleBlock "c" 12 [3], .nilObj⟩]) := by
  refine ⟨by decide, ?_, by decide⟩
  rintro ⟨sched, h⟩
  rw [idle_never_returns missingPayload (readerOf sampleBatch) sched] at h
  cases h

end Bstream
